import Mathlib

/-!
# Finite-difference Poisson assembly and PCG solve (`main.cpp`)

A shallow embedding of `main` of `main.cpp`:

* index arithmetic is `u32` arithmetic, written on `Nat` with an explicit `% 2^32`;
* in the assembly `f64` values are modelled in exact arithmetic by `ℚ`; the PCG loop and
  the triplet values (`coefficientsOver`) are also written over any scalar type with the
  operations used on `f64`: `ℚ` is the exact-arithmetic instance, `F64` an instance with
  infinities, NaN and overflow;
* Eigen dense vectors are index functions (entry `k` is `v[k]`), a sparse matrix is its
  entry function;
* the triplet vector `coefficients` is a `List Triplet`, `push_back` appends at the end;
* a counted loop `for (u32 k = lo; k < hi; k++)` is a left fold over `forRange lo hi`.

The matrix size `n = imax*jmax` is a `u32` in the source (line 30); the assembly theorems
assume it is the true number of grid points, `imax * jmax < 2^32`. Without that the
flattened index wraps around (`flatten_wraps`).
-/

namespace Poisson

/-! ## Machine integers -/

/-- Truncation of a natural number to the `u32` range. -/
@[irreducible]
def u32 (n : Nat) : Nat := n % 2 ^ 32

/-- The `u32` subtraction `a - b` (wraps around below zero). -/
@[irreducible]
def u32sub (a b : Nat) : Nat := (2 ^ 32 + a - b % 2 ^ 32) % 2 ^ 32

/-- The index expression `j*imax + i` of `main.cpp` (lines 66, 81, 89) on `u32` operands. -/
def flatten (i j imax : Nat) : Nat := u32 (j * imax + i)

/-- The index expression `j*imax + i` of the West and East loops (lines 97, 105), where
`i` is an `i64`: the `u32` product is widened, added to `i`, and the sum is narrowed to
the `u32` variable `idx`. -/
def flattenI64 (i j imax : Nat) : Nat := u32 (u32 (j * imax) + i)

/-- The values taken by the counter of `for (u32 k = lo; k < hi; k++)`. -/
def forRange (lo hi : Nat) : List Nat := List.range' lo (hi - lo)

/-! ## Data model -/

/-- An `Eigen::Triplet<f64>`: `(row, col, value)`. -/
structure Triplet where
  row : Nat
  col : Nat
  value : ℚ
deriving DecidableEq

/-- The grid `Mesh::gridStruct`: the coordinate vectors `x` and `y`. -/
structure gridStruct where
  x : Nat → ℚ
  y : Nat → ℚ

/-- The Dirichlet data `Mesh::boundaryStruct`: one vector per edge. -/
structure boundaryStruct where
  North : Nat → ℚ
  West : Nat → ℚ
  South : Nat → ℚ
  East : Nat → ℚ

/-- The variables written during assembly: the triplet vector `coefficients`, the forcing
vector `b` and the solution vector `u`. -/
structure AsmState where
  coefficients : List Triplet
  b : Nat → ℚ
  u : Nat → ℚ

/-! ## Assembly (`main.cpp` lines 48-111) -/

/-- The five `push_back`s of one interior point `(i, j)` (lines 60-72), in source order. -/
def stencil (imax : Nat) (grid : gridStruct) (j i : Nat) : List Triplet :=
  let dx1 := grid.x i - grid.x (u32sub i 1)
  let dx2 := grid.x (u32 (i + 1)) - grid.x i
  let dy1 := grid.y j - grid.y (u32sub j 1)
  let dy2 := grid.y (u32 (j + 1)) - grid.y j
  let idx := flatten i j imax
  [ ⟨idx, flatten i (u32sub j 1) imax, -2 / (dy1 * (dy1 + dy2))⟩,
    ⟨idx, flatten (u32sub i 1) j imax, -2 / (dx1 * (dx1 + dx2))⟩,
    ⟨idx, flatten i j imax, 2 / (dx1 * dx2) + 2 / (dy1 * dy2)⟩,
    ⟨idx, flatten (u32 (i + 1)) j imax, -2 / (dx2 * (dx1 + dx2))⟩,
    ⟨idx, flatten i (u32 (j + 1)) imax, -2 / (dy2 * (dy1 + dy2))⟩ ]

/-- Body of the interior loop (lines 58-76): five triplets and the source term in `b`. -/
def interiorBody (imax : Nat) (grid : gridStruct) (valueSource : ℚ → ℚ → ℚ) (j : Nat)
    (s : AsmState) (i : Nat) : AsmState :=
  { s with
    coefficients := s.coefficients ++ stencil imax grid j i
    b := Function.update s.b (flatten i j imax) (valueSource (grid.x i) (grid.y j)) }

/-- Body shared by the four boundary loops (lines 81-84, 89-92, 97-100, 105-108): an
identity triplet at `idx`, and the boundary value `val` written to `b[idx]` and `u[idx]`. -/
def boundaryBody (idx : Nat) (val : ℚ) (s : AsmState) : AsmState :=
  { coefficients := s.coefficients ++ [⟨idx, idx, 1⟩]
    b := Function.update s.b idx val
    u := Function.update s.u idx val }

/-- The interior double loop (lines 56-77). -/
def interiorLoop (imax jmax : Nat) (grid : gridStruct) (valueSource : ℚ → ℚ → ℚ)
    (s : AsmState) : AsmState :=
  (forRange 1 (u32sub jmax 1)).foldl
    (fun s j => (forRange 1 (u32sub imax 1)).foldl (interiorBody imax grid valueSource j) s) s

/-- The South loop (lines 79-85), `j = 0`. -/
def southLoop (imax : Nat) (boundaries : boundaryStruct) (s : AsmState) : AsmState :=
  (forRange 1 (u32sub imax 1)).foldl
    (fun s i => boundaryBody (flatten i 0 imax) (boundaries.South i) s) s

/-- The North loop (lines 87-93), `j = jmax-1`. -/
def northLoop (imax jmax : Nat) (boundaries : boundaryStruct) (s : AsmState) : AsmState :=
  (forRange 1 (u32sub imax 1)).foldl
    (fun s i => boundaryBody (flatten i (u32sub jmax 1) imax) (boundaries.North i) s) s

/-- The West loop (lines 95-101), `i = 0` held in an `i64`. -/
def westLoop (imax jmax : Nat) (boundaries : boundaryStruct) (s : AsmState) : AsmState :=
  (forRange 0 jmax).foldl
    (fun s j => boundaryBody (flattenI64 0 j imax) (boundaries.West j) s) s

/-- The East loop (lines 103-109), `i = imax-1` held in an `i64`. -/
def eastLoop (imax jmax : Nat) (boundaries : boundaryStruct) (s : AsmState) : AsmState :=
  (forRange 0 jmax).foldl
    (fun s j => boundaryBody (flattenI64 (u32sub imax 1) j imax) (boundaries.East j) s) s

/-- The whole assembly pass (lines 48-109). `b` starts at zero (`b.setZero()`); `u` is
declared without initialiser, so its starting content `u0` is whatever the allocation
holds. Loop order: interior, South, North, West, East. -/
def assemble (imax jmax : Nat) (grid : gridStruct) (boundaries : boundaryStruct)
    (valueSource : ℚ → ℚ → ℚ) (u0 : Nat → ℚ) : AsmState :=
  eastLoop imax jmax boundaries
    (westLoop imax jmax boundaries
      (northLoop imax jmax boundaries
        (southLoop imax boundaries
          (interiorLoop imax jmax grid valueSource
            { coefficients := [], b := fun _ => 0, u := u0 }))))

/-- The matrix built by `A.setFromTriplets(coefficients.begin(), coefficients.end())`
(line 111): entry `(p, q)` is the sum of the values of all triplets at `(p, q)`
(Eigen sums duplicates), and zero when there is none. -/
def setFromTriplets (coefficients : List Triplet) (p q : Nat) : ℚ :=
  ((coefficients.filter (fun t => t.row = p ∧ t.col = q)).map (fun t => t.value)).sum

/-- The matrix `setFromTriplets` would build under the other duplicate policy, overwrite
(the last triplet at `(p, q)` wins): entry `(p, q)` is the value of the last triplet at
`(p, q)`, and zero when there is none. -/
def setFromTripletsOverwrite (coefficients : List Triplet) (p q : Nat) : ℚ :=
  match (coefficients.filter (fun t => t.row = p ∧ t.col = q)).getLast? with
  | some t => t.value
  | none => 0

/-- The assembled system matrix `A`. -/
def assembledA (imax jmax : Nat) (grid : gridStruct) (boundaries : boundaryStruct)
    (valueSource : ℚ → ℚ → ℚ) (u0 : Nat → ℚ) : Nat → Nat → ℚ :=
  setFromTriplets (assemble imax jmax grid boundaries valueSource u0).coefficients

/-! ## The triplet values in a scalar type

The values of the triplets (lines 60-72 and the four boundary loops) computed in an
arbitrary scalar type `K` carrying the operations the source uses on `f64`, with the loops
of `assemble` run on the triplet vector alone, which is all `A` depends on. With `K = ℚ`
the matrix built is `assembledA` (`assembledAOver_rat`). -/

/-- An `Eigen::Triplet<f64>` with its value in `K`. -/
structure TripletOver (K : Type) where
  row : Nat
  col : Nat
  value : K

section AssemblyOver

variable {K : Type} [Zero K] [One K] [Add K] [Sub K] [Mul K] [Div K] [Neg K] [NatCast K]

/-- The five `push_back`s of one interior point `(i, j)` (lines 60-72), in source order,
the values computed in `K`. -/
def stencilOver (imax : Nat) (x y : Nat → K) (j i : Nat) : List (TripletOver K) :=
  let dx1 := x i - x (u32sub i 1)
  let dx2 := x (u32 (i + 1)) - x i
  let dy1 := y j - y (u32sub j 1)
  let dy2 := y (u32 (j + 1)) - y j
  let idx := flatten i j imax
  [ ⟨idx, flatten i (u32sub j 1) imax, -((2 : Nat) : K) / (dy1 * (dy1 + dy2))⟩,
    ⟨idx, flatten (u32sub i 1) j imax, -((2 : Nat) : K) / (dx1 * (dx1 + dx2))⟩,
    ⟨idx, flatten i j imax, ((2 : Nat) : K) / (dx1 * dx2) + ((2 : Nat) : K) / (dy1 * dy2)⟩,
    ⟨idx, flatten (u32 (i + 1)) j imax, -((2 : Nat) : K) / (dx2 * (dx1 + dx2))⟩,
    ⟨idx, flatten i (u32 (j + 1)) imax, -((2 : Nat) : K) / (dy2 * (dy1 + dy2))⟩ ]

/-- The triplet vector `coefficients` at line 111, values in `K`: the interior double loop
(lines 56-77), then the South, North, West and East loops (lines 79-109), each boundary
pass pushing the identity triplet `(idx, idx, 1)`. -/
def coefficientsOver (imax jmax : Nat) (x y : Nat → K) : List (TripletOver K) :=
  let interior := (forRange 1 (u32sub jmax 1)).foldl
    (fun c j => (forRange 1 (u32sub imax 1)).foldl
      (fun c i => c ++ stencilOver imax x y j i) c) []
  let south := (forRange 1 (u32sub imax 1)).foldl
    (fun c i => c ++ [⟨flatten i 0 imax, flatten i 0 imax, 1⟩]) interior
  let north := (forRange 1 (u32sub imax 1)).foldl
    (fun c i => c ++ [⟨flatten i (u32sub jmax 1) imax, flatten i (u32sub jmax 1) imax, 1⟩])
    south
  let west := (forRange 0 jmax).foldl
    (fun c j => c ++ [⟨flattenI64 0 j imax, flattenI64 0 j imax, 1⟩]) north
  (forRange 0 jmax).foldl
    (fun c j => c ++ [⟨flattenI64 (u32sub imax 1) j imax, flattenI64 (u32sub imax 1) j imax, 1⟩])
    west

/-- The matrix built by `setFromTriplets` (line 111) from triplets with values in `K`:
entry `(p, q)` is the sum of the values of the triplets at `(p, q)`. -/
def setFromTripletsOver (coefficients : List (TripletOver K)) (p q : Nat) : K :=
  ((coefficients.filter (fun t => t.row = p ∧ t.col = q)).map (fun t => t.value)).sum

/-- The assembled system matrix `A` with entries in `K`. -/
def assembledAOver (imax jmax : Nat) (x y : Nat → K) : Nat → Nat → K :=
  setFromTripletsOver (coefficientsOver imax jmax x y)

end AssemblyOver

/-! ## Linear algebra and the PCG solve (`main.cpp` lines 121-168)

The solve is written over an arbitrary scalar type `K` carrying the operations the source
uses on `f64` (`+ - * /`, conversion from an integer, `==`, `<`); `std::sqrt` is a
parameter. Exact arithmetic is the instance `K = ℚ`. -/

section Solve

variable {K : Type} [Zero K] [One K] [Add K] [Sub K] [Mul K] [Div K] [NatCast K] [BEq K]
  [LT K] [∀ a b : K, Decidable (a < b)]

/-- The Euclidean inner product `a.dot(b)` of two vectors of size `n`. -/
def dot (n : Nat) (a b : Nat → K) : K :=
  (List.range n).foldl (fun acc k => acc + a k * b k) 0

/-- The product `A*v` of an `n × n` matrix and a vector of size `n`. -/
def matVec (n : Nat) (A : Nat → Nat → K) (v : Nat → K) : Nat → K :=
  fun p => dot n (A p) v

/-- The Jacobi preconditioner `Mm1 = A.diagonal().asDiagonal().inverse()` (line 122):
the diagonal matrix with entries `1 / A[k,k]`. -/
def Mm1 (A : Nat → Nat → K) : Nat → Nat → K :=
  fun p q => if p = q then 1 / A p p else 0

/-- The variables of the PCG iteration (lines 129-137). -/
structure PCGState (K : Type) where
  kappa : Nat
  err : K
  u : Nat → K
  rk : Nat → K
  rkm1 : Nat → K
  rkm2 : Nat → K
  zk : Nat → K
  zkm1 : Nat → K
  zkm2 : Nat → K
  pk : Nat → K
  Apk : Nat → K
  alphak : K
  betak : K

/-- How the `do ... while` loop of lines 140-168 ends: the loop condition fails and
control falls through (`finished`), `FATAL_ITERATION` exits the process reporting `kappa`
(`fatalIteration`), or the evaluation budget of the model is used up (`outOfFuel`). -/
inductive PCGOutcome (K : Type) where
  | finished (s : PCGState K)
  | fatalIteration (kappa : Nat)
  | outOfFuel

/-- State at loop entry (lines 129-138): `kappa = 0`, `err = 1/0.0`, `rk = b - A*u`; the
vectors `rkm1 rkm2 zk zkm1 zkm2 pk Apk` and the scalars `alphak betak` are declared without
initialiser and hold whatever `junk` holds. -/
def pcgInit (n : Nat) (A : Nat → Nat → K) (b u : Nat → K) (junk : PCGState K) :
    PCGState K :=
  { junk with
    kappa := 0
    err := 1 / 0
    u := u
    rk := fun k => b k - matVec n A u k }

/-- One pass through the loop body up to the computation of `err` (lines 143-165). -/
def pcgBody (n : Nat) (A M : Nat → Nat → K) (sqrt : K → K) (s : PCGState K) :
    PCGState K :=
  let zk := matVec n M s.rk
  let kappa := u32 (s.kappa + 1)
  let rkm2 := s.rkm1
  let rkm1 := s.rk
  let zkm2 := s.zkm1
  let zkm1 := zk
  let betak := if kappa = 1 then s.betak else dot n rkm1 zkm1 / dot n rkm2 zkm2
  let pk := if kappa = 1 then zk else fun k => zkm1 k + betak * s.pk k
  let Apk := matVec n A pk
  let alphak := dot n rkm1 zkm1 / dot n pk Apk
  let u := fun k => s.u k + alphak * pk k
  let rk := fun k => rkm1 k - alphak * Apk k
  let err := sqrt (dot n rk rk / (n : K))
  { kappa := kappa, err := err, u := u, rk := rk, rkm1 := rkm1, rkm2 := rkm2, zk := zk,
    zkm1 := zkm1, zkm2 := zkm2, pk := pk, Apk := Apk, alphak := alphak, betak := betak }

/-- The macro `FATAL_ITERATION(kappa, iterError)` of `fatals.hpp`: nothing when
`iterError == iterError`, otherwise the process exits reporting `kappa`. -/
def FATAL_ITERATION (kappa : Nat) (iterError : K) : Option Nat :=
  if iterError == iterError then none else some kappa

/-- The `do { ... } while ((kappa < kappaMax) && (err > tol))` loop (lines 140-168); each
unit of `fuel` pays for one pass through the body. -/
def pcgLoop (n : Nat) (A M : Nat → Nat → K) (sqrt : K → K) (kappaMax : Nat) (tol : K) :
    Nat → PCGState K → PCGOutcome K
  | 0, _ => PCGOutcome.outOfFuel
  | fuel + 1, s =>
    let s' := pcgBody n A M sqrt s
    match FATAL_ITERATION s'.kappa s'.err with
    | some kappa => PCGOutcome.fatalIteration kappa
    | none =>
      if s'.kappa < kappaMax ∧ s'.err > tol then pcgLoop n A M sqrt kappaMax tol fuel s'
      else PCGOutcome.finished s'

/-- The value `kappa` the loop ends with: the counter of the final state, or the count
reported by the abort. -/
def PCGOutcome.exitKappa : PCGOutcome K → Option Nat
  | PCGOutcome.finished s => some s.kappa
  | PCGOutcome.fatalIteration kappa => some kappa
  | PCGOutcome.outOfFuel => none

/-- What the tail of one pass (lines 166-168) decides about the state `s` the body has
just produced: `some` outcome when the loop ends there (abort, or loop condition false),
`none` when the loop goes round again. -/
def pcgStop (kappaMax : Nat) (tol : K) (s : PCGState K) : Option (PCGOutcome K) :=
  match FATAL_ITERATION s.kappa s.err with
  | some kappa => some (PCGOutcome.fatalIteration kappa)
  | none => if s.kappa < kappaMax ∧ s.err > tol then none else some (PCGOutcome.finished s)

/-- The state after `m` passes through the loop body, started from `s`. -/
def pcgAfter (n : Nat) (A M : Nat → Nat → K) (sqrt : K → K) (m : Nat) (s : PCGState K) :
    PCGState K :=
  (pcgBody n A M sqrt)^[m] s

/-- The loop body with the residual update of line 163 rewritten to read `rk` in place of
`rkm1` (`rk = rk - alphak*Apk`); everything else as in `pcgBody`. -/
def pcgBodyFromRk (n : Nat) (A M : Nat → Nat → K) (sqrt : K → K) (s : PCGState K) :
    PCGState K :=
  let zk := matVec n M s.rk
  let kappa := u32 (s.kappa + 1)
  let rkm2 := s.rkm1
  let rkm1 := s.rk
  let zkm2 := s.zkm1
  let zkm1 := zk
  let betak := if kappa = 1 then s.betak else dot n rkm1 zkm1 / dot n rkm2 zkm2
  let pk := if kappa = 1 then zk else fun k => zkm1 k + betak * s.pk k
  let Apk := matVec n A pk
  let alphak := dot n rkm1 zkm1 / dot n pk Apk
  let u := fun k => s.u k + alphak * pk k
  let rk := fun k => s.rk k - alphak * Apk k
  let err := sqrt (dot n rk rk / (n : K))
  { kappa := kappa, err := err, u := u, rk := rk, rkm1 := rkm1, rkm2 := rkm2, zk := zk,
    zkm1 := zkm1, zkm2 := zkm2, pk := pk, Apk := Apk, alphak := alphak, betak := betak }

/-- The loop of lines 140-168 run with `pcgBodyFromRk` as its body. -/
def pcgLoopFromRk (n : Nat) (A M : Nat → Nat → K) (sqrt : K → K) (kappaMax : Nat) (tol : K) :
    Nat → PCGState K → PCGOutcome K
  | 0, _ => PCGOutcome.outOfFuel
  | fuel + 1, s =>
    let s' := pcgBodyFromRk n A M sqrt s
    match FATAL_ITERATION s'.kappa s'.err with
    | some kappa => PCGOutcome.fatalIteration kappa
    | none =>
      if s'.kappa < kappaMax ∧ s'.err > tol then pcgLoopFromRk n A M sqrt kappaMax tol fuel s'
      else PCGOutcome.finished s'

/-- The iterate of the textbook two-term PCG recurrence: `u_k`, `r_k`, `p_k`, and with
them the previous residual `r_{k-1}` that the coefficient of `p_{k+1}` needs. -/
structure TextbookState (K : Type) where
  u : Nat → K
  r : Nat → K
  p : Nat → K
  rPrev : Nat → K

/-- The textbook two-term PCG recurrence, as the specification writes it:
`r_0 = b - A*u_0`, `z_k = M*r_k`, `p_1 = z_0`,
`p_{k+1} = z_k + (r_k.z_k)/(r_{k-1}.z_{k-1}) * p_k`, `alpha = (r_k.z_k)/(p.Ap)`,
`u_{k+1} = u_k + alpha*p`, `r_{k+1} = r_k - alpha*A*p` with `p = p_{k+1}`.
There is no `p_0` and no `r_{-1}`; the entries standing for them at `k = 0` are zero and
are not used by the step from `0` to `1`. -/
def textbookPCG (n : Nat) (A M : Nat → Nat → K) (b u₀ : Nat → K) : Nat → TextbookState K
  | 0 =>
    { u := u₀, r := fun i => b i - matVec n A u₀ i, p := fun _ => 0, rPrev := fun _ => 0 }
  | k + 1 =>
    let t := textbookPCG n A M b u₀ k
    let z := matVec n M t.r
    let p := if k = 0 then z
      else fun i => z i + dot n t.r z / dot n t.rPrev (matVec n M t.rPrev) * t.p i
    let Ap := matVec n A p
    let alpha := dot n t.r z / dot n p Ap
    { u := fun i => t.u i + alpha * p i, r := fun i => t.r i - alpha * Ap i, p := p,
      rPrev := t.r }

/-- What the loop state and the textbook iterate share after `m` passes. -/
def MatchesTextbook (n : Nat) (M : Nat → Nat → K) (m : Nat) (s : PCGState K)
    (t : TextbookState K) : Prop :=
  s.kappa = m ∧ s.u = t.u ∧ s.rk = t.r ∧
    (1 ≤ m → s.pk = t.p ∧ s.rkm1 = t.rPrev ∧ s.zkm1 = matVec n M t.rPrev)

end Solve

/-- A one-unknown system `1 * u = 1` used as a concrete instance of the solve. -/
def oneByOne : Nat → Nat → ℚ := fun _ _ => 1

/-- A `PCGState` with every variable zero, standing for the uninitialised variables. -/
def zeroState : PCGState ℚ :=
  { kappa := 0, err := 0, u := fun _ => 0, rk := fun _ => 0, rkm1 := fun _ => 0,
    rkm2 := fun _ => 0, zk := fun _ => 0, zkm1 := fun _ => 0, zkm2 := fun _ => 0,
    pk := fun _ => 0, Apk := fun _ => 0, alphak := 0, betak := 0 }

/-! ## A scalar type with the IEEE-754 special values

`F64` is an instance of the scalar type of the program in which a value can be infinite or
NaN. A finite value is carried exactly (no rounding of the significand, no underflow, no
signed zero); a result of `+ - * /` whose magnitude reaches `2^1024 - 2^970` overflows to
the infinity of its sign, as binary64 round-to-nearest does; the special values follow the
IEEE-754 rules for `+ - * /`, `<`, `<=` and `==`. It serves as a concrete scalar semantics
on which the abort of `FATAL_ITERATION` and the overflow of a product are reachable. -/

/-- Values of the scalar model: a finite number, `+inf`, `-inf` or NaN. -/
inductive F64 where
  | finite (q : ℚ)
  | posInf
  | negInf
  | nan
deriving DecidableEq

/-- The overflow threshold of binary64: round-to-nearest takes every value of magnitude at
least `2^1024 - 2^970` (half an ulp above the largest finite number) to an infinity. -/
def F64.overflowAt : ℚ := 2 ^ 1024 - 2 ^ 970

/-- The value stored for an exact result `q`: the infinity of its sign once the magnitude
reaches `F64.overflowAt`, and `q` itself below that. -/
def F64.round (q : ℚ) : F64 :=
  if F64.overflowAt ≤ q then F64.posInf
  else if q ≤ -F64.overflowAt then F64.negInf
  else F64.finite q

/-- Addition: NaN is absorbing, `inf + (-inf)` is NaN. -/
def F64.add : F64 → F64 → F64
  | F64.nan, _ => F64.nan
  | _, F64.nan => F64.nan
  | F64.finite a, F64.finite b => F64.round (a + b)
  | F64.posInf, F64.negInf => F64.nan
  | F64.negInf, F64.posInf => F64.nan
  | F64.posInf, _ => F64.posInf
  | _, F64.posInf => F64.posInf
  | F64.negInf, _ => F64.negInf
  | _, F64.negInf => F64.negInf

/-- Negation. -/
def F64.neg : F64 → F64
  | F64.finite a => F64.finite (-a)
  | F64.posInf => F64.negInf
  | F64.negInf => F64.posInf
  | F64.nan => F64.nan

/-- The infinity with the sign of `a`, NaN for `a = 0` (the value of `a * inf`). -/
def F64.signedInf (a : ℚ) : F64 :=
  if a = 0 then F64.nan else if 0 < a then F64.posInf else F64.negInf

/-- Multiplication: NaN is absorbing, `0 * inf` is NaN. -/
def F64.mul : F64 → F64 → F64
  | F64.nan, _ => F64.nan
  | _, F64.nan => F64.nan
  | F64.finite a, F64.finite b => F64.round (a * b)
  | F64.finite a, F64.posInf => F64.signedInf a
  | F64.finite a, F64.negInf => F64.signedInf (-a)
  | F64.posInf, F64.finite b => F64.signedInf b
  | F64.negInf, F64.finite b => F64.signedInf (-b)
  | F64.posInf, F64.posInf => F64.posInf
  | F64.posInf, F64.negInf => F64.negInf
  | F64.negInf, F64.posInf => F64.negInf
  | F64.negInf, F64.negInf => F64.posInf

/-- Division: NaN is absorbing, `0/0` and `inf/inf` are NaN, `a/0` is an infinity. -/
def F64.div : F64 → F64 → F64
  | F64.nan, _ => F64.nan
  | _, F64.nan => F64.nan
  | F64.finite a, F64.finite b => if b = 0 then F64.signedInf a else F64.round (a / b)
  | F64.finite _, F64.posInf => F64.finite 0
  | F64.finite _, F64.negInf => F64.finite 0
  | F64.posInf, F64.finite b => if 0 ≤ b then F64.posInf else F64.negInf
  | F64.negInf, F64.finite b => if 0 ≤ b then F64.negInf else F64.posInf
  | F64.posInf, F64.posInf => F64.nan
  | F64.posInf, F64.negInf => F64.nan
  | F64.negInf, F64.posInf => F64.nan
  | F64.negInf, F64.negInf => F64.nan

/-- The comparison `a < b`: false as soon as one side is NaN. -/
def F64.blt : F64 → F64 → Bool
  | F64.nan, _ => false
  | _, F64.nan => false
  | F64.finite a, F64.finite b => decide (a < b)
  | F64.negInf, F64.negInf => false
  | F64.negInf, _ => true
  | F64.posInf, _ => false
  | F64.finite _, F64.posInf => true
  | F64.finite _, F64.negInf => false

/-- The comparison `a <= b`: false as soon as one side is NaN. -/
def F64.ble : F64 → F64 → Bool
  | F64.nan, _ => false
  | _, F64.nan => false
  | F64.finite a, F64.finite b => decide (a ≤ b)
  | F64.negInf, _ => true
  | F64.posInf, F64.posInf => true
  | F64.posInf, _ => false
  | F64.finite _, F64.posInf => true
  | F64.finite _, F64.negInf => false

/-- The comparison `a == b`: false as soon as one side is NaN. -/
def F64.eqb : F64 → F64 → Bool
  | F64.nan, _ => false
  | _, F64.nan => false
  | F64.finite a, F64.finite b => decide (a = b)
  | F64.posInf, F64.posInf => true
  | F64.negInf, F64.negInf => true
  | _, _ => false

instance : Zero F64 := ⟨F64.finite 0⟩

instance : One F64 := ⟨F64.finite 1⟩

instance : Add F64 := ⟨F64.add⟩

instance : Sub F64 := ⟨fun a b => F64.add a (F64.neg b)⟩

instance : Neg F64 := ⟨F64.neg⟩

instance : Mul F64 := ⟨F64.mul⟩

instance : Div F64 := ⟨F64.div⟩

instance : NatCast F64 := ⟨fun n => F64.finite (n : ℚ)⟩

instance : BEq F64 := ⟨F64.eqb⟩

instance : LT F64 := ⟨fun a b => F64.blt a b = true⟩

instance : LE F64 := ⟨fun a b => F64.ble a b = true⟩

instance F64.decLt (a b : F64) : Decidable (a < b) :=
  inferInstanceAs (Decidable (F64.blt a b = true))

/-- The one-unknown system `1 * u = 0` over `F64`, started at the exact solution `u = 0`. -/
def oneByOneF : Nat → Nat → F64 := fun _ _ => F64.finite 1

/-- A `PCGState` over `F64` with every variable zero. -/
def zeroStateF : PCGState F64 :=
  { kappa := 0, err := F64.finite 0, u := fun _ => F64.finite 0, rk := fun _ => F64.finite 0,
    rkm1 := fun _ => F64.finite 0, rkm2 := fun _ => F64.finite 0, zk := fun _ => F64.finite 0,
    zkm1 := fun _ => F64.finite 0, zkm2 := fun _ => F64.finite 0, pk := fun _ => F64.finite 0,
    Apk := fun _ => F64.finite 0, alphak := F64.finite 0, betak := F64.finite 0 }

/-- A system of four unknowns over `F64` that the solve settles in two passes:
`4*u0 - 2*u1 = 4`, `-2*u0 + 2*u1 = 0`, `u2 = 0`, `u3 = 0`, with solution `(2, 2, 0, 0)`.
Every value the two passes compute is a small dyadic number, so the exact finite
arithmetic of `F64` is the binary64 arithmetic of the run. -/
def twoPassA : Nat → Nat → F64 := fun p q =>
  F64.finite (if p = 0 ∧ q = 0 then 4 else if p = 1 ∧ q = 1 then 2
    else if (p = 0 ∧ q = 1) ∨ (p = 1 ∧ q = 0) then -2 else if p = q then 1 else 0)

/-- The right-hand side `(4, 0, 0, 0)` of the system `twoPassA`. -/
def twoPassB : Nat → F64 := fun k => F64.finite (if k = 0 then 4 else 0)

/-- The coordinate vector `(0, 2^600, 2^601, ...)`, entry `k` being `k * 2^600`: strictly
increasing, every entry up to `k = 2^53` a binary64 number, and so are the spacings. -/
def hugeGrid : Nat → F64 := fun k => F64.finite ((k : ℚ) * 2 ^ 600)

/-! ## Index expressions used during assembly -/

/-- The indexed objects of the assembly pass: the grid and boundary vectors, `b`, `u`, and
the two dimensions of `A` that a triplet's row and column address. -/
inductive ArrayName where
  | x
  | y
  | North
  | South
  | East
  | West
  | b
  | u
  | matrixRow
  | matrixCol
deriving DecidableEq

/-- One subscript evaluated by the assembly pass: the object and the index value. -/
structure Access where
  arr : ArrayName
  index : Nat

/-- Size of each indexed object (lines 37-50): `x` has `imax` entries, `y` has `jmax`,
North and South `imax`, East and West `jmax`; `b`, `u` and both dimensions of `A` have the
`u32` value `n = imax*jmax`. -/
def extent (imax jmax : Nat) : ArrayName → Nat
  | ArrayName.x => imax
  | ArrayName.y => jmax
  | ArrayName.North => imax
  | ArrayName.South => imax
  | ArrayName.East => jmax
  | ArrayName.West => jmax
  | ArrayName.b => u32 (imax * jmax)
  | ArrayName.u => u32 (imax * jmax)
  | ArrayName.matrixRow => u32 (imax * jmax)
  | ArrayName.matrixCol => u32 (imax * jmax)

/-- The subscripts of one pass through the interior body (lines 60-75), in source order. -/
def interiorAccesses (imax j i : Nat) : List Access :=
  [ ⟨ArrayName.x, i⟩, ⟨ArrayName.x, u32sub i 1⟩,
    ⟨ArrayName.x, u32 (i + 1)⟩, ⟨ArrayName.x, i⟩,
    ⟨ArrayName.y, j⟩, ⟨ArrayName.y, u32sub j 1⟩,
    ⟨ArrayName.y, u32 (j + 1)⟩, ⟨ArrayName.y, j⟩,
    ⟨ArrayName.matrixRow, flatten i j imax⟩, ⟨ArrayName.matrixCol, flatten i (u32sub j 1) imax⟩,
    ⟨ArrayName.matrixRow, flatten i j imax⟩, ⟨ArrayName.matrixCol, flatten (u32sub i 1) j imax⟩,
    ⟨ArrayName.matrixRow, flatten i j imax⟩, ⟨ArrayName.matrixCol, flatten i j imax⟩,
    ⟨ArrayName.matrixRow, flatten i j imax⟩, ⟨ArrayName.matrixCol, flatten (u32 (i + 1)) j imax⟩,
    ⟨ArrayName.matrixRow, flatten i j imax⟩, ⟨ArrayName.matrixCol, flatten i (u32 (j + 1)) imax⟩,
    ⟨ArrayName.b, flatten i j imax⟩, ⟨ArrayName.x, i⟩, ⟨ArrayName.y, j⟩ ]

/-- The subscripts of one pass through a boundary body (lines 81-84 and alike): the
triplet at `(idx, idx)`, `b[idx]` and `u[idx]`, and the two reads of the edge vector
`edge` at `k`. -/
def boundaryAccesses (edge : ArrayName) (idx k : Nat) : List Access :=
  [ ⟨ArrayName.matrixRow, idx⟩, ⟨ArrayName.matrixCol, idx⟩,
    ⟨ArrayName.b, idx⟩, ⟨edge, k⟩, ⟨ArrayName.u, idx⟩, ⟨edge, k⟩ ]

/-- All subscripts of the assembly pass (lines 56-109), loop by loop as in `assemble`. -/
def assemblyAccesses (imax jmax : Nat) : List Access :=
  (forRange 1 (u32sub jmax 1)).flatMap
      (fun j => (forRange 1 (u32sub imax 1)).flatMap (fun i => interiorAccesses imax j i)) ++
  ((forRange 1 (u32sub imax 1)).flatMap
      (fun i => boundaryAccesses ArrayName.South (flatten i 0 imax) i) ++
  ((forRange 1 (u32sub imax 1)).flatMap
      (fun i => boundaryAccesses ArrayName.North (flatten i (u32sub jmax 1) imax) i) ++
  ((forRange 0 jmax).flatMap
      (fun j => boundaryAccesses ArrayName.West (flattenI64 0 j imax) j) ++
  (forRange 0 jmax).flatMap
      (fun j => boundaryAccesses ArrayName.East (flattenI64 (u32sub imax 1) j imax) j))))

/-! ## Export (`main.cpp` lines 185-198) -/

/-- One record of `data.bin` as the export loop writes it: the three `f32` values, and with
them the value the running counter `idx` had when the record was written (the counter is
not part of the file). -/
structure ExportRecord (F : Type) where
  idx : Nat
  xPoint : F
  yPoint : F
  uPoint : F

/-- The variables of the export loop: the records written so far and the counter `idx`. -/
structure ExportState (F : Type) where
  records : List (ExportRecord F)
  idx : Nat

/-- Body of the export loop (lines 189-196); `toF32` is the cast `(float)`. -/
def exportBody {F : Type} (toF32 : ℚ → F) (grid : gridStruct) (u : Nat → ℚ) (j : Nat)
    (s : ExportState F) (i : Nat) : ExportState F :=
  { records := s.records ++
      [{ idx := s.idx, xPoint := toF32 (grid.x i), yPoint := toF32 (grid.y j),
         uPoint := toF32 (u s.idx) }]
    idx := u32 (s.idx + 1) }

/-- The export double loop (lines 185-198), started with `idx = 0`. -/
def exportLoop {F : Type} (imax jmax : Nat) (toF32 : ℚ → F) (grid : gridStruct)
    (u : Nat → ℚ) : ExportState F :=
  (forRange 0 jmax).foldl
    (fun s j => (forRange 0 imax).foldl (exportBody toF32 grid u j) s)
    { records := [], idx := 0 }

/-- The quadratic polynomial `a + b*x + c*y + d*x² + e*y² + g*x*y`. -/
def quadratic (a b c d e g : ℚ) (x y : ℚ) : ℚ :=
  a + b * x + c * y + d * x ^ 2 + e * y ^ 2 + g * x * y

/-- Grid samples of a function of `(x, y)` as a vector: entry `k` is the value at the grid
point `(k mod imax, k div imax)`. -/
def gridSamples (imax : Nat) (grid : gridStruct) (f : ℚ → ℚ → ℚ) : Nat → ℚ :=
  fun k => f (grid.x (k % imax)) (grid.y (k / imax))

/-! ## The stencil coefficients by position -/

/-- Coefficient towards the west neighbour `(i-1, j)`. -/
def coefW (grid : gridStruct) (i : Nat) : ℚ :=
  -2 / ((grid.x i - grid.x (i - 1)) *
    ((grid.x i - grid.x (i - 1)) + (grid.x (i + 1) - grid.x i)))

/-- Coefficient towards the east neighbour `(i+1, j)`. -/
def coefE (grid : gridStruct) (i : Nat) : ℚ :=
  -2 / ((grid.x (i + 1) - grid.x i) *
    ((grid.x i - grid.x (i - 1)) + (grid.x (i + 1) - grid.x i)))

/-- Coefficient towards the south neighbour `(i, j-1)`. -/
def coefS (grid : gridStruct) (j : Nat) : ℚ :=
  -2 / ((grid.y j - grid.y (j - 1)) *
    ((grid.y j - grid.y (j - 1)) + (grid.y (j + 1) - grid.y j)))

/-- Coefficient towards the north neighbour `(i, j+1)`. -/
def coefN (grid : gridStruct) (j : Nat) : ℚ :=
  -2 / ((grid.y (j + 1) - grid.y j) *
    ((grid.y j - grid.y (j - 1)) + (grid.y (j + 1) - grid.y j)))

/-- Diagonal coefficient of the interior point `(i, j)`. -/
def coefC (grid : gridStruct) (i j : Nat) : ℚ :=
  2 / ((grid.x i - grid.x (i - 1)) * (grid.x (i + 1) - grid.x i)) +
  2 / ((grid.y j - grid.y (j - 1)) * (grid.y (j + 1) - grid.y j))

/-! ## Grid points in visiting order (used to state what the loops produce) -/

/-- Interior points `(i, j)` in the order the interior loop visits them. -/
def interiorPts (imax jmax : Nat) : List (Nat × Nat) :=
  (forRange 1 (jmax - 1)).flatMap (fun j => (forRange 1 (imax - 1)).map (fun i => (i, j)))

/-- Boundary points `(i, j)` in the order the South, North, West and East loops visit them. -/
def boundaryPts (imax jmax : Nat) : List (Nat × Nat) :=
  (forRange 1 (imax - 1)).map (fun i => (i, 0)) ++
  ((forRange 1 (imax - 1)).map (fun i => (i, jmax - 1)) ++
  ((forRange 0 jmax).map (fun j => (0, j)) ++
  (forRange 0 jmax).map (fun j => (imax - 1, j))))

/-- The boundary value the loops pair with the boundary point `p = (i, j)`: West on
`i = 0`, East on `i = imax-1`, and otherwise South on `j = 0`, North on `j = jmax-1`. -/
def boundaryValue (imax : Nat) (boundaries : boundaryStruct) (p : Nat × Nat) : ℚ :=
  if p.1 = 0 then boundaries.West p.2
  else if p.1 = imax - 1 then boundaries.East p.2
  else if p.2 = 0 then boundaries.South p.1
  else boundaries.North p.1

/-- The unwrapped flattened index of the grid point `p = (i, j)`. -/
def pidx (imax : Nat) (p : Nat × Nat) : Nat := p.2 * imax + p.1

/-- Replay of a sequence of writes `v[k] = val` on a vector. -/
def writes (l : List (Nat × ℚ)) (v : Nat → ℚ) : Nat → ℚ :=
  l.foldl (fun v w => Function.update v w.1 w.2) v

/-- Predicate on triplets: the row is `p`. -/
def inRow (p : Nat) (t : Triplet) : Bool := decide (t.row = p)

/-- The flattened indices of the boundary points of an `imax × jmax` grid. -/
def isBoundaryIndex (imax jmax : Nat) (k : Nat) : Prop :=
  ∃ i j, i < imax ∧ j < jmax ∧ (i = 0 ∨ i = imax - 1 ∨ j = 0 ∨ j = jmax - 1) ∧
    k = j * imax + i

/-! ## A small concrete instance (3 x 3 grid, unit spacing) -/

/-- Unit-spaced grid `x[i] = i`, `y[j] = j`. -/
def unitGrid : gridStruct := { x := fun i => (i : ℚ), y := fun j => (j : ℚ) }

/-- Boundary data of `main.cpp` in shape: zero on North, South and East, and a nonzero
profile on West. -/
def westBoundaries : boundaryStruct :=
  { North := fun _ => 0, West := fun j => (j : ℚ) + 1, South := fun _ => 0, East := fun _ => 0 }

/-- A source term for the concrete instance. -/
def unitSource : ℚ → ℚ → ℚ := fun x y => x + 2 * y

theorem u32_of_lt {n : Nat} (h : n < 2 ^ 32) : u32 n = n := by
  unfold u32
  exact Nat.mod_eq_of_lt h

theorem u32sub_of_le {a b : Nat} (hb : b ≤ a) (ha : a < 2 ^ 32) : u32sub a b = a - b := by
  unfold u32sub
  have hb' : b % 2 ^ 32 = b := Nat.mod_eq_of_lt (by omega)
  rw [hb']
  have : 2 ^ 32 + a - b = (a - b) + 2 ^ 32 := by omega
  rw [this, Nat.add_mod_right]
  exact Nat.mod_eq_of_lt (by omega)

theorem flatten_of_lt {i j imax : Nat} (h : j * imax + i < 2 ^ 32) :
    flatten i j imax = j * imax + i := u32_of_lt h

/-- Beyond the `u32` range the flattened index wraps: on a grid with `imax = 2^16` the
point `(0, 2^16)` lands on index `0`, the index of `(0, 0)`. -/
theorem flatten_wraps : flatten 0 65536 65536 = flatten 0 0 65536 := by
  simp [flatten, u32]

theorem flattenI64_eq_flatten (i j imax : Nat) : flattenI64 i j imax = flatten i j imax := by
  unfold flattenI64 flatten u32
  omega

/-- C1. Where `j*imax + i` does not wrap in `u32`, the flattened index is injective on
`i, i' < imax`, and `idx ↦ (idx mod imax, idx div imax)` recovers `(i, j)` on the grid. -/
theorem flatten_injective_and_inverse (imax : Nat) (himax : 0 < imax) :
    (∀ i j i' j', i < imax → i' < imax → j * imax + i < 2 ^ 32 → j' * imax + i' < 2 ^ 32 →
        flatten i j imax = flatten i' j' imax → i = i' ∧ j = j') ∧
    (∀ jmax i j, i < imax → j < jmax → j * imax + i < 2 ^ 32 →
        flatten i j imax % imax = i ∧ flatten i j imax / imax = j) := by
  constructor
  · intro i j i' j' hi hi' hw hw' h
    rw [flatten_of_lt hw, flatten_of_lt hw'] at h
    have h1 : (j * imax + i) % imax = (j' * imax + i') % imax := by rw [h]
    have h2 : (j * imax + i) / imax = (j' * imax + i') / imax := by rw [h]
    rw [Nat.mul_comm j, Nat.mul_comm j', Nat.mul_add_mod, Nat.mul_add_mod,
      Nat.mod_eq_of_lt hi, Nat.mod_eq_of_lt hi'] at h1
    rw [Nat.mul_comm j, Nat.mul_comm j', Nat.mul_add_div himax, Nat.mul_add_div himax,
      Nat.div_eq_of_lt hi, Nat.div_eq_of_lt hi'] at h2
    exact ⟨h1, by simpa using h2⟩
  · intro jmax i j hi _ hw
    rw [flatten_of_lt hw, Nat.mul_comm j, Nat.mul_add_mod, Nat.mul_add_div himax,
      Nat.mod_eq_of_lt hi, Nat.div_eq_of_lt hi]
    simp

/-- Witness for C1 at `imax = 3`. -/
theorem flatten_injective_and_inverse_witness :
    (∀ i j i' j', i < 3 → i' < 3 → j * 3 + i < 2 ^ 32 → j' * 3 + i' < 2 ^ 32 →
        flatten i j 3 = flatten i' j' 3 → i = i' ∧ j = j') ∧
    (∀ jmax i j, i < 3 → j < jmax → j * 3 + i < 2 ^ 32 →
        flatten i j 3 % 3 = i ∧ flatten i j 3 / 3 = j) :=
  flatten_injective_and_inverse 3 (by decide)

/-! ## What the loops produce -/

theorem foldl_coefficients {α : Type} (step : AsmState → α → AsmState) (f : α → List Triplet)
    (h : ∀ s a, (step s a).coefficients = s.coefficients ++ f a) (l : List α) (s : AsmState) :
    (l.foldl step s).coefficients = s.coefficients ++ l.flatMap f := by
  induction l generalizing s with
  | nil => simp
  | cons a l ih => simp [List.foldl_cons, ih, h, List.flatMap_cons, List.append_assoc]

theorem foldl_b {α : Type} (step : AsmState → α → AsmState) (g : α → Nat × ℚ)
    (h : ∀ s a, (step s a).b = Function.update s.b (g a).1 (g a).2) (l : List α)
    (s : AsmState) : (l.foldl step s).b = writes (l.map g) s.b := by
  induction l generalizing s with
  | nil => simp [writes]
  | cons a l ih => simp [List.foldl_cons, ih, h, writes]

theorem foldl_u {α : Type} (step : AsmState → α → AsmState) (g : α → Nat × ℚ)
    (h : ∀ s a, (step s a).u = Function.update s.u (g a).1 (g a).2) (l : List α)
    (s : AsmState) : (l.foldl step s).u = writes (l.map g) s.u := by
  induction l generalizing s with
  | nil => simp [writes]
  | cons a l ih => simp [List.foldl_cons, ih, h, writes]

theorem foldl_u_unchanged {α : Type} (step : AsmState → α → AsmState)
    (h : ∀ s a, (step s a).u = s.u) (l : List α) (s : AsmState) :
    (l.foldl step s).u = s.u := by
  induction l generalizing s with
  | nil => simp
  | cons a l ih => simp [List.foldl_cons, ih, h]

theorem writes_append (l₁ l₂ : List (Nat × ℚ)) (v : Nat → ℚ) :
    writes (l₁ ++ l₂) v = writes l₂ (writes l₁ v) := by
  simp [writes, List.foldl_append]

theorem mem_forRange {lo hi k : Nat} : k ∈ forRange lo hi ↔ lo ≤ k ∧ k < hi := by
  unfold forRange
  rw [List.mem_range'_1]
  omega

theorem nodup_forRange (lo hi : Nat) : (forRange lo hi).Nodup :=
  List.nodup_range' lo (hi - lo)

theorem idx_lt {imax jmax i j : Nat} (hi : i < imax) (hj : j < jmax) :
    j * imax + i < imax * jmax := by
  have h1 : (j + 1) * imax ≤ jmax * imax := Nat.mul_le_mul_right imax hj
  have h2 : (j + 1) * imax = j * imax + imax := by ring
  have h3 : jmax * imax = imax * jmax := Nat.mul_comm _ _
  omega

theorem imax_lt {imax jmax : Nat} (h3j : 3 ≤ jmax) (hn : imax * jmax < 2 ^ 32) :
    imax < 2 ^ 32 := by
  have : imax * 3 ≤ imax * jmax := Nat.mul_le_mul_left imax h3j
  omega

theorem jmax_lt {imax jmax : Nat} (h3i : 3 ≤ imax) (hn : imax * jmax < 2 ^ 32) :
    jmax < 2 ^ 32 := by
  have : 3 * jmax ≤ imax * jmax := Nat.mul_le_mul_right jmax h3i
  omega

theorem flatten_grid {imax jmax i j : Nat} (hn : imax * jmax < 2 ^ 32) (hi : i < imax)
    (hj : j < jmax) : flatten i j imax = j * imax + i :=
  flatten_of_lt (lt_trans (idx_lt hi hj) hn)

theorem boundaryBody_coefficients (idx : Nat) (val : ℚ) (s : AsmState) :
    (boundaryBody idx val s).coefficients = s.coefficients ++ [⟨idx, idx, 1⟩] := rfl

theorem interiorBody_coefficients (imax : Nat) (grid : gridStruct) (valueSource : ℚ → ℚ → ℚ)
    (j : Nat) (s : AsmState) (i : Nat) :
    (interiorBody imax grid valueSource j s i).coefficients =
      s.coefficients ++ stencil imax grid j i := rfl

theorem southLoop_coefficients (imax : Nat) (boundaries : boundaryStruct) (s : AsmState) :
    (southLoop imax boundaries s).coefficients = s.coefficients ++
      (forRange 1 (u32sub imax 1)).flatMap
        (fun i => [⟨flatten i 0 imax, flatten i 0 imax, 1⟩]) := by
  unfold southLoop
  exact foldl_coefficients (fun s i => boundaryBody (flatten i 0 imax) (boundaries.South i) s)
    (fun i => [⟨flatten i 0 imax, flatten i 0 imax, 1⟩])
    (fun s _ => boundaryBody_coefficients _ _ s) _ s

theorem northLoop_coefficients (imax jmax : Nat) (boundaries : boundaryStruct)
    (s : AsmState) :
    (northLoop imax jmax boundaries s).coefficients = s.coefficients ++
      (forRange 1 (u32sub imax 1)).flatMap
        (fun i => [⟨flatten i (u32sub jmax 1) imax, flatten i (u32sub jmax 1) imax, 1⟩]) := by
  unfold northLoop
  exact foldl_coefficients
    (fun s i => boundaryBody (flatten i (u32sub jmax 1) imax) (boundaries.North i) s)
    (fun i => [⟨flatten i (u32sub jmax 1) imax, flatten i (u32sub jmax 1) imax, 1⟩])
    (fun s _ => boundaryBody_coefficients _ _ s) _ s

theorem westLoop_coefficients (imax jmax : Nat) (boundaries : boundaryStruct)
    (s : AsmState) :
    (westLoop imax jmax boundaries s).coefficients = s.coefficients ++
      (forRange 0 jmax).flatMap
        (fun j => [⟨flattenI64 0 j imax, flattenI64 0 j imax, 1⟩]) := by
  unfold westLoop
  exact foldl_coefficients
    (fun s j => boundaryBody (flattenI64 0 j imax) (boundaries.West j) s)
    (fun j => [⟨flattenI64 0 j imax, flattenI64 0 j imax, 1⟩])
    (fun s _ => boundaryBody_coefficients _ _ s) _ s

theorem eastLoop_coefficients (imax jmax : Nat) (boundaries : boundaryStruct)
    (s : AsmState) :
    (eastLoop imax jmax boundaries s).coefficients = s.coefficients ++
      (forRange 0 jmax).flatMap
        (fun j => [⟨flattenI64 (u32sub imax 1) j imax,
          flattenI64 (u32sub imax 1) j imax, 1⟩]) := by
  unfold eastLoop
  exact foldl_coefficients
    (fun s j => boundaryBody (flattenI64 (u32sub imax 1) j imax) (boundaries.East j) s)
    (fun j => [⟨flattenI64 (u32sub imax 1) j imax, flattenI64 (u32sub imax 1) j imax, 1⟩])
    (fun s _ => boundaryBody_coefficients _ _ s) _ s

theorem nestedLoop_coefficients (imax : Nat) (grid : gridStruct) (valueSource : ℚ → ℚ → ℚ)
    (lj li : List Nat) (s : AsmState) :
    (lj.foldl (fun s j => li.foldl (interiorBody imax grid valueSource j) s) s).coefficients =
      s.coefficients ++ lj.flatMap (fun j => li.flatMap (fun i => stencil imax grid j i)) := by
  induction lj generalizing s with
  | nil => simp
  | cons j lj ih =>
    rw [List.foldl_cons, ih, List.flatMap_cons, ← List.append_assoc]
    congr 1
    exact foldl_coefficients (interiorBody imax grid valueSource j)
      (fun i => stencil imax grid j i) (interiorBody_coefficients imax grid valueSource j) li s

theorem interiorLoop_coefficients (imax jmax : Nat) (grid : gridStruct)
    (valueSource : ℚ → ℚ → ℚ) (s : AsmState) :
    (interiorLoop imax jmax grid valueSource s).coefficients = s.coefficients ++
      (forRange 1 (u32sub jmax 1)).flatMap
        (fun j => (forRange 1 (u32sub imax 1)).flatMap (fun i => stencil imax grid j i)) := by
  unfold interiorLoop
  exact nestedLoop_coefficients imax grid valueSource _ _ s

theorem boundary_segment (imax : Nat) (l : List Nat) (f : Nat → Nat) (g : Nat → Nat × Nat)
    (h : ∀ a ∈ l, f a = pidx imax (g a)) :
    l.flatMap (fun a => [(⟨f a, f a, 1⟩ : Triplet)]) =
      (l.map g).map (fun p => ⟨pidx imax p, pidx imax p, 1⟩) := by
  rw [← List.map_eq_flatMap, List.map_map]
  apply List.map_congr_left
  intro a ha
  simp [h a ha]

theorem assemble_coefficients {imax jmax : Nat} (h3i : 3 ≤ imax) (h3j : 3 ≤ jmax)
    (hn : imax * jmax < 2 ^ 32) (grid : gridStruct) (boundaries : boundaryStruct)
    (valueSource : ℚ → ℚ → ℚ) (u0 : Nat → ℚ) :
    (assemble imax jmax grid boundaries valueSource u0).coefficients =
      (interiorPts imax jmax).flatMap (fun p => stencil imax grid p.2 p.1) ++
      (boundaryPts imax jmax).map (fun p => ⟨pidx imax p, pidx imax p, 1⟩) := by
  have hi32 := imax_lt h3j hn
  have hj32 := jmax_lt h3i hn
  have hsi : u32sub imax 1 = imax - 1 := u32sub_of_le (by omega) hi32
  have hsj : u32sub jmax 1 = jmax - 1 := u32sub_of_le (by omega) hj32
  unfold assemble
  rw [eastLoop_coefficients, westLoop_coefficients, northLoop_coefficients,
    southLoop_coefficients, interiorLoop_coefficients, hsi, hsj]
  have hS := boundary_segment imax (forRange 1 (imax - 1)) (fun i => flatten i 0 imax)
    (fun i => (i, 0)) (fun i hi => by
      rw [mem_forRange] at hi
      beta_reduce
      rw [flatten_grid hn (by omega) (by omega)]; rfl)
  have hN := boundary_segment imax (forRange 1 (imax - 1))
    (fun i => flatten i (jmax - 1) imax) (fun i => (i, jmax - 1)) (fun i hi => by
      rw [mem_forRange] at hi
      beta_reduce
      rw [flatten_grid hn (by omega) (by omega)]; rfl)
  have hW := boundary_segment imax (forRange 0 jmax) (fun j => flattenI64 0 j imax)
    (fun j => (0, j)) (fun j hj => by
      rw [mem_forRange] at hj
      beta_reduce
      rw [flattenI64_eq_flatten, flatten_grid hn (by omega) (by omega)]; rfl)
  have hE := boundary_segment imax (forRange 0 jmax)
    (fun j => flattenI64 (imax - 1) j imax) (fun j => (imax - 1, j)) (fun j hj => by
      rw [mem_forRange] at hj
      beta_reduce
      rw [flattenI64_eq_flatten, flatten_grid hn (by omega) (by omega)]; rfl)
  have hI : (forRange 1 (jmax - 1)).flatMap
        (fun j => (forRange 1 (imax - 1)).flatMap (fun i => stencil imax grid j i)) =
      (interiorPts imax jmax).flatMap (fun p => stencil imax grid p.2 p.1) := by
    unfold interiorPts
    rw [List.flatMap_assoc]
    apply List.flatMap_congr
    intro j _
    rw [List.flatMap_map]
  beta_reduce at hS hN hW hE
  rw [hS, hN, hW, hE, hI]
  simp only [boundaryPts, List.map_append, List.nil_append, List.append_assoc]

/-! ## The grid points visited -/

theorem mem_interiorPts {imax jmax : Nat} {p : Nat × Nat} :
    p ∈ interiorPts imax jmax ↔ (1 ≤ p.1 ∧ p.1 < imax - 1) ∧ (1 ≤ p.2 ∧ p.2 < jmax - 1) := by
  obtain ⟨i, j⟩ := p
  simp only [interiorPts, List.mem_flatMap, List.mem_map, mem_forRange, Prod.mk.injEq]
  constructor
  · rintro ⟨j', hj', i', hi', rfl, rfl⟩
    exact ⟨hi', hj'⟩
  · rintro ⟨hi, hj⟩
    exact ⟨j, hj, i, hi, rfl, rfl⟩

theorem mem_boundaryPts {imax jmax : Nat} (h3i : 3 ≤ imax) (h3j : 3 ≤ jmax) {p : Nat × Nat} :
    p ∈ boundaryPts imax jmax ↔
      p.1 < imax ∧ p.2 < jmax ∧ (p.1 = 0 ∨ p.1 = imax - 1 ∨ p.2 = 0 ∨ p.2 = jmax - 1) := by
  obtain ⟨i, j⟩ := p
  simp only [boundaryPts, List.mem_append, List.mem_map, mem_forRange, Prod.mk.injEq]
  constructor
  · rintro (⟨a, ha, rfl, rfl⟩ | ⟨a, ha, rfl, rfl⟩ | ⟨a, ha, rfl, rfl⟩ | ⟨a, ha, rfl, rfl⟩) <;>
      omega
  · rintro ⟨hi, hj, h⟩
    by_cases h0 : i = 0
    · exact Or.inr (Or.inr (Or.inl ⟨j, by omega, h0.symm, rfl⟩))
    by_cases h1 : i = imax - 1
    · exact Or.inr (Or.inr (Or.inr ⟨j, by omega, h1.symm, rfl⟩))
    by_cases h2 : j = 0
    · exact Or.inl ⟨i, by omega, rfl, h2.symm⟩
    · exact Or.inr (Or.inl ⟨i, by omega, rfl, by omega⟩)

theorem nodup_interiorPts (imax jmax : Nat) : (interiorPts imax jmax).Nodup := by
  unfold interiorPts
  rw [List.nodup_flatMap]
  refine ⟨fun j _ => (nodup_forRange _ _).map (fun a b h => by simpa using h), ?_⟩
  refine (nodup_forRange 1 (jmax - 1)).pairwise_of_forall_ne ?_
  intro j _ j' _ hne
  simp only [Function.onFun, List.Disjoint, List.mem_map]
  rintro ⟨a, b⟩ ⟨i, _, h⟩ ⟨i', _, h'⟩
  simp only [Prod.mk.injEq] at h h'
  omega

theorem nodup_boundaryPts {imax jmax : Nat} (h3i : 3 ≤ imax) (h3j : 3 ≤ jmax) :
    (boundaryPts imax jmax).Nodup := by
  unfold boundaryPts
  have hS : ((forRange 1 (imax - 1)).map (fun i => (i, 0))).Nodup :=
    (nodup_forRange _ _).map (fun a b h => by simpa using h)
  have hN : ((forRange 1 (imax - 1)).map (fun i => (i, jmax - 1))).Nodup :=
    (nodup_forRange _ _).map (fun a b h => by simpa using h)
  have hW : ((forRange 0 jmax).map (fun j => (0, j))).Nodup :=
    (nodup_forRange _ _).map (fun a b h => by simpa using h)
  have hE : ((forRange 0 jmax).map (fun j => (imax - 1, j))).Nodup :=
    (nodup_forRange _ _).map (fun a b h => by simpa using h)
  refine hS.append (hN.append (hW.append hE ?_) ?_) ?_
  · rintro ⟨a, b⟩ h h'
    simp only [List.mem_map, mem_forRange, Prod.mk.injEq] at h h'
    obtain ⟨_, _, h1, _⟩ := h
    obtain ⟨_, _, h2, _⟩ := h'
    omega
  · rintro ⟨a, b⟩ h h'
    simp only [List.mem_append, List.mem_map, mem_forRange, Prod.mk.injEq] at h h'
    obtain ⟨i, hi, h1, _⟩ := h
    rcases h' with ⟨_, _, h2, _⟩ | ⟨_, _, h2, _⟩ <;> omega
  · rintro ⟨a, b⟩ h h'
    simp only [List.mem_append, List.mem_map, mem_forRange, Prod.mk.injEq] at h h'
    obtain ⟨i, hi, h1, h1'⟩ := h
    rcases h' with ⟨_, _, h2, h3⟩ | ⟨_, _, h2, _⟩ | ⟨_, _, h2, _⟩ <;> omega

theorem pidx_inj {imax : Nat} {p q : Nat × Nat} (hp : p.1 < imax) (hq : q.1 < imax)
    (h : pidx imax p = pidx imax q) : p = q := by
  obtain ⟨i, j⟩ := p
  obtain ⟨i', j'⟩ := q
  simp only [pidx] at h hp hq
  have h1 : (j * imax + i) % imax = (j' * imax + i') % imax := by rw [h]
  have h2 : (j * imax + i) / imax = (j' * imax + i') / imax := by rw [h]
  have himax : 0 < imax := by omega
  rw [Nat.mul_comm j, Nat.mul_comm j', Nat.mul_add_mod, Nat.mul_add_mod,
    Nat.mod_eq_of_lt hp, Nat.mod_eq_of_lt hq] at h1
  rw [Nat.mul_comm j, Nat.mul_comm j', Nat.mul_add_div himax, Nat.mul_add_div himax,
    Nat.div_eq_of_lt hp, Nat.div_eq_of_lt hq] at h2
  simp only [Nat.add_zero] at h2
  rw [h1, h2]

/-- Filtering the triplets produced point by point for those of the row of `p₀`: what
the point `p₀` produced, when it was visited. -/
theorem filter_row_flatMap (imax : Nat) (L : List (Nat × Nat)) (F : Nat × Nat → List Triplet)
    (hL : L.Nodup) (hin : ∀ p ∈ L, p.1 < imax)
    (hrow : ∀ p ∈ L, ∀ t ∈ F p, t.row = pidx imax p)
    (p₀ : Nat × Nat) (h₀ : p₀.1 < imax) :
    (L.flatMap F).filter (inRow (pidx imax p₀)) = if p₀ ∈ L then F p₀ else [] := by
  induction L with
  | nil => simp
  | cons a L ih =>
    have hnd := List.nodup_cons.mp hL
    have ih' := ih hnd.2 (fun p hp => hin p (List.mem_cons_of_mem _ hp))
      (fun p hp => hrow p (List.mem_cons_of_mem _ hp))
    rw [List.flatMap_cons, List.filter_append, ih']
    by_cases ha : a = p₀
    · subst ha
      have h1 : (F a).filter (inRow (pidx imax a)) = F a := by
        rw [List.filter_eq_self]
        intro t ht
        simp [inRow, hrow a (List.mem_cons_self _ _) t ht]
      simp [h1, hnd.1]
    · have h1 : (F a).filter (inRow (pidx imax p₀)) = [] := by
        rw [List.filter_eq_nil_iff]
        intro t ht
        simp only [inRow, decide_eq_true_eq]
        rw [hrow a (List.mem_cons_self _ _) t ht]
        intro h
        exact ha (pidx_inj (hin a (List.mem_cons_self _ _)) h₀ h)
      have h2 : (p₀ ∈ a :: L) ↔ p₀ ∈ L := by
        simp [List.mem_cons, Ne.symm ha]
      simp [h1, h2]

/-! ## The vectors `b` and `u` after assembly -/

theorem boundaryLoop_b {α : Type} (idx : α → Nat) (val : α → ℚ) (l : List α) (s : AsmState) :
    (l.foldl (fun s a => boundaryBody (idx a) (val a) s) s).b =
      writes (l.map (fun a => (idx a, val a))) s.b :=
  foldl_b (fun s a => boundaryBody (idx a) (val a) s) (fun a => (idx a, val a))
    (fun _ _ => rfl) l s

theorem boundaryLoop_u {α : Type} (idx : α → Nat) (val : α → ℚ) (l : List α) (s : AsmState) :
    (l.foldl (fun s a => boundaryBody (idx a) (val a) s) s).u =
      writes (l.map (fun a => (idx a, val a))) s.u :=
  foldl_u (fun s a => boundaryBody (idx a) (val a) s) (fun a => (idx a, val a))
    (fun _ _ => rfl) l s

theorem nestedLoop_b (imax : Nat) (grid : gridStruct) (valueSource : ℚ → ℚ → ℚ)
    (lj li : List Nat) (s : AsmState) :
    (lj.foldl (fun s j => li.foldl (interiorBody imax grid valueSource j) s) s).b =
      writes (lj.flatMap (fun j => li.map
        (fun i => (flatten i j imax, valueSource (grid.x i) (grid.y j))))) s.b := by
  induction lj generalizing s with
  | nil => simp [writes]
  | cons j lj ih =>
    rw [List.foldl_cons, ih, List.flatMap_cons, writes_append,
      foldl_b (interiorBody imax grid valueSource j)
        (fun i => (flatten i j imax, valueSource (grid.x i) (grid.y j))) (fun _ _ => rfl) li s]

theorem nestedLoop_u (imax : Nat) (grid : gridStruct) (valueSource : ℚ → ℚ → ℚ)
    (lj li : List Nat) (s : AsmState) :
    (lj.foldl (fun s j => li.foldl (interiorBody imax grid valueSource j) s) s).u = s.u := by
  induction lj generalizing s with
  | nil => simp
  | cons j lj ih =>
    rw [List.foldl_cons, ih]
    exact foldl_u_unchanged (interiorBody imax grid valueSource j) (fun _ _ => rfl) li s

theorem writes_of_not_mem (l : List (Nat × ℚ)) (v : Nat → ℚ) (k : Nat)
    (h : ∀ w ∈ l, w.1 ≠ k) : writes l v k = v k := by
  induction l generalizing v with
  | nil => simp [writes]
  | cons a l ih =>
    have h1 : writes (a :: l) v = writes l (Function.update v a.1 a.2) := rfl
    rw [h1, ih _ (fun w hw => h w (List.mem_cons_of_mem _ hw))]
    exact Function.update_noteq (Ne.symm (h a (List.mem_cons_self _ _))) _ _

theorem writes_map_of_mem {imax : Nat} (L : List (Nat × Nat)) (V : Nat × Nat → ℚ)
    (hL : L.Nodup) (hin : ∀ p ∈ L, p.1 < imax) (v : Nat → ℚ) {p₀ : Nat × Nat}
    (h₀ : p₀ ∈ L) : writes (L.map (fun p => (pidx imax p, V p))) v (pidx imax p₀) = V p₀ := by
  induction L generalizing v with
  | nil => simp at h₀
  | cons a L ih =>
    have hnd := List.nodup_cons.mp hL
    have h1 : writes ((a :: L).map (fun p => (pidx imax p, V p))) v =
        writes (L.map (fun p => (pidx imax p, V p))) (Function.update v (pidx imax a) (V a)) :=
      rfl
    rw [h1]
    by_cases ha : p₀ = a
    · subst ha
      rw [writes_of_not_mem]
      · simp
      · intro w hw
        rw [List.mem_map] at hw
        obtain ⟨q, hq, rfl⟩ := hw
        intro h
        have := pidx_inj (hin q (List.mem_cons_of_mem _ hq)) (hin p₀ (List.mem_cons_self _ _)) h
        exact hnd.1 (this ▸ hq)
    · have hmem : p₀ ∈ L := by
        rcases List.mem_cons.mp h₀ with h | h
        · exact absurd h ha
        · exact h
      exact ih hnd.2 (fun p hp => hin p (List.mem_cons_of_mem _ hp)) _ hmem

theorem writes_map_of_not_mem {imax : Nat} (L : List (Nat × Nat)) (V : Nat × Nat → ℚ)
    (hin : ∀ p ∈ L, p.1 < imax) (v : Nat → ℚ) {p₀ : Nat × Nat} (h₀ : p₀.1 < imax)
    (hp : p₀ ∉ L) : writes (L.map (fun p => (pidx imax p, V p))) v (pidx imax p₀) =
      v (pidx imax p₀) := by
  apply writes_of_not_mem
  intro w hw
  rw [List.mem_map] at hw
  obtain ⟨q, hq, rfl⟩ := hw
  intro h
  exact hp (pidx_inj (hin q hq) h₀ h ▸ hq)

theorem boundaryWrites_segment (imax : Nat) (boundaries : boundaryStruct) (l : List Nat)
    (f : Nat → Nat) (val : Nat → ℚ) (g : Nat → Nat × Nat)
    (h : ∀ a ∈ l, f a = pidx imax (g a) ∧ val a = boundaryValue imax boundaries (g a)) :
    l.map (fun a => (f a, val a)) =
      (l.map g).map (fun p => (pidx imax p, boundaryValue imax boundaries p)) := by
  rw [List.map_map]
  apply List.map_congr_left
  intro a ha
  simp [(h a ha).1, (h a ha).2]

theorem boundaryWrites_eq {imax jmax : Nat} (h3i : 3 ≤ imax) (h3j : 3 ≤ jmax)
    (hn : imax * jmax < 2 ^ 32) (boundaries : boundaryStruct) (v : Nat → ℚ) :
    writes ((forRange 0 jmax).map
        (fun j => (flattenI64 (u32sub imax 1) j imax, boundaries.East j)))
      (writes ((forRange 0 jmax).map (fun j => (flattenI64 0 j imax, boundaries.West j)))
        (writes ((forRange 1 (u32sub imax 1)).map
            (fun i => (flatten i (u32sub jmax 1) imax, boundaries.North i)))
          (writes ((forRange 1 (u32sub imax 1)).map
            (fun i => (flatten i 0 imax, boundaries.South i))) v))) =
      writes ((boundaryPts imax jmax).map
        (fun p => (pidx imax p, boundaryValue imax boundaries p))) v := by
  have hi32 := imax_lt h3j hn
  have hj32 := jmax_lt h3i hn
  have hsi : u32sub imax 1 = imax - 1 := u32sub_of_le (by omega) hi32
  have hsj : u32sub jmax 1 = jmax - 1 := u32sub_of_le (by omega) hj32
  rw [hsi, hsj]
  have hS := boundaryWrites_segment imax boundaries (forRange 1 (imax - 1))
    (fun i => flatten i 0 imax) (fun i => boundaries.South i) (fun i => (i, 0))
    (fun i hi => by
      rw [mem_forRange] at hi
      beta_reduce
      rw [flatten_grid hn (by omega) (by omega)]
      refine ⟨rfl, ?_⟩
      have h1 : i ≠ 0 := by omega
      have h2 : i ≠ imax - 1 := by omega
      simp [boundaryValue, h1, h2])
  have hN := boundaryWrites_segment imax boundaries (forRange 1 (imax - 1))
    (fun i => flatten i (jmax - 1) imax) (fun i => boundaries.North i)
    (fun i => (i, jmax - 1)) (fun i hi => by
      rw [mem_forRange] at hi
      beta_reduce
      rw [flatten_grid hn (by omega) (by omega)]
      refine ⟨rfl, ?_⟩
      have h1 : i ≠ 0 := by omega
      have h2 : i ≠ imax - 1 := by omega
      have h3 : jmax - 1 ≠ 0 := by omega
      simp [boundaryValue, h1, h2, h3])
  have hW := boundaryWrites_segment imax boundaries (forRange 0 jmax)
    (fun j => flattenI64 0 j imax) (fun j => boundaries.West j) (fun j => (0, j))
    (fun j hj => by
      rw [mem_forRange] at hj
      beta_reduce
      rw [flattenI64_eq_flatten, flatten_grid hn (by omega) (by omega)]
      exact ⟨rfl, by simp [boundaryValue]⟩)
  have hE := boundaryWrites_segment imax boundaries (forRange 0 jmax)
    (fun j => flattenI64 (imax - 1) j imax) (fun j => boundaries.East j)
    (fun j => (imax - 1, j)) (fun j hj => by
      rw [mem_forRange] at hj
      beta_reduce
      rw [flattenI64_eq_flatten, flatten_grid hn (by omega) (by omega)]
      refine ⟨rfl, ?_⟩
      have h1 : imax - 1 ≠ 0 := by omega
      simp [boundaryValue, h1])
  beta_reduce at hS hN hW hE
  rw [hS, hN, hW, hE]
  simp only [boundaryPts, List.map_append, writes_append]

theorem assemble_u {imax jmax : Nat} (h3i : 3 ≤ imax) (h3j : 3 ≤ jmax)
    (hn : imax * jmax < 2 ^ 32) (grid : gridStruct) (boundaries : boundaryStruct)
    (valueSource : ℚ → ℚ → ℚ) (u0 : Nat → ℚ) :
    (assemble imax jmax grid boundaries valueSource u0).u =
      writes ((boundaryPts imax jmax).map
        (fun p => (pidx imax p, boundaryValue imax boundaries p))) u0 := by
  unfold assemble eastLoop westLoop northLoop southLoop interiorLoop
  rw [boundaryLoop_u, boundaryLoop_u, boundaryLoop_u, boundaryLoop_u, nestedLoop_u]
  exact boundaryWrites_eq h3i h3j hn boundaries u0

theorem assemble_b {imax jmax : Nat} (h3i : 3 ≤ imax) (h3j : 3 ≤ jmax)
    (hn : imax * jmax < 2 ^ 32) (grid : gridStruct) (boundaries : boundaryStruct)
    (valueSource : ℚ → ℚ → ℚ) (u0 : Nat → ℚ) :
    (assemble imax jmax grid boundaries valueSource u0).b =
      writes ((boundaryPts imax jmax).map
          (fun p => (pidx imax p, boundaryValue imax boundaries p)))
        (writes ((interiorPts imax jmax).map
          (fun p => (pidx imax p, valueSource (grid.x p.1) (grid.y p.2)))) (fun _ => 0)) := by
  have hi32 := imax_lt h3j hn
  have hj32 := jmax_lt h3i hn
  have hsi : u32sub imax 1 = imax - 1 := u32sub_of_le (by omega) hi32
  have hsj : u32sub jmax 1 = jmax - 1 := u32sub_of_le (by omega) hj32
  unfold assemble eastLoop westLoop northLoop southLoop interiorLoop
  rw [boundaryLoop_b, boundaryLoop_b, boundaryLoop_b, boundaryLoop_b, nestedLoop_b,
    boundaryWrites_eq h3i h3j hn, hsi, hsj]
  have hI : (forRange 1 (jmax - 1)).flatMap (fun j => (forRange 1 (imax - 1)).map
        (fun i => (flatten i j imax, valueSource (grid.x i) (grid.y j)))) =
      (interiorPts imax jmax).map
        (fun p => (pidx imax p, valueSource (grid.x p.1) (grid.y p.2))) := by
    unfold interiorPts
    rw [List.map_flatMap]
    apply List.flatMap_congr
    intro j hj
    rw [List.map_map]
    apply List.map_congr_left
    intro i hi
    rw [mem_forRange] at hi hj
    simp [pidx, flatten_grid hn (show i < imax by omega) (show j < jmax by omega)]
  rw [hI]

/-! ## Rows of the triplet list -/

/-- The five triplets of an interior point, with the index arithmetic unwrapped. -/
theorem stencil_interior {imax jmax i j : Nat} (hn : imax * jmax < 2 ^ 32)
    (hi : 1 ≤ i ∧ i + 1 < imax) (hj : 1 ≤ j ∧ j + 1 < jmax) (grid : gridStruct) :
    stencil imax grid j i =
      [ ⟨j * imax + i, (j - 1) * imax + i,
          -2 / ((grid.y j - grid.y (j - 1)) *
            ((grid.y j - grid.y (j - 1)) + (grid.y (j + 1) - grid.y j)))⟩,
        ⟨j * imax + i, j * imax + (i - 1),
          -2 / ((grid.x i - grid.x (i - 1)) *
            ((grid.x i - grid.x (i - 1)) + (grid.x (i + 1) - grid.x i)))⟩,
        ⟨j * imax + i, j * imax + i,
          2 / ((grid.x i - grid.x (i - 1)) * (grid.x (i + 1) - grid.x i)) +
          2 / ((grid.y j - grid.y (j - 1)) * (grid.y (j + 1) - grid.y j))⟩,
        ⟨j * imax + i, j * imax + (i + 1),
          -2 / ((grid.x (i + 1) - grid.x i) *
            ((grid.x i - grid.x (i - 1)) + (grid.x (i + 1) - grid.x i)))⟩,
        ⟨j * imax + i, (j + 1) * imax + i,
          -2 / ((grid.y (j + 1) - grid.y j) *
            ((grid.y j - grid.y (j - 1)) + (grid.y (j + 1) - grid.y j)))⟩ ] := by
  have hi32 : imax < 2 ^ 32 := imax_lt (by omega) hn
  have hj32 : jmax < 2 ^ 32 := jmax_lt (by omega) hn
  have e1 : u32sub i 1 = i - 1 := u32sub_of_le (by omega) (by omega)
  have e2 : u32sub j 1 = j - 1 := u32sub_of_le (by omega) (by omega)
  have e3 : u32 (i + 1) = i + 1 := u32_of_lt (by omega)
  have e4 : u32 (j + 1) = j + 1 := u32_of_lt (by omega)
  unfold stencil
  simp only [e1, e2, e3, e4]
  rw [flatten_grid hn (show i < imax by omega) (show j < jmax by omega),
    flatten_grid hn (show i < imax by omega) (show j - 1 < jmax by omega),
    flatten_grid hn (show i - 1 < imax by omega) (show j < jmax by omega),
    flatten_grid hn (show i + 1 < imax by omega) (show j < jmax by omega),
    flatten_grid hn (show i < imax by omega) (show j + 1 < jmax by omega)]

theorem stencil_row {imax jmax : Nat} (hn : imax * jmax < 2 ^ 32) (grid : gridStruct)
    (p : Nat × Nat) (hp : p ∈ interiorPts imax jmax) :
    ∀ t ∈ stencil imax grid p.2 p.1, t.row = pidx imax p := by
  rw [mem_interiorPts] at hp
  intro t ht
  rw [stencil_interior hn (by omega) (by omega)] at ht
  simp only [List.mem_cons, List.mem_singleton, List.not_mem_nil, or_false] at ht
  rcases ht with rfl | rfl | rfl | rfl | rfl <;> rfl

/-- The triplets of the row of an interior point are its five stencil triplets. -/
theorem coefficients_row_interior {imax jmax : Nat} (h3i : 3 ≤ imax) (h3j : 3 ≤ jmax)
    (hn : imax * jmax < 2 ^ 32) (grid : gridStruct) (boundaries : boundaryStruct)
    (valueSource : ℚ → ℚ → ℚ) (u0 : Nat → ℚ) {i j : Nat}
    (hi : 1 ≤ i ∧ i + 1 < imax) (hj : 1 ≤ j ∧ j + 1 < jmax) :
    (assemble imax jmax grid boundaries valueSource u0).coefficients.filter
      (inRow (j * imax + i)) = stencil imax grid j i := by
  have hI : (i, j) ∈ interiorPts imax jmax := mem_interiorPts.mpr ⟨by simp; omega, by simp; omega⟩
  have hB : (i, j) ∉ boundaryPts imax jmax := by
    rw [mem_boundaryPts h3i h3j]
    simp only [not_and, not_or]
    intro _ _
    omega
  rw [assemble_coefficients h3i h3j hn, List.filter_append]
  have h1 := filter_row_flatMap imax (interiorPts imax jmax)
    (fun p => stencil imax grid p.2 p.1) (nodup_interiorPts imax jmax)
    (fun p hp => by rw [mem_interiorPts] at hp; omega)
    (fun p hp => stencil_row hn grid p hp) (i, j) (by simp; omega)
  have h2 := filter_row_flatMap imax (boundaryPts imax jmax)
    (fun p => [(⟨pidx imax p, pidx imax p, 1⟩ : Triplet)]) (nodup_boundaryPts h3i h3j)
    (fun p hp => by rw [mem_boundaryPts h3i h3j] at hp; exact hp.1)
    (fun p _ t ht => by simp at ht; rw [ht]) (i, j) (by simp; omega)
  rw [← List.map_eq_flatMap] at h2
  simp only [pidx, hI, hB, if_true, if_false] at h1 h2
  simp only [pidx]
  rw [h1, h2, List.append_nil]

/-- The only triplet of the row of a boundary point is its identity triplet. -/
theorem coefficients_row_boundary {imax jmax : Nat} (h3i : 3 ≤ imax) (h3j : 3 ≤ jmax)
    (hn : imax * jmax < 2 ^ 32) (grid : gridStruct) (boundaries : boundaryStruct)
    (valueSource : ℚ → ℚ → ℚ) (u0 : Nat → ℚ) {i j : Nat} (hi : i < imax) (hj : j < jmax)
    (hb : i = 0 ∨ i = imax - 1 ∨ j = 0 ∨ j = jmax - 1) :
    (assemble imax jmax grid boundaries valueSource u0).coefficients.filter
      (inRow (j * imax + i)) = [⟨j * imax + i, j * imax + i, 1⟩] := by
  have hI : (i, j) ∉ interiorPts imax jmax := by
    rw [mem_interiorPts]
    simp only
    omega
  have hB : (i, j) ∈ boundaryPts imax jmax := (mem_boundaryPts h3i h3j).mpr ⟨hi, hj, hb⟩
  rw [assemble_coefficients h3i h3j hn, List.filter_append]
  have h1 := filter_row_flatMap imax (interiorPts imax jmax)
    (fun p => stencil imax grid p.2 p.1) (nodup_interiorPts imax jmax)
    (fun p hp => by rw [mem_interiorPts] at hp; omega)
    (fun p hp => stencil_row hn grid p hp) (i, j) hi
  have h2 := filter_row_flatMap imax (boundaryPts imax jmax)
    (fun p => [(⟨pidx imax p, pidx imax p, 1⟩ : Triplet)]) (nodup_boundaryPts h3i h3j)
    (fun p hp => by rw [mem_boundaryPts h3i h3j] at hp; exact hp.1)
    (fun p _ t ht => by simp at ht; rw [ht]) (i, j) hi
  rw [← List.map_eq_flatMap] at h2
  simp only [pidx, hI, hB, if_true, if_false] at h1 h2
  simp only [pidx]
  rw [h1, h2, List.nil_append]

/-! ## Entries of the assembled matrix -/

theorem setFromTriplets_eq_row (c : List Triplet) (p q : Nat) :
    setFromTriplets c p q =
      (((c.filter (inRow p)).filter (fun t => decide (t.col = q))).map
        (fun t => t.value)).sum := by
  unfold setFromTriplets
  rw [List.filter_filter]
  congr 2
  apply List.filter_congr
  intro t _
  simp only [inRow, Bool.decide_and]
  exact Bool.and_comm _ _

theorem sum_filter_col (R : List Triplet) (n : Nat) (v : Nat → ℚ)
    (hR : ∀ t ∈ R, t.col < n) :
    ∑ q ∈ Finset.range n,
        ((R.filter (fun t => decide (t.col = q))).map (fun t => t.value)).sum * v q =
      (R.map (fun t => t.value * v t.col)).sum := by
  induction R with
  | nil => simp
  | cons t R ih =>
    have ih' := ih (fun t ht => hR t (List.mem_cons_of_mem _ ht))
    have ht : t.col ∈ Finset.range n := Finset.mem_range.mpr (hR t (List.mem_cons_self _ _))
    have hstep : ∀ q, (((t :: R).filter (fun t => decide (t.col = q))).map
          (fun t => t.value)).sum * v q =
        (if t.col = q then t.value * v q else 0) +
          ((R.filter (fun t => decide (t.col = q))).map (fun t => t.value)).sum * v q := by
      intro q
      by_cases h : t.col = q
      · simp [List.filter_cons, h, add_mul]
      · simp [List.filter_cons, h]
    simp only [hstep, Finset.sum_add_distrib, ih', List.map_cons, List.sum_cons]
    rw [Finset.sum_ite_eq (Finset.range n) t.col (fun q => t.value * v q), if_pos ht]

theorem sum_filter_col_eq (R : List Triplet) (q : Nat) :
    ((R.filter (fun t => decide (t.col = q))).map (fun t => t.value)).sum =
      (R.map (fun t => if t.col = q then t.value else 0)).sum := by
  induction R with
  | nil => simp
  | cons t R ih =>
    by_cases h : t.col = q
    · simp [List.filter_cons, h, ih]
    · simp [List.filter_cons, h, ih]

theorem five_ite (c1 c2 c3 c4 c5 q : Nat) (v1 v2 v3 v4 v5 : ℚ)
    (h12 : c1 ≠ c2) (h13 : c1 ≠ c3) (h14 : c1 ≠ c4) (h15 : c1 ≠ c5) (h23 : c2 ≠ c3)
    (h24 : c2 ≠ c4) (h25 : c2 ≠ c5) (h34 : c3 ≠ c4) (h35 : c3 ≠ c5) (h45 : c4 ≠ c5) :
    ((if c1 = q then v1 else 0) + ((if c2 = q then v2 else 0) + ((if c3 = q then v3 else 0) +
      ((if c4 = q then v4 else 0) + ((if c5 = q then v5 else 0) + 0))))) =
      if q = c1 then v1 else if q = c2 then v2 else if q = c3 then v3
        else if q = c4 then v4 else if q = c5 then v5 else 0 := by
  by_cases h1 : q = c1
  · subst h1
    simp [h12.symm, h13.symm, h14.symm, h15.symm]
  by_cases h2 : q = c2
  · subst h2
    simp [h12, h23.symm, h24.symm, h25.symm, h1]
  by_cases h3 : q = c3
  · subst h3
    simp [h13, h23, h34.symm, h35.symm, h1, h2]
  by_cases h4 : q = c4
  · subst h4
    simp [h14, h24, h34, h45.symm, h1, h2, h3]
  by_cases h5 : q = c5
  · subst h5
    simp [h15, h25, h35, h45, h1, h2, h3, h4]
  · simp [h1, h2, h3, h4, h5, Ne.symm h1, Ne.symm h2, Ne.symm h3, Ne.symm h4, Ne.symm h5]

theorem dot_eq_sum (n : Nat) (a b : Nat → ℚ) :
    dot n a b = ∑ k ∈ Finset.range n, a k * b k := by
  unfold dot
  induction n with
  | zero => simp
  | succ n ih => rw [List.range_succ, List.foldl_append, ih, Finset.sum_range_succ]; rfl

theorem matVec_eq_sum (n : Nat) (A : Nat → Nat → ℚ) (v : Nat → ℚ) (p : Nat) :
    matVec n A v p = ∑ q ∈ Finset.range n, A p q * v q :=
  dot_eq_sum n (A p) v

/-- Row `p` of `A*v` is the sum over the triplets of row `p` of `value * v[col]`. -/
theorem matVec_setFromTriplets (c : List Triplet) (n : Nat) (v : Nat → ℚ) (p : Nat)
    (hc : ∀ t ∈ c.filter (inRow p), t.col < n) :
    matVec n (setFromTriplets c) v p =
      ((c.filter (inRow p)).map (fun t => t.value * v t.col)).sum := by
  rw [matVec_eq_sum]
  simp only [setFromTriplets_eq_row]
  exact sum_filter_col _ n v hc

/-- Row of `A` at an interior point: the five stencil coefficients at the four
neighbours and the centre, zero elsewhere. -/
theorem assembledA_interior_row {imax jmax : Nat} (h3i : 3 ≤ imax) (h3j : 3 ≤ jmax)
    (hn : imax * jmax < 2 ^ 32) (grid : gridStruct) (boundaries : boundaryStruct)
    (valueSource : ℚ → ℚ → ℚ) (u0 : Nat → ℚ) {i j : Nat}
    (hi : 1 ≤ i ∧ i + 1 < imax) (hj : 1 ≤ j ∧ j + 1 < jmax) (q : Nat) :
    assembledA imax jmax grid boundaries valueSource u0 (j * imax + i) q =
      if q = (j - 1) * imax + i then
        -2 / ((grid.y j - grid.y (j - 1)) *
          ((grid.y j - grid.y (j - 1)) + (grid.y (j + 1) - grid.y j)))
      else if q = j * imax + (i - 1) then
        -2 / ((grid.x i - grid.x (i - 1)) *
          ((grid.x i - grid.x (i - 1)) + (grid.x (i + 1) - grid.x i)))
      else if q = j * imax + i then
        2 / ((grid.x i - grid.x (i - 1)) * (grid.x (i + 1) - grid.x i)) +
        2 / ((grid.y j - grid.y (j - 1)) * (grid.y (j + 1) - grid.y j))
      else if q = j * imax + (i + 1) then
        -2 / ((grid.x (i + 1) - grid.x i) *
          ((grid.x i - grid.x (i - 1)) + (grid.x (i + 1) - grid.x i)))
      else if q = (j + 1) * imax + i then
        -2 / ((grid.y (j + 1) - grid.y j) *
          ((grid.y j - grid.y (j - 1)) + (grid.y (j + 1) - grid.y j)))
      else 0 := by
  unfold assembledA
  rw [setFromTriplets_eq_row,
    coefficients_row_interior h3i h3j hn grid boundaries valueSource u0 hi hj,
    stencil_interior hn hi hj, sum_filter_col_eq]
  have e1 : (j - 1) * imax + i + imax = j * imax + i := by
    have : j = (j - 1) + 1 := by omega
    conv_rhs => rw [this, Nat.add_mul]
    omega
  have e2 : (j + 1) * imax + i = j * imax + i + imax := by rw [Nat.add_mul]; omega
  simp only [List.map_cons, List.map_nil, List.sum_cons, List.sum_nil]
  exact five_ite _ _ _ _ _ q _ _ _ _ _ (by omega) (by omega) (by omega) (by omega) (by omega)
    (by omega) (by omega) (by omega) (by omega) (by omega)

/-- Row of `A` at a boundary point: the identity row. -/
theorem assembledA_boundary_row {imax jmax : Nat} (h3i : 3 ≤ imax) (h3j : 3 ≤ jmax)
    (hn : imax * jmax < 2 ^ 32) (grid : gridStruct) (boundaries : boundaryStruct)
    (valueSource : ℚ → ℚ → ℚ) (u0 : Nat → ℚ) {i j : Nat} (hi : i < imax) (hj : j < jmax)
    (hb : i = 0 ∨ i = imax - 1 ∨ j = 0 ∨ j = jmax - 1) (q : Nat) :
    assembledA imax jmax grid boundaries valueSource u0 (j * imax + i) q =
      if q = j * imax + i then 1 else 0 := by
  unfold assembledA
  rw [setFromTriplets_eq_row,
    coefficients_row_boundary h3i h3j hn grid boundaries valueSource u0 hi hj hb]
  by_cases hq : q = j * imax + i
  · simp [hq]
  · simp [hq, Ne.symm hq]

/-- C2. For an interior point `(i, j)` the triplets of row `j*imax + i` are exactly the
five stencil triplets (columns south, west, centre, east, north with the non-uniform
second-difference coefficients), and `b` at that row is the source term at `(x[i], y[j])`. -/
theorem interior_row_five_triplets {imax jmax : Nat} (h3i : 3 ≤ imax) (h3j : 3 ≤ jmax)
    (hn : imax * jmax < 2 ^ 32) (grid : gridStruct) (boundaries : boundaryStruct)
    (valueSource : ℚ → ℚ → ℚ) (u0 : Nat → ℚ) (i j : Nat)
    (hi : 1 ≤ i ∧ i ≤ imax - 2) (hj : 1 ≤ j ∧ j ≤ jmax - 2) :
    let s := assemble imax jmax grid boundaries valueSource u0
    let dx1 := grid.x i - grid.x (i - 1)
    let dx2 := grid.x (i + 1) - grid.x i
    let dy1 := grid.y j - grid.y (j - 1)
    let dy2 := grid.y (j + 1) - grid.y j
    s.coefficients.filter (inRow (j * imax + i)) =
      [ ⟨j * imax + i, (j - 1) * imax + i, -2 / (dy1 * (dy1 + dy2))⟩,
        ⟨j * imax + i, j * imax + (i - 1), -2 / (dx1 * (dx1 + dx2))⟩,
        ⟨j * imax + i, j * imax + i, 2 / (dx1 * dx2) + 2 / (dy1 * dy2)⟩,
        ⟨j * imax + i, j * imax + (i + 1), -2 / (dx2 * (dx1 + dx2))⟩,
        ⟨j * imax + i, (j + 1) * imax + i, -2 / (dy2 * (dy1 + dy2))⟩ ] ∧
    s.b (j * imax + i) = valueSource (grid.x i) (grid.y j) := by
  intro s dx1 dx2 dy1 dy2
  have hi' : 1 ≤ i ∧ i + 1 < imax := by omega
  have hj' : 1 ≤ j ∧ j + 1 < jmax := by omega
  constructor
  · show (assemble imax jmax grid boundaries valueSource u0).coefficients.filter
      (inRow (j * imax + i)) = _
    rw [coefficients_row_interior h3i h3j hn grid boundaries valueSource u0 hi' hj',
      stencil_interior hn hi' hj']
  · show (assemble imax jmax grid boundaries valueSource u0).b (j * imax + i) = _
    have hI : (i, j) ∈ interiorPts imax jmax :=
      mem_interiorPts.mpr ⟨by simp; omega, by simp; omega⟩
    have hB : (i, j) ∉ boundaryPts imax jmax := by
      rw [mem_boundaryPts h3i h3j]
      simp only [not_and, not_or]
      intro _ _
      omega
    rw [assemble_b h3i h3j hn]
    have e : j * imax + i = pidx imax (i, j) := rfl
    rw [e, writes_map_of_not_mem (boundaryPts imax jmax) _
        (fun p hp => ((mem_boundaryPts h3i h3j).mp hp).1) _ (show (i, j).1 < imax by simp; omega) hB,
      writes_map_of_mem (interiorPts imax jmax)
        (fun p => valueSource (grid.x p.1) (grid.y p.2)) (nodup_interiorPts imax jmax)
        (fun p hp => by rw [mem_interiorPts] at hp; omega) _ hI]

/-- Witness for C2: the interior point `(1, 1)` of the 3 x 3 unit grid. -/
theorem interior_row_five_triplets_witness :
    (3 ≤ 3 ∧ 3 * 3 < 2 ^ 32 ∧ (1 ≤ 1 ∧ 1 ≤ 3 - 2)) ∧
    ((assemble 3 3 unitGrid westBoundaries unitSource (fun _ => 7)).coefficients.filter
        (inRow (1 * 3 + 1)) =
      [ ⟨1 * 3 + 1, (1 - 1) * 3 + 1,
          -2 / ((unitGrid.y 1 - unitGrid.y (1 - 1)) *
            ((unitGrid.y 1 - unitGrid.y (1 - 1)) + (unitGrid.y (1 + 1) - unitGrid.y 1)))⟩,
        ⟨1 * 3 + 1, 1 * 3 + (1 - 1),
          -2 / ((unitGrid.x 1 - unitGrid.x (1 - 1)) *
            ((unitGrid.x 1 - unitGrid.x (1 - 1)) + (unitGrid.x (1 + 1) - unitGrid.x 1)))⟩,
        ⟨1 * 3 + 1, 1 * 3 + 1,
          2 / ((unitGrid.x 1 - unitGrid.x (1 - 1)) * (unitGrid.x (1 + 1) - unitGrid.x 1)) +
          2 / ((unitGrid.y 1 - unitGrid.y (1 - 1)) * (unitGrid.y (1 + 1) - unitGrid.y 1))⟩,
        ⟨1 * 3 + 1, 1 * 3 + (1 + 1),
          -2 / ((unitGrid.x (1 + 1) - unitGrid.x 1) *
            ((unitGrid.x 1 - unitGrid.x (1 - 1)) + (unitGrid.x (1 + 1) - unitGrid.x 1)))⟩,
        ⟨1 * 3 + 1, (1 + 1) * 3 + 1,
          -2 / ((unitGrid.y (1 + 1) - unitGrid.y 1) *
            ((unitGrid.y 1 - unitGrid.y (1 - 1)) + (unitGrid.y (1 + 1) - unitGrid.y 1)))⟩ ] ∧
      (assemble 3 3 unitGrid westBoundaries unitSource (fun _ => 7)).b (1 * 3 + 1) =
        unitSource (unitGrid.x 1) (unitGrid.y 1)) :=
  ⟨⟨by decide, by norm_num, by decide⟩,
    interior_row_five_triplets (by decide) (by decide) (by norm_num) unitGrid westBoundaries
      unitSource (fun _ => 7) 1 1 (by decide) (by decide)⟩

/-- C3. For a boundary point `(i, j)` (corners included) the only triplet of row
`j*imax + i` is `(row, row, 1)`, and the assembled row of `A` is the identity row: `1` on
the diagonal, `0` elsewhere. -/
theorem boundary_row_identity {imax jmax : Nat} (h3i : 3 ≤ imax) (h3j : 3 ≤ jmax)
    (hn : imax * jmax < 2 ^ 32) (grid : gridStruct) (boundaries : boundaryStruct)
    (valueSource : ℚ → ℚ → ℚ) (u0 : Nat → ℚ) (i j : Nat) (hi : i < imax) (hj : j < jmax)
    (hb : i = 0 ∨ i = imax - 1 ∨ j = 0 ∨ j = jmax - 1) :
    (assemble imax jmax grid boundaries valueSource u0).coefficients.filter
        (inRow (j * imax + i)) = [⟨j * imax + i, j * imax + i, 1⟩] ∧
    ∀ q, assembledA imax jmax grid boundaries valueSource u0 (j * imax + i) q =
      if q = j * imax + i then 1 else 0 := by
  exact ⟨coefficients_row_boundary h3i h3j hn grid boundaries valueSource u0 hi hj hb,
    assembledA_boundary_row h3i h3j hn grid boundaries valueSource u0 hi hj hb⟩

/-- Witness for C3: the corner `(0, 0)` of the 3 x 3 unit grid. -/
theorem boundary_row_identity_witness :
    (3 ≤ 3 ∧ 3 * 3 < 2 ^ 32 ∧ 0 < 3 ∧ (0 = 0 ∨ 0 = 3 - 1 ∨ 0 = 0 ∨ 0 = 3 - 1)) ∧
    ((assemble 3 3 unitGrid westBoundaries unitSource (fun _ => 7)).coefficients.filter
        (inRow (0 * 3 + 0)) = [⟨0 * 3 + 0, 0 * 3 + 0, 1⟩] ∧
      ∀ q, assembledA 3 3 unitGrid westBoundaries unitSource (fun _ => 7) (0 * 3 + 0) q =
        if q = 0 * 3 + 0 then 1 else 0) :=
  ⟨⟨by decide, by norm_num, by decide, by decide⟩,
    boundary_row_identity (by decide) (by decide) (by norm_num) unitGrid westBoundaries
      unitSource (fun _ => 7) 0 0 (by decide) (by decide) (by decide)⟩

/-- At a boundary point `b` and `u` both hold the boundary value paired with it. -/
theorem assemble_boundary_value {imax jmax : Nat} (h3i : 3 ≤ imax) (h3j : 3 ≤ jmax)
    (hn : imax * jmax < 2 ^ 32) (grid : gridStruct) (boundaries : boundaryStruct)
    (valueSource : ℚ → ℚ → ℚ) (u0 : Nat → ℚ) {i j : Nat} (hi : i < imax) (hj : j < jmax)
    (hb : i = 0 ∨ i = imax - 1 ∨ j = 0 ∨ j = jmax - 1) :
    (assemble imax jmax grid boundaries valueSource u0).b (j * imax + i) =
        boundaryValue imax boundaries (i, j) ∧
    (assemble imax jmax grid boundaries valueSource u0).u (j * imax + i) =
        boundaryValue imax boundaries (i, j) := by
  have hB : (i, j) ∈ boundaryPts imax jmax := (mem_boundaryPts h3i h3j).mpr ⟨hi, hj, hb⟩
  have e : j * imax + i = pidx imax (i, j) := rfl
  rw [assemble_b h3i h3j hn, assemble_u h3i h3j hn, e]
  exact ⟨writes_map_of_mem (boundaryPts imax jmax) (boundaryValue imax boundaries)
      (nodup_boundaryPts h3i h3j) (fun p hp => ((mem_boundaryPts h3i h3j).mp hp).1) _ hB,
    writes_map_of_mem (boundaryPts imax jmax) (boundaryValue imax boundaries)
      (nodup_boundaryPts h3i h3j) (fun p hp => ((mem_boundaryPts h3i h3j).mp hp).1) _ hB⟩

/-- C4. After assembly `b` and `u` hold `South[i]` at `i` and `North[i]` at
`(jmax-1)*imax + i` for `1 ≤ i ≤ imax-2`, and `West[j]` at `j*imax` and `East[j]` at
`j*imax + imax-1` for every `j < jmax`; the four corners hold the West/East values. -/
theorem boundary_values_in_b_and_u {imax jmax : Nat} (h3i : 3 ≤ imax) (h3j : 3 ≤ jmax)
    (hn : imax * jmax < 2 ^ 32) (grid : gridStruct) (boundaries : boundaryStruct)
    (valueSource : ℚ → ℚ → ℚ) (u0 : Nat → ℚ) :
    let s := assemble imax jmax grid boundaries valueSource u0
    (∀ i, 1 ≤ i → i ≤ imax - 2 →
      (s.b i = boundaries.South i ∧ s.u i = boundaries.South i) ∧
      (s.b ((jmax - 1) * imax + i) = boundaries.North i ∧
        s.u ((jmax - 1) * imax + i) = boundaries.North i)) ∧
    (∀ j, j < jmax →
      (s.b (j * imax) = boundaries.West j ∧ s.u (j * imax) = boundaries.West j) ∧
      (s.b (j * imax + imax - 1) = boundaries.East j ∧
        s.u (j * imax + imax - 1) = boundaries.East j)) ∧
    ((s.b 0 = boundaries.West 0 ∧ s.u 0 = boundaries.West 0) ∧
      (s.b (imax - 1) = boundaries.East 0 ∧ s.u (imax - 1) = boundaries.East 0) ∧
      (s.b ((jmax - 1) * imax) = boundaries.West (jmax - 1) ∧
        s.u ((jmax - 1) * imax) = boundaries.West (jmax - 1)) ∧
      (s.b ((jmax - 1) * imax + imax - 1) = boundaries.East (jmax - 1) ∧
        s.u ((jmax - 1) * imax + imax - 1) = boundaries.East (jmax - 1))) := by
  intro s
  have key : ∀ i j, i < imax → j < jmax → (i = 0 ∨ i = imax - 1 ∨ j = 0 ∨ j = jmax - 1) →
      s.b (j * imax + i) = boundaryValue imax boundaries (i, j) ∧
      s.u (j * imax + i) = boundaryValue imax boundaries (i, j) :=
    fun i j hi hj hb =>
      assemble_boundary_value h3i h3j hn grid boundaries valueSource u0 hi hj hb
  have hW : ∀ j, j < jmax →
      s.b (j * imax) = boundaries.West j ∧ s.u (j * imax) = boundaries.West j := by
    intro j hj
    have h := key 0 j (by omega) hj (Or.inl rfl)
    simpa [boundaryValue] using h
  have hE : ∀ j, j < jmax → s.b (j * imax + imax - 1) = boundaries.East j ∧
      s.u (j * imax + imax - 1) = boundaries.East j := by
    intro j hj
    have h := key (imax - 1) j (by omega) hj (Or.inr (Or.inl rfl))
    have e : j * imax + (imax - 1) = j * imax + imax - 1 := by omega
    have h1 : imax - 1 ≠ 0 := by omega
    rw [e] at h
    simpa [boundaryValue, h1] using h
  refine ⟨fun i hi1 hi2 => ⟨?_, ?_⟩, fun j hj => ⟨hW j hj, hE j hj⟩, ?_, ?_, hW (jmax - 1) (by omega),
    hE (jmax - 1) (by omega)⟩
  · have h := key i 0 (by omega) (by omega) (Or.inr (Or.inr (Or.inl rfl)))
    have h1 : i ≠ 0 := by omega
    have h2 : i ≠ imax - 1 := by omega
    simpa [boundaryValue, h1, h2] using h
  · have h := key i (jmax - 1) (by omega) (by omega) (Or.inr (Or.inr (Or.inr rfl)))
    have h1 : i ≠ 0 := by omega
    have h2 : i ≠ imax - 1 := by omega
    have h3 : jmax - 1 ≠ 0 := by omega
    simpa [boundaryValue, h1, h2, h3] using h
  · simpa using hW 0 (by omega)
  · simpa using hE 0 (by omega)

/-- Witness for C4: the 3 x 3 unit grid. -/
theorem boundary_values_in_b_and_u_witness :
    (3 ≤ 3 ∧ 3 * 3 < 2 ^ 32) ∧
    (let s := assemble 3 3 unitGrid westBoundaries unitSource (fun _ => 7)
    (∀ i, 1 ≤ i → i ≤ 3 - 2 →
      (s.b i = westBoundaries.South i ∧ s.u i = westBoundaries.South i) ∧
      (s.b ((3 - 1) * 3 + i) = westBoundaries.North i ∧
        s.u ((3 - 1) * 3 + i) = westBoundaries.North i)) ∧
    (∀ j, j < 3 →
      (s.b (j * 3) = westBoundaries.West j ∧ s.u (j * 3) = westBoundaries.West j) ∧
      (s.b (j * 3 + 3 - 1) = westBoundaries.East j ∧
        s.u (j * 3 + 3 - 1) = westBoundaries.East j)) ∧
    ((s.b 0 = westBoundaries.West 0 ∧ s.u 0 = westBoundaries.West 0) ∧
      (s.b (3 - 1) = westBoundaries.East 0 ∧ s.u (3 - 1) = westBoundaries.East 0) ∧
      (s.b ((3 - 1) * 3) = westBoundaries.West (3 - 1) ∧
        s.u ((3 - 1) * 3) = westBoundaries.West (3 - 1)) ∧
      (s.b ((3 - 1) * 3 + 3 - 1) = westBoundaries.East (3 - 1) ∧
        s.u ((3 - 1) * 3 + 3 - 1) = westBoundaries.East (3 - 1)))) :=
  ⟨⟨by decide, by norm_num⟩,
    boundary_values_in_b_and_u (by decide) (by decide) (by norm_num) unitGrid westBoundaries
      unitSource (fun _ => 7)⟩

/-- C5. Where the four local spacings equal `h ≠ 0`, the interior row of `A` is the
5-point Laplacian row: `4/h²` on the diagonal, `-1/h²` at the four neighbours, `0`
elsewhere. -/
theorem uniform_interior_row_laplacian {imax jmax : Nat} (h3i : 3 ≤ imax) (h3j : 3 ≤ jmax)
    (hn : imax * jmax < 2 ^ 32) (grid : gridStruct) (boundaries : boundaryStruct)
    (valueSource : ℚ → ℚ → ℚ) (u0 : Nat → ℚ) (i j : Nat)
    (hi : 1 ≤ i ∧ i ≤ imax - 2) (hj : 1 ≤ j ∧ j ≤ jmax - 2) (h : ℚ) (hh : h ≠ 0)
    (hdx1 : grid.x i - grid.x (i - 1) = h) (hdx2 : grid.x (i + 1) - grid.x i = h)
    (hdy1 : grid.y j - grid.y (j - 1) = h) (hdy2 : grid.y (j + 1) - grid.y j = h) :
    ∀ q, assembledA imax jmax grid boundaries valueSource u0 (j * imax + i) q =
      if q = j * imax + i then 4 / h ^ 2
      else if q = (j - 1) * imax + i ∨ q = j * imax + (i - 1) ∨ q = j * imax + (i + 1) ∨
          q = (j + 1) * imax + i then -1 / h ^ 2
      else 0 := by
  intro q
  have hi' : 1 ≤ i ∧ i + 1 < imax := by omega
  have hj' : 1 ≤ j ∧ j + 1 < jmax := by omega
  rw [assembledA_interior_row h3i h3j hn grid boundaries valueSource u0 hi' hj' q,
    hdx1, hdx2, hdy1, hdy2]
  have e1 : (j - 1) * imax + i + imax = j * imax + i := by
    have : j = (j - 1) + 1 := by omega
    conv_rhs => rw [this, Nat.add_mul]
    omega
  have e2 : (j + 1) * imax + i = j * imax + i + imax := by rw [Nat.add_mul]; omega
  have hh2 : h + h ≠ 0 := by
    intro h0
    apply hh
    linarith
  have c1 : (-2 : ℚ) / (h * (h + h)) = -1 / h ^ 2 := by
    rw [div_eq_div_iff (mul_ne_zero hh hh2) (pow_ne_zero 2 hh)]
    ring
  have c2 : (2 : ℚ) / (h * h) + 2 / (h * h) = 4 / h ^ 2 := by
    rw [← add_div, div_eq_div_iff (mul_ne_zero hh hh) (pow_ne_zero 2 hh)]
    ring
  rw [c1, c2]
  by_cases h3 : q = j * imax + i
  · have n1 : ¬ q = (j - 1) * imax + i := by omega
    have n2 : ¬ q = j * imax + (i - 1) := by omega
    simp only [h3, if_true]
    rw [if_neg (by omega), if_neg (by omega)]
  · simp only [h3, if_false]
    by_cases h1 : q = (j - 1) * imax + i
    · simp [h1]
    by_cases h2 : q = j * imax + (i - 1)
    · simp [h2]
    by_cases h4 : q = j * imax + (i + 1)
    · simp [h4]
    by_cases h5 : q = (j + 1) * imax + i
    · simp [h5]
    · simp [h1, h2, h4, h5]

/-- Witness for C5: the interior point `(1, 1)` of the 3 x 3 unit grid, `h = 1`. -/
theorem uniform_interior_row_laplacian_witness :
    (3 ≤ 3 ∧ 3 * 3 < 2 ^ 32 ∧ (1 ≤ 1 ∧ 1 ≤ 3 - 2) ∧ (1 : ℚ) ≠ 0 ∧
      unitGrid.x 1 - unitGrid.x (1 - 1) = 1 ∧ unitGrid.x (1 + 1) - unitGrid.x 1 = 1 ∧
      unitGrid.y 1 - unitGrid.y (1 - 1) = 1 ∧ unitGrid.y (1 + 1) - unitGrid.y 1 = 1) ∧
    ∀ q, assembledA 3 3 unitGrid westBoundaries unitSource (fun _ => 7) (1 * 3 + 1) q =
      if q = 1 * 3 + 1 then 4 / (1 : ℚ) ^ 2
      else if q = (1 - 1) * 3 + 1 ∨ q = 1 * 3 + (1 - 1) ∨ q = 1 * 3 + (1 + 1) ∨
          q = (1 + 1) * 3 + 1 then -1 / (1 : ℚ) ^ 2
      else 0 :=
  ⟨⟨by decide, by norm_num, by decide, by norm_num, by norm_num [unitGrid],
      by norm_num [unitGrid], by norm_num [unitGrid], by norm_num [unitGrid]⟩,
    uniform_interior_row_laplacian (by decide) (by decide) (by norm_num) unitGrid
      westBoundaries unitSource (fun _ => 7) 1 1 (by decide) (by decide) 1 (by norm_num)
      (by norm_num [unitGrid]) (by norm_num [unitGrid]) (by norm_num [unitGrid])
      (by norm_num [unitGrid])⟩

theorem second_difference (t h1 h2 α β γ : ℚ) (hh1 : h1 ≠ 0) (hh2 : h2 ≠ 0)
    (hh : h1 + h2 ≠ 0) :
    -2 / (h1 * (h1 + h2)) * (α + β * (t - h1) + γ * (t - h1) ^ 2) +
      2 / (h1 * h2) * (α + β * t + γ * t ^ 2) +
      -2 / (h2 * (h1 + h2)) * (α + β * (t + h2) + γ * (t + h2) ^ 2) = -(2 * γ) := by
  field_simp
  ring

theorem stencil_on_quadratic (X0 X1 X2 Y0 Y1 Y2 a b c d e g : ℚ)
    (hx1 : X1 - X0 ≠ 0) (hx2 : X2 - X1 ≠ 0) (hx : (X1 - X0) + (X2 - X1) ≠ 0)
    (hy1 : Y1 - Y0 ≠ 0) (hy2 : Y2 - Y1 ≠ 0) (hy : (Y1 - Y0) + (Y2 - Y1) ≠ 0) :
    -2 / ((Y1 - Y0) * ((Y1 - Y0) + (Y2 - Y1))) * quadratic a b c d e g X1 Y0 +
    (-2 / ((X1 - X0) * ((X1 - X0) + (X2 - X1))) * quadratic a b c d e g X0 Y1 +
    ((2 / ((X1 - X0) * (X2 - X1)) + 2 / ((Y1 - Y0) * (Y2 - Y1))) *
        quadratic a b c d e g X1 Y1 +
    (-2 / ((X2 - X1) * ((X1 - X0) + (X2 - X1))) * quadratic a b c d e g X2 Y1 +
    (-2 / ((Y2 - Y1) * ((Y1 - Y0) + (Y2 - Y1))) * quadratic a b c d e g X1 Y2 + 0)))) =
      -(2 * d + 2 * e) := by
  have kx := second_difference X1 (X1 - X0) (X2 - X1) (a + c * Y1 + e * Y1 ^ 2) (b + g * Y1) d
    hx1 hx2 hx
  have ky := second_difference Y1 (Y1 - Y0) (Y2 - Y1) (a + b * X1 + d * X1 ^ 2) (c + g * X1) e
    hy1 hy2 hy
  rw [sub_sub_cancel, add_sub_cancel] at kx ky
  unfold quadratic
  linear_combination kx + ky

theorem index_decode {imax i j : Nat} (hi : i < imax) :
    (j * imax + i) % imax = i ∧ (j * imax + i) / imax = j := by
  have himax : 0 < imax := by omega
  rw [Nat.mul_comm j, Nat.mul_add_mod, Nat.mul_add_div himax, Nat.mod_eq_of_lt hi,
    Nat.div_eq_of_lt hi]
  simp

/-- C6. With positive local spacings, the interior row of `A` applied to the grid samples
of a quadratic `u = a + b x + c y + d x² + e y² + g x y` gives `-(2d + 2e) = -Δu`, and the
five coefficients of the row sum to zero. -/
theorem interior_row_exact_on_quadratics {imax jmax : Nat} (h3i : 3 ≤ imax) (h3j : 3 ≤ jmax)
    (hn : imax * jmax < 2 ^ 32) (grid : gridStruct) (boundaries : boundaryStruct)
    (valueSource : ℚ → ℚ → ℚ) (u0 : Nat → ℚ) (i j : Nat)
    (hi : 1 ≤ i ∧ i ≤ imax - 2) (hj : 1 ≤ j ∧ j ≤ jmax - 2)
    (hdx1 : 0 < grid.x i - grid.x (i - 1)) (hdx2 : 0 < grid.x (i + 1) - grid.x i)
    (hdy1 : 0 < grid.y j - grid.y (j - 1)) (hdy2 : 0 < grid.y (j + 1) - grid.y j)
    (a b c d e g : ℚ) :
    matVec (imax * jmax) (assembledA imax jmax grid boundaries valueSource u0)
        (gridSamples imax grid (quadratic a b c d e g)) (j * imax + i) = -(2 * d + 2 * e) ∧
    (((assemble imax jmax grid boundaries valueSource u0).coefficients.filter
        (inRow (j * imax + i))).map (fun t => t.value)).sum = 0 := by
  have hi' : 1 ≤ i ∧ i + 1 < imax := by omega
  have hj' : 1 ≤ j ∧ j + 1 < jmax := by omega
  have hrow := coefficients_row_interior h3i h3j hn grid boundaries valueSource u0 hi' hj'
  have hst := stencil_interior hn hi' hj' grid
  have key := stencil_on_quadratic (grid.x (i - 1)) (grid.x i) (grid.x (i + 1))
    (grid.y (j - 1)) (grid.y j) (grid.y (j + 1))
  have nx1 := ne_of_gt hdx1
  have nx2 := ne_of_gt hdx2
  have nx := ne_of_gt (add_pos hdx1 hdx2)
  have ny1 := ne_of_gt hdy1
  have ny2 := ne_of_gt hdy2
  have ny := ne_of_gt (add_pos hdy1 hdy2)
  constructor
  · unfold assembledA
    rw [matVec_setFromTriplets, hrow, hst]
    · simp only [List.map_cons, List.map_nil, List.sum_cons, List.sum_nil, gridSamples]
      rw [(index_decode (show i < imax by omega)).1, (index_decode (show i < imax by omega)).2,
        (index_decode (show i - 1 < imax by omega)).1,
        (index_decode (show i - 1 < imax by omega)).2,
        (index_decode (show i + 1 < imax by omega)).1,
        (index_decode (show i + 1 < imax by omega)).2,
        (index_decode (show i < imax by omega)).1, (index_decode (show i < imax by omega)).2,
        (index_decode (show i < imax by omega)).1, (index_decode (show i < imax by omega)).2]
      exact key a b c d e g nx1 nx2 nx ny1 ny2 ny
    · rw [hrow, hst]
      intro t ht
      simp only [List.mem_cons, List.mem_singleton, List.not_mem_nil, or_false] at ht
      have b1 := idx_lt (show i < imax by omega) (show j - 1 < jmax by omega)
      have b2 := idx_lt (show i - 1 < imax by omega) (show j < jmax by omega)
      have b3 := idx_lt (show i < imax by omega) (show j < jmax by omega)
      have b4 := idx_lt (show i + 1 < imax by omega) (show j < jmax by omega)
      have b5 := idx_lt (show i < imax by omega) (show j + 1 < jmax by omega)
      rcases ht with rfl | rfl | rfl | rfl | rfl <;> assumption
  · rw [hrow, hst]
    simp only [List.map_cons, List.map_nil, List.sum_cons, List.sum_nil]
    have h1 := key 1 0 0 0 0 0 nx1 nx2 nx ny1 ny2 ny
    simpa [quadratic] using h1

/-- Witness for C6: the interior point `(1, 1)` of the 3 x 3 unit grid and the quadratic
`1 + 2x + 3y + 4x² + 5y² + 6xy`. -/
theorem interior_row_exact_on_quadratics_witness :
    (3 ≤ 3 ∧ 3 * 3 < 2 ^ 32 ∧ (1 ≤ 1 ∧ 1 ≤ 3 - 2) ∧
      0 < unitGrid.x 1 - unitGrid.x (1 - 1) ∧ 0 < unitGrid.x (1 + 1) - unitGrid.x 1 ∧
      0 < unitGrid.y 1 - unitGrid.y (1 - 1) ∧ 0 < unitGrid.y (1 + 1) - unitGrid.y 1) ∧
    (matVec (3 * 3) (assembledA 3 3 unitGrid westBoundaries unitSource (fun _ => 7))
        (gridSamples 3 unitGrid (quadratic 1 2 3 4 5 6)) (1 * 3 + 1) = -(2 * 4 + 2 * 5) ∧
      (((assemble 3 3 unitGrid westBoundaries unitSource (fun _ => 7)).coefficients.filter
        (inRow (1 * 3 + 1))).map (fun t => t.value)).sum = 0) :=
  ⟨⟨by decide, by norm_num, by decide, by norm_num [unitGrid], by norm_num [unitGrid],
      by norm_num [unitGrid], by norm_num [unitGrid]⟩,
    interior_row_exact_on_quadratics (by decide) (by decide) (by norm_num) unitGrid
      westBoundaries unitSource (fun _ => 7) 1 1 (by decide) (by decide)
      (by norm_num [unitGrid]) (by norm_num [unitGrid]) (by norm_num [unitGrid])
      (by norm_num [unitGrid]) 1 2 3 4 5 6⟩

/-! ## Symmetry of the interior block -/

theorem flat_eq_iff {imax i j i' j' : Nat} (hi : i < imax) (hi' : i' < imax) :
    j' * imax + i' = j * imax + i ↔ i' = i ∧ j' = j := by
  constructor
  · intro h
    have := @pidx_inj imax (i', j') (i, j) hi' hi h
    simpa using this
  · rintro ⟨rfl, rfl⟩
    rfl

/-- Entry of `A` between two grid points, the row point being interior. -/
theorem assembledA_interior_coords {imax jmax : Nat} (h3i : 3 ≤ imax) (h3j : 3 ≤ jmax)
    (hn : imax * jmax < 2 ^ 32) (grid : gridStruct) (boundaries : boundaryStruct)
    (valueSource : ℚ → ℚ → ℚ) (u0 : Nat → ℚ) {i j : Nat}
    (hi : 1 ≤ i ∧ i + 1 < imax) (hj : 1 ≤ j ∧ j + 1 < jmax) {i' : Nat} (j' : Nat)
    (hi' : i' < imax) :
    assembledA imax jmax grid boundaries valueSource u0 (j * imax + i) (j' * imax + i') =
      if i' = i ∧ j' + 1 = j then coefS grid j
      else if i' + 1 = i ∧ j' = j then coefW grid i
      else if i' = i ∧ j' = j then coefC grid i j
      else if i' = i + 1 ∧ j' = j then coefE grid i
      else if i' = i ∧ j' = j + 1 then coefN grid j
      else 0 := by
  rw [assembledA_interior_row h3i h3j hn grid boundaries valueSource u0 hi hj]
  have c1 : j' * imax + i' = (j - 1) * imax + i ↔ i' = i ∧ j' + 1 = j := by
    rw [flat_eq_iff (by omega) hi']
    omega
  have c2 : j' * imax + i' = j * imax + (i - 1) ↔ i' + 1 = i ∧ j' = j := by
    rw [flat_eq_iff (by omega) hi']
    omega
  have c3 : j' * imax + i' = j * imax + i ↔ i' = i ∧ j' = j :=
    flat_eq_iff (by omega) hi'
  have c4 : j' * imax + i' = j * imax + (i + 1) ↔ i' = i + 1 ∧ j' = j :=
    flat_eq_iff (by omega) hi'
  have c5 : j' * imax + i' = (j + 1) * imax + i ↔ i' = i ∧ j' = j + 1 :=
    flat_eq_iff (by omega) hi'
  simp only [c1, c2, c3, c4, c5, coefS, coefW, coefC, coefE, coefN]

/-- The interior block of `A` is symmetric when the spacings repeat with period two in
each direction. -/
theorem interior_block_symmetric_of_periodic {imax jmax : Nat} (h3i : 3 ≤ imax)
    (h3j : 3 ≤ jmax) (hn : imax * jmax < 2 ^ 32) (grid : gridStruct)
    (boundaries : boundaryStruct) (valueSource : ℚ → ℚ → ℚ) (u0 : Nat → ℚ)
    (hx : ∀ i, 1 ≤ i → i + 2 < imax →
      grid.x (i + 2) - grid.x (i + 1) = grid.x i - grid.x (i - 1))
    (hy : ∀ j, 1 ≤ j → j + 2 < jmax →
      grid.y (j + 2) - grid.y (j + 1) = grid.y j - grid.y (j - 1))
    {i j i' j' : Nat} (hi : 1 ≤ i ∧ i + 1 < imax) (hj : 1 ≤ j ∧ j + 1 < jmax)
    (hi' : 1 ≤ i' ∧ i' + 1 < imax) (hj' : 1 ≤ j' ∧ j' + 1 < jmax) :
    assembledA imax jmax grid boundaries valueSource u0 (j * imax + i) (j' * imax + i') =
      assembledA imax jmax grid boundaries valueSource u0 (j' * imax + i') (j * imax + i) := by
  rw [assembledA_interior_coords h3i h3j hn grid boundaries valueSource u0 hi hj j'
      (show i' < imax by omega),
    assembledA_interior_coords h3i h3j hn grid boundaries valueSource u0 hi' hj' j
      (show i < imax by omega)]
  by_cases h1 : i' = i ∧ j' + 1 = j
  · obtain ⟨rfl, rfl⟩ := h1
    have n1 : ¬ (i' = i' ∧ j' + 1 + 1 = j') := by omega
    have n2 : ¬ (i' + 1 = i' ∧ j' + 1 = j') := by omega
    have n3 : ¬ (i' = i' ∧ j' + 1 = j') := by omega
    have n4 : ¬ (i' = i' + 1 ∧ j' + 1 = j') := by omega
    rw [if_pos ⟨rfl, rfl⟩, if_neg n1, if_neg n2, if_neg n3, if_neg n4, if_pos ⟨rfl, rfl⟩]
    unfold coefS coefN
    have := hy j' hj'.1 (by omega)
    rw [show j' + 1 + 1 = j' + 2 from rfl, show j' + 1 - 1 = j' from rfl, this]
    ring
  by_cases h2 : i' + 1 = i ∧ j' = j
  · obtain ⟨rfl, rfl⟩ := h2
    have n1 : ¬ (i' = i' + 1 ∧ j' + 1 = j') := by omega
    have n1' : ¬ (i' + 1 = i' ∧ j' + 1 = j') := by omega
    have n2 : ¬ (i' + 1 + 1 = i' ∧ j' = j') := by omega
    have n3 : ¬ (i' + 1 = i' ∧ j' = j') := by omega
    rw [if_neg n1, if_pos ⟨rfl, rfl⟩, if_neg n1', if_neg n2, if_neg n3, if_pos ⟨rfl, rfl⟩]
    unfold coefW coefE
    have := hx i' hi'.1 (by omega)
    rw [show i' + 1 + 1 = i' + 2 from rfl, show i' + 1 - 1 = i' from rfl, this]
    ring
  by_cases h3 : i' = i ∧ j' = j
  · obtain ⟨rfl, rfl⟩ := h3
    rfl
  by_cases h4 : i' = i + 1 ∧ j' = j
  · obtain ⟨rfl, rfl⟩ := h4
    have n1 : ¬ (i + 1 = i ∧ j' + 1 = j') := by omega
    have n2 : ¬ (i + 1 + 1 = i ∧ j' = j') := by omega
    have n3 : ¬ (i + 1 = i ∧ j' = j') := by omega
    have n5 : ¬ (i = i + 1 ∧ j' + 1 = j') := by omega
    rw [if_neg n1, if_neg n2, if_neg n3, if_pos ⟨rfl, rfl⟩, if_neg n5, if_pos ⟨rfl, rfl⟩]
    unfold coefW coefE
    have := hx i hi.1 (by omega)
    rw [show i + 1 + 1 = i + 2 from rfl, show i + 1 - 1 = i from rfl, this]
    ring
  by_cases h5 : i' = i ∧ j' = j + 1
  · obtain ⟨rfl, rfl⟩ := h5
    have n1 : ¬ (i' = i' ∧ j + 1 + 1 = j) := by omega
    have n2 : ¬ (i' + 1 = i' ∧ j + 1 = j) := by omega
    have n3 : ¬ (i' = i' ∧ j + 1 = j) := by omega
    have n4 : ¬ (i' = i' + 1 ∧ j + 1 = j) := by omega
    rw [if_neg n1, if_neg n2, if_neg n3, if_neg n4, if_pos ⟨rfl, rfl⟩, if_pos ⟨rfl, rfl⟩]
    unfold coefS coefN
    have := hy j hj.1 (by omega)
    rw [show j + 1 + 1 = j + 2 from rfl, show j + 1 - 1 = j from rfl, this]
    ring
  · have m1 : ¬ (i = i' ∧ j + 1 = j') := fun h => h5 ⟨h.1.symm, h.2.symm⟩
    have m2 : ¬ (i + 1 = i' ∧ j = j') := fun h => h4 ⟨h.1.symm, h.2.symm⟩
    have m3 : ¬ (i = i' ∧ j = j') := fun h => h3 ⟨h.1.symm, h.2.symm⟩
    have m4 : ¬ (i = i' + 1 ∧ j = j') := fun h => h2 ⟨h.1.symm, h.2.symm⟩
    have m5 : ¬ (i = i' ∧ j = j' + 1) := fun h => h1 ⟨h.1.symm, h.2.symm⟩
    rw [if_neg h1, if_neg h2, if_neg h3, if_neg h4, if_neg h5, if_neg m1, if_neg m2,
      if_neg m3, if_neg m4, if_neg m5]

/-- C8. On a grid with uniform spacing in each direction the interior block of `A` is
symmetric. -/
theorem uniform_grid_interior_symmetric {imax jmax : Nat} (h3i : 3 ≤ imax) (h3j : 3 ≤ jmax)
    (hn : imax * jmax < 2 ^ 32) (grid : gridStruct) (boundaries : boundaryStruct)
    (valueSource : ℚ → ℚ → ℚ) (u0 : Nat → ℚ) (hx hy : ℚ)
    (hux : ∀ k, k + 1 < imax → grid.x (k + 1) - grid.x k = hx)
    (huy : ∀ k, k + 1 < jmax → grid.y (k + 1) - grid.y k = hy)
    (i j i' j' : Nat) (hi : 1 ≤ i ∧ i ≤ imax - 2) (hj : 1 ≤ j ∧ j ≤ jmax - 2)
    (hi' : 1 ≤ i' ∧ i' ≤ imax - 2) (hj' : 1 ≤ j' ∧ j' ≤ jmax - 2) :
    assembledA imax jmax grid boundaries valueSource u0 (j * imax + i) (j' * imax + i') =
      assembledA imax jmax grid boundaries valueSource u0 (j' * imax + i') (j * imax + i) := by
  refine interior_block_symmetric_of_periodic h3i h3j hn grid boundaries valueSource u0 ?_ ?_
    (by omega) (by omega) (by omega) (by omega)
  · intro k hk1 hk2
    have h1 := hux (k + 1) (by omega)
    have h2 := hux (k - 1) (by omega)
    rw [show k - 1 + 1 = k by omega] at h2
    rw [show k + 1 + 1 = k + 2 from rfl] at h1
    rw [h1, h2]
  · intro k hk1 hk2
    have h1 := huy (k + 1) (by omega)
    have h2 := huy (k - 1) (by omega)
    rw [show k - 1 + 1 = k by omega] at h2
    rw [show k + 1 + 1 = k + 2 from rfl] at h1
    rw [h1, h2]

/-! ## Arithmetic of `F64` -/

theorem F64_add_eq (a b : F64) : a + b = F64.add a b := rfl

theorem F64_sub_eq (a b : F64) : a - b = F64.add a (F64.neg b) := rfl

theorem F64_mul_eq (a b : F64) : a * b = F64.mul a b := rfl

theorem F64_div_eq (a b : F64) : a / b = F64.div a b := rfl

theorem F64_neg_eq (a : F64) : -a = F64.neg a := rfl

theorem F64_one_eq : (1 : F64) = F64.finite 1 := rfl

theorem F64_zero_eq : (0 : F64) = F64.finite 0 := rfl

theorem F64_natCast_eq (n : Nat) : ((n : Nat) : F64) = F64.finite (n : ℚ) := rfl

theorem F64_le_iff_not_gt (t : ℚ) (e : F64) (h : (e == e) = true) :
    e ≤ F64.finite t ↔ ¬ e > F64.finite t := by
  cases e with
  | finite q =>
    show F64.ble (F64.finite q) (F64.finite t) = true ↔
      ¬ F64.blt (F64.finite t) (F64.finite q) = true
    simp [F64.ble, F64.blt]
  | posInf =>
    show F64.ble F64.posInf (F64.finite t) = true ↔
      ¬ F64.blt (F64.finite t) F64.posInf = true
    simp [F64.ble, F64.blt]
  | negInf =>
    show F64.ble F64.negInf (F64.finite t) = true ↔
      ¬ F64.blt (F64.finite t) F64.negInf = true
    simp [F64.ble, F64.blt]
  | nan => exact absurd h (by simp [BEq.beq, F64.eqb])

/-! ## Termination of the PCG loop -/

section SolveTheorems

set_option linter.unusedSectionVars false

variable {K : Type} [Zero K] [One K] [Add K] [Sub K] [Mul K] [Div K] [NatCast K] [BEq K]
  [LT K] [∀ a b : K, Decidable (a < b)]

theorem pcgBody_kappa (n : Nat) (A M : Nat → Nat → K) (sqrt : K → K) (s : PCGState K) :
    (pcgBody n A M sqrt s).kappa = u32 (s.kappa + 1) := rfl

theorem FATAL_ITERATION_some {kappa k : Nat} {e : K} (h : FATAL_ITERATION kappa e = some k) :
    k = kappa := by
  unfold FATAL_ITERATION at h
  split at h
  · exact absurd h (by simp)
  · exact (Option.some.inj h).symm

theorem pcgLoop_succ (n : Nat) (A M : Nat → Nat → K) (sqrt : K → K) (kappaMax : Nat)
    (tol : K) (fuel : Nat) (s : PCGState K) :
    pcgLoop n A M sqrt kappaMax tol (fuel + 1) s =
      match FATAL_ITERATION (pcgBody n A M sqrt s).kappa (pcgBody n A M sqrt s).err with
      | some kappa => PCGOutcome.fatalIteration kappa
      | none =>
        if (pcgBody n A M sqrt s).kappa < kappaMax ∧ (pcgBody n A M sqrt s).err > tol then
          pcgLoop n A M sqrt kappaMax tol fuel (pcgBody n A M sqrt s)
        else PCGOutcome.finished (pcgBody n A M sqrt s) := rfl

theorem pcgLoop_exit_bound (n : Nat) (A M : Nat → Nat → K) (sqrt : K → K) (kappaMax : Nat)
    (tol : K) (hmax : kappaMax < 2 ^ 32) (fuel : Nat) (s : PCGState K)
    (hs : s.kappa < kappaMax ∨ s.kappa = 0) (hfuel : kappaMax ≤ s.kappa + fuel)
    (h1 : 1 ≤ fuel) :
    ∃ k, (pcgLoop n A M sqrt kappaMax tol fuel s).exitKappa = some k ∧
      s.kappa + 1 ≤ k ∧ k ≤ max kappaMax (s.kappa + 1) := by
  induction fuel generalizing s with
  | zero => omega
  | succ fuel ih =>
    have hk : (pcgBody n A M sqrt s).kappa = s.kappa + 1 := by
      rw [pcgBody_kappa]
      exact u32_of_lt (by omega)
    rw [pcgLoop_succ]
    cases hF : FATAL_ITERATION (pcgBody n A M sqrt s).kappa (pcgBody n A M sqrt s).err with
    | some k =>
      have := FATAL_ITERATION_some hF
      exact ⟨k, rfl, by omega, by omega⟩
    | none =>
      by_cases hc : (pcgBody n A M sqrt s).kappa < kappaMax ∧ (pcgBody n A M sqrt s).err > tol
      · simp only [hc, and_self, if_true]
        obtain ⟨k, hk1, hk2, hk3⟩ := ih (pcgBody n A M sqrt s) (Or.inl hc.1) (by omega)
          (by omega)
        exact ⟨k, hk1, by omega, by omega⟩
      · simp only [hc, if_false]
        exact ⟨(pcgBody n A M sqrt s).kappa, rfl, by omega, by omega⟩

theorem pcgLoop_fuel_mono (n : Nat) (A M : Nat → Nat → K) (sqrt : K → K) (kappaMax : Nat)
    (tol : K) (fuel : Nat) (s : PCGState K)
    (h : pcgLoop n A M sqrt kappaMax tol fuel s ≠ PCGOutcome.outOfFuel) (extra : Nat) :
    pcgLoop n A M sqrt kappaMax tol (fuel + extra) s =
      pcgLoop n A M sqrt kappaMax tol fuel s := by
  induction fuel generalizing s with
  | zero => exact absurd rfl h
  | succ fuel ih =>
    rw [show fuel + 1 + extra = (fuel + extra) + 1 by omega, pcgLoop_succ, pcgLoop_succ]
    rw [pcgLoop_succ] at h
    cases hF : FATAL_ITERATION (pcgBody n A M sqrt s).kappa (pcgBody n A M sqrt s).err with
    | some k => rfl
    | none =>
      rw [hF] at h
      by_cases hc : (pcgBody n A M sqrt s).kappa < kappaMax ∧ (pcgBody n A M sqrt s).err > tol
      · simp only [hc, and_self, if_true] at h ⊢
        exact ih _ h
      · simp only [hc, if_false]

end SolveTheorems

/-- C10 (as stated) fails: with `kappaMax = 0` the `do ... while` body still runs once and
the loop exits with `kappa = 1 > kappaMax`. Instance: the system `1 * u = 1`, `u = 0`. -/
theorem pcg_runs_once_with_zero_budget :
    ∃ s, pcgLoop 1 oneByOne (Mm1 oneByOne) (fun q => q) 0 0 1
        (pcgInit 1 oneByOne (fun _ => 1) (fun _ => 0) zeroState) = PCGOutcome.finished s ∧
      s.kappa = 1 ∧ ¬ s.kappa ≤ 0 := by
  refine ⟨pcgBody 1 oneByOne (Mm1 oneByOne) (fun q => q)
    (pcgInit 1 oneByOne (fun _ => 1) (fun _ => 0) zeroState), ?_, ?_, ?_⟩
  · rw [pcgLoop_succ]
    simp [FATAL_ITERATION]
  · rw [pcgBody_kappa]
    simp [pcgInit, u32]
  · rw [pcgBody_kappa]
    simp [pcgInit, u32]

/-- C10 (amended). For every input with `kappaMax` a `u32`, the loop started at line 140
ends within `max kappaMax 1` passes through the body (that much fuel suffices and more
fuel changes nothing), and the `kappa` it ends with satisfies `1 ≤ kappa ≤ max kappaMax 1`;
so `kappa ≤ kappaMax` whenever `kappaMax ≥ 1`. -/
theorem pcg_terminates_within_budget {K : Type} [Zero K] [One K] [Add K] [Sub K] [Mul K]
    [Div K] [NatCast K] [BEq K] [LT K] [∀ a b : K, Decidable (a < b)]
    (n : Nat) (A M : Nat → Nat → K) (sqrt : K → K) (kappaMax : Nat) (tol : K)
    (b u : Nat → K) (junk : PCGState K) (hmax : kappaMax < 2 ^ 32) :
    (∃ k, (pcgLoop n A M sqrt kappaMax tol (max kappaMax 1)
        (pcgInit n A b u junk)).exitKappa = some k ∧ 1 ≤ k ∧ k ≤ max kappaMax 1 ∧
        (1 ≤ kappaMax → k ≤ kappaMax)) ∧
    ∀ extra, pcgLoop n A M sqrt kappaMax tol (max kappaMax 1 + extra) (pcgInit n A b u junk) =
      pcgLoop n A M sqrt kappaMax tol (max kappaMax 1) (pcgInit n A b u junk) := by
  have h0 : (pcgInit n A b u junk).kappa = 0 := rfl
  obtain ⟨k, hk1, hk2, hk3⟩ := pcgLoop_exit_bound n A M sqrt kappaMax tol hmax
    (max kappaMax 1) (pcgInit n A b u junk) (Or.inr h0) (by rw [h0]; omega) (by omega)
  rw [h0] at hk2 hk3
  refine ⟨⟨k, hk1, by omega, by omega, fun h => by omega⟩, fun extra => ?_⟩
  apply pcgLoop_fuel_mono
  intro h
  rw [h] at hk1
  exact absurd hk1 (by simp [PCGOutcome.exitKappa])

/-- Witness for C10 (amended): the system `1 * u = 1` with `kappaMax = 5000`. -/
theorem pcg_terminates_within_budget_witness :
    5000 < 2 ^ 32 ∧
    ((∃ k, (pcgLoop 1 oneByOne (Mm1 oneByOne) (fun q => q) 5000 0 (max 5000 1)
        (pcgInit 1 oneByOne (fun _ => 1) (fun _ => 0) zeroState)).exitKappa = some k ∧
        1 ≤ k ∧ k ≤ max 5000 1 ∧ (1 ≤ 5000 → k ≤ 5000)) ∧
      ∀ extra, pcgLoop 1 oneByOne (Mm1 oneByOne) (fun q => q) 5000 0 (max 5000 1 + extra)
          (pcgInit 1 oneByOne (fun _ => 1) (fun _ => 0) zeroState) =
        pcgLoop 1 oneByOne (Mm1 oneByOne) (fun q => q) 5000 0 (max 5000 1)
          (pcgInit 1 oneByOne (fun _ => 1) (fun _ => 0) zeroState)) :=
  ⟨by norm_num,
    pcg_terminates_within_budget 1 oneByOne (Mm1 oneByOne) (fun q => q) 5000 0 (fun _ => 1)
      (fun _ => 0) zeroState (by norm_num)⟩

/-! ## The diagonal of `A` and the Jacobi preconditioner -/

/-! ### The same assembly with values in a scalar type -/

theorem foldl_append_flatMap {α β : Type} (f : α → List β) (l : List α) (c : List β) :
    l.foldl (fun c a => c ++ f a) c = c ++ l.flatMap f := by
  induction l generalizing c with
  | nil => simp
  | cons a l ih => simp [List.foldl_cons, ih, List.flatMap_cons, List.append_assoc]

theorem stencilOver_rat (imax : Nat) (grid : gridStruct) (j i : Nat) :
    (stencilOver imax grid.x grid.y j i).map (fun t => (⟨t.row, t.col, t.value⟩ : Triplet)) =
      stencil imax grid j i := by
  simp [stencilOver, stencil]

theorem coefficientsOver_rat (imax jmax : Nat) (grid : gridStruct)
    (boundaries : boundaryStruct) (valueSource : ℚ → ℚ → ℚ) (u0 : Nat → ℚ) :
    (coefficientsOver imax jmax grid.x grid.y).map
        (fun t => (⟨t.row, t.col, t.value⟩ : Triplet)) =
      (assemble imax jmax grid boundaries valueSource u0).coefficients := by
  unfold assemble coefficientsOver
  rw [eastLoop_coefficients, westLoop_coefficients, northLoop_coefficients,
    southLoop_coefficients, interiorLoop_coefficients]
  simp only [foldl_append_flatMap, List.map_append, List.map_flatMap, List.map_cons,
    List.map_nil, List.nil_append, stencilOver_rat]

theorem setFromTripletsOver_rat (c : List (TripletOver ℚ)) (p q : Nat) :
    setFromTripletsOver c p q =
      setFromTriplets (c.map (fun t => (⟨t.row, t.col, t.value⟩ : Triplet))) p q := by
  unfold setFromTripletsOver setFromTriplets
  induction c with
  | nil => rfl
  | cons t c ih =>
    by_cases h : t.row = p ∧ t.col = q
    · simp only [List.map_cons, List.filter_cons, h, and_self, decide_True, if_true,
        List.sum_cons]
      rw [ih]
    · simp only [List.map_cons, List.filter_cons, h, decide_False, if_false]
      exact ih

/-- In exact arithmetic the matrix with entries in `K = ℚ` is `assembledA`. -/
theorem assembledAOver_rat (imax jmax : Nat) (grid : gridStruct)
    (boundaries : boundaryStruct) (valueSource : ℚ → ℚ → ℚ) (u0 : Nat → ℚ) (p q : Nat) :
    assembledAOver imax jmax grid.x grid.y p q =
      assembledA imax jmax grid boundaries valueSource u0 p q := by
  unfold assembledAOver assembledA
  rw [setFromTripletsOver_rat, coefficientsOver_rat imax jmax grid boundaries valueSource u0]

/-- On the 3 x 3 grid `x = y = hugeGrid` the only triplet at `(4, 4)` is the centre of the
stencil of the interior point `(1, 1)`, and its value `2/(dx1*dx2) + 2/(dy1*dy2)` is `0`:
both products are `2^1200`, which overflows to `+inf`. -/
theorem hugeGrid_coefficients_row :
    (coefficientsOver 3 3 hugeGrid hugeGrid).filter (fun t => t.row = 4 ∧ t.col = 4) =
      [⟨4, 4, F64.finite 0⟩] := by
  have hs : u32sub 3 1 = 2 := by simp [u32sub]
  have hs1 : u32sub 1 1 = 0 := by simp [u32sub]
  have hr1 : forRange 1 2 = [1] := rfl
  have hr3 : forRange 0 3 = [0, 1, 2] := rfl
  simp only [coefficientsOver, hs, hr1, hr3, List.foldl_cons, List.foldl_nil, stencilOver, hs1]
  simp [flatten, flattenI64, u32, hs]
  have h2 : (2 : F64) = F64.finite 2 := rfl
  simp only [h2, hugeGrid, F64_sub_eq, F64_mul_eq, F64_div_eq, F64_add_eq]
  norm_num [F64.add, F64.mul, F64.div, F64.neg, F64.signedInf, F64.round, F64.overflowAt]

/-- C9 (as stated) fails on the values of the program. On the strictly increasing 3 x 3 grid
`x = y = (0, 2^600, 2^601)` the spacings are `2^600`, the products `dx1*dx2` and `dy1*dy2`
overflow to `+inf`, the diagonal entry of the interior row `4` is `2/inf + 2/inf = 0`, and
the Jacobi entry `Mm1[4,4] = 1/A[4,4]` is `1/0 = +inf`. -/
theorem diagonal_zero_on_overflow :
    (∀ k, k + 1 < 3 → hugeGrid k < hugeGrid (k + 1)) ∧
    (hugeGrid 1 - hugeGrid 0) * (hugeGrid 2 - hugeGrid 1) = F64.posInf ∧
    assembledAOver 3 3 hugeGrid hugeGrid (1 * 3 + 1) (1 * 3 + 1) = F64.finite 0 ∧
    Mm1 (assembledAOver 3 3 hugeGrid hugeGrid) (1 * 3 + 1) (1 * 3 + 1) = F64.posInf := by
  have hA : assembledAOver 3 3 hugeGrid hugeGrid 4 4 = F64.finite 0 := by
    unfold assembledAOver setFromTripletsOver
    rw [hugeGrid_coefficients_row]
    show F64.add (F64.finite 0) (F64.finite 0) = F64.finite 0
    norm_num [F64.add, F64.round, F64.overflowAt]
  refine ⟨?_, ?_, hA, ?_⟩
  · intro k hk
    show F64.blt (hugeGrid k) (hugeGrid (k + 1)) = true
    simp only [hugeGrid, F64.blt, decide_eq_true_eq]
    push_cast
    have : (0 : ℚ) < 2 ^ 600 := by positivity
    linarith
  · simp only [hugeGrid, F64_sub_eq, F64_mul_eq]
    norm_num [F64.add, F64.mul, F64.neg, F64.round, F64.overflowAt]
  · show (if 4 = 4 then 1 / assembledAOver 3 3 hugeGrid hugeGrid 4 4 else 0) = F64.posInf
    rw [if_pos rfl, hA]
    show F64.div (F64.finite 1) (F64.finite 0) = F64.posInf
    simp [F64.div, F64.signedInf]

/-! ### The diagonal in exact arithmetic -/

/-- C9 (amended). In exact arithmetic, on a strictly increasing grid every diagonal entry
`A[k,k]`, `k < imax*jmax`, is strictly positive: `1` on boundary rows and
`2/(dx1*dx2) + 2/(dy1*dy2)` on interior rows; so the Jacobi entries `Mm1[k,k] = 1/A[k,k]`
divide by a nonzero number and invert it. -/
theorem diagonal_positive {imax jmax : Nat} (h3i : 3 ≤ imax) (h3j : 3 ≤ jmax)
    (hn : imax * jmax < 2 ^ 32) (grid : gridStruct) (boundaries : boundaryStruct)
    (valueSource : ℚ → ℚ → ℚ) (u0 : Nat → ℚ)
    (hxinc : ∀ k, k + 1 < imax → grid.x k < grid.x (k + 1))
    (hyinc : ∀ k, k + 1 < jmax → grid.y k < grid.y (k + 1)) (k : Nat)
    (hk : k < imax * jmax) :
    let A := assembledA imax jmax grid boundaries valueSource u0
    let i := k % imax
    let j := k / imax
    0 < A k k ∧
    (i = 0 ∨ i = imax - 1 ∨ j = 0 ∨ j = jmax - 1 → A k k = 1) ∧
    (¬ (i = 0 ∨ i = imax - 1 ∨ j = 0 ∨ j = jmax - 1) →
      A k k = 2 / ((grid.x i - grid.x (i - 1)) * (grid.x (i + 1) - grid.x i)) +
        2 / ((grid.y j - grid.y (j - 1)) * (grid.y (j + 1) - grid.y j))) ∧
    Mm1 A k k = 1 / A k k ∧ Mm1 A k k * A k k = 1 := by
  intro A i j
  have himax : 0 < imax := by omega
  have hi : i < imax := Nat.mod_lt k himax
  have hj : j < jmax := Nat.div_lt_of_lt_mul hk
  have hkij : j * imax + i = k := Nat.div_add_mod' k imax
  clear_value i j
  have hcases : (i = 0 ∨ i = imax - 1 ∨ j = 0 ∨ j = jmax - 1) →
      A k k = 1 := by
    intro hb
    have h := assembledA_boundary_row h3i h3j hn grid boundaries valueSource u0 hi hj hb
      (j * imax + i)
    rw [if_pos rfl, hkij] at h
    exact h
  have hint : ¬ (i = 0 ∨ i = imax - 1 ∨ j = 0 ∨ j = jmax - 1) →
      A k k = 2 / ((grid.x i - grid.x (i - 1)) * (grid.x (i + 1) - grid.x i)) +
        2 / ((grid.y j - grid.y (j - 1)) * (grid.y (j + 1) - grid.y j)) := by
    intro hnb
    have h := assembledA_interior_coords h3i h3j hn grid boundaries valueSource u0
      (show 1 ≤ i ∧ i + 1 < imax by omega) (show 1 ≤ j ∧ j + 1 < jmax by omega) j hi
    have n1 : ¬ (i = i ∧ j + 1 = j) := by omega
    have n2 : ¬ (i + 1 = i ∧ j = j) := by omega
    rw [if_neg n1, if_neg n2, if_pos ⟨rfl, rfl⟩, hkij] at h
    exact h
  have hpos : 0 < A k k := by
    by_cases hb : i = 0 ∨ i = imax - 1 ∨ j = 0 ∨ j = jmax - 1
    · rw [hcases hb]
      norm_num
    · rw [hint hb]
      have dx1 : 0 < grid.x i - grid.x (i - 1) := by
        have := hxinc (i - 1) (by omega)
        rw [show i - 1 + 1 = i by omega] at this
        linarith
      have dx2 : 0 < grid.x (i + 1) - grid.x i := by
        have := hxinc i (by omega)
        linarith
      have dy1 : 0 < grid.y j - grid.y (j - 1) := by
        have := hyinc (j - 1) (by omega)
        rw [show j - 1 + 1 = j by omega] at this
        linarith
      have dy2 : 0 < grid.y (j + 1) - grid.y j := by
        have := hyinc j (by omega)
        linarith
      positivity
  have hM : Mm1 A k k = 1 / A k k := by simp [Mm1]
  refine ⟨hpos, hcases, hint, hM, ?_⟩
  rw [hM]
  exact one_div_mul_cancel (ne_of_gt hpos)

/-- Witness for C9 (amended): the centre `k = 4` of the 3 x 3 unit grid. -/
theorem diagonal_positive_witness :
    (3 ≤ 3 ∧ 3 * 3 < 2 ^ 32 ∧ (∀ k, k + 1 < 3 → unitGrid.x k < unitGrid.x (k + 1)) ∧
      (∀ k, k + 1 < 3 → unitGrid.y k < unitGrid.y (k + 1)) ∧ 4 < 3 * 3) ∧
    (let A := assembledA 3 3 unitGrid westBoundaries unitSource (fun _ => 7)
    let i := 4 % 3
    let j := 4 / 3
    0 < A 4 4 ∧
    (i = 0 ∨ i = 3 - 1 ∨ j = 0 ∨ j = 3 - 1 → A 4 4 = 1) ∧
    (¬ (i = 0 ∨ i = 3 - 1 ∨ j = 0 ∨ j = 3 - 1) →
      A 4 4 = 2 / ((unitGrid.x i - unitGrid.x (i - 1)) * (unitGrid.x (i + 1) - unitGrid.x i)) +
        2 / ((unitGrid.y j - unitGrid.y (j - 1)) * (unitGrid.y (j + 1) - unitGrid.y j))) ∧
    Mm1 A 4 4 = 1 / A 4 4 ∧ Mm1 A 4 4 * A 4 4 = 1) :=
  ⟨⟨by decide, by norm_num, fun k _ => by simp [unitGrid], fun k _ => by simp [unitGrid],
      by decide⟩,
    diagonal_positive (by decide) (by decide) (by norm_num) unitGrid westBoundaries unitSource
      (fun _ => 7) (fun k _ => by simp [unitGrid]) (fun k _ => by simp [unitGrid]) 4
      (by decide)⟩

/-- Witness for C8: the interior points `(1, 1)` and `(2, 1)` of the 4 x 3 unit grid. -/
theorem uniform_grid_interior_symmetric_witness :
    (3 ≤ 4 ∧ 3 ≤ 3 ∧ 4 * 3 < 2 ^ 32 ∧
      (∀ k, k + 1 < 4 → unitGrid.x (k + 1) - unitGrid.x k = 1) ∧
      (∀ k, k + 1 < 3 → unitGrid.y (k + 1) - unitGrid.y k = 1) ∧
      (1 ≤ 1 ∧ 1 ≤ 4 - 2) ∧ (1 ≤ 1 ∧ 1 ≤ 3 - 2) ∧ (1 ≤ 2 ∧ 2 ≤ 4 - 2)) ∧
    assembledA 4 3 unitGrid westBoundaries unitSource (fun _ => 7) (1 * 4 + 1) (1 * 4 + 2) =
      assembledA 4 3 unitGrid westBoundaries unitSource (fun _ => 7) (1 * 4 + 2) (1 * 4 + 1) :=
  ⟨⟨by decide, by decide, by norm_num, fun k _ => by simp [unitGrid],
      fun k _ => by simp [unitGrid], by decide, by decide, by decide⟩,
    uniform_grid_interior_symmetric (by decide) (by decide) (by norm_num) unitGrid
      westBoundaries unitSource (fun _ => 7) 1 1 (fun k _ => by simp [unitGrid])
      (fun k _ => by simp [unitGrid]) 1 1 2 1 (by decide) (by decide) (by decide) (by decide)⟩

/-! ## How the PCG loop ends -/

section LoopExit

set_option linter.unusedSectionVars false

variable {K : Type} [Zero K] [One K] [Add K] [Sub K] [Mul K] [Div K] [NatCast K] [BEq K]
  [LT K] [∀ a b : K, Decidable (a < b)]

theorem pcgLoop_succ_stop (n : Nat) (A M : Nat → Nat → K) (sqrt : K → K) (kappaMax : Nat)
    (tol : K) (fuel : Nat) (s : PCGState K) :
    pcgLoop n A M sqrt kappaMax tol (fuel + 1) s =
      match pcgStop kappaMax tol (pcgBody n A M sqrt s) with
      | some out => out
      | none => pcgLoop n A M sqrt kappaMax tol fuel (pcgBody n A M sqrt s) := by
  rw [pcgLoop_succ]
  unfold pcgStop
  cases FATAL_ITERATION (pcgBody n A M sqrt s).kappa (pcgBody n A M sqrt s).err with
  | some k => rfl
  | none =>
    by_cases hc : (pcgBody n A M sqrt s).kappa < kappaMax ∧ (pcgBody n A M sqrt s).err > tol
    · simp only [hc, and_self, if_true]
    · simp only [hc, if_false]

theorem pcgStop_ne_outOfFuel (kappaMax : Nat) (tol : K) (s : PCGState K) :
    pcgStop kappaMax tol s ≠ some PCGOutcome.outOfFuel := by
  unfold pcgStop
  cases FATAL_ITERATION s.kappa s.err with
  | some k => simp
  | none =>
    by_cases hc : s.kappa < kappaMax ∧ s.err > tol
    · simp [hc]
    · simp [hc]

theorem pcgAfter_succ (n : Nat) (A M : Nat → Nat → K) (sqrt : K → K) (m : Nat)
    (s : PCGState K) :
    pcgAfter n A M sqrt (m + 1) s = pcgAfter n A M sqrt m (pcgBody n A M sqrt s) := rfl

theorem pcgAfter_succ_out (n : Nat) (A M : Nat → Nat → K) (sqrt : K → K) (m : Nat)
    (s : PCGState K) :
    pcgAfter n A M sqrt (m + 1) s = pcgBody n A M sqrt (pcgAfter n A M sqrt m s) :=
  Function.iterate_succ_apply' _ _ _

/-- The loop ends with `out` exactly when some pass `m ≤ fuel` is the first one whose tail
stops, and stops with `out`. -/
theorem pcgLoop_eq_iff (n : Nat) (A M : Nat → Nat → K) (sqrt : K → K) (kappaMax : Nat)
    (tol : K) (fuel : Nat) (s : PCGState K) (out : PCGOutcome K)
    (hout : out ≠ PCGOutcome.outOfFuel) :
    pcgLoop n A M sqrt kappaMax tol fuel s = out ↔
      ∃ m, 1 ≤ m ∧ m ≤ fuel ∧ pcgStop kappaMax tol (pcgAfter n A M sqrt m s) = some out ∧
        ∀ i, 1 ≤ i → i < m → pcgStop kappaMax tol (pcgAfter n A M sqrt i s) = none := by
  induction fuel generalizing s with
  | zero =>
    constructor
    · intro h
      exact absurd h.symm hout
    · rintro ⟨m, h1, h2, _⟩
      omega
  | succ fuel ih =>
    rw [pcgLoop_succ_stop]
    cases hS : pcgStop kappaMax tol (pcgBody n A M sqrt s) with
    | some o =>
      constructor
      · intro h
        refine ⟨1, le_refl 1, by omega, ?_, fun i h1 h2 => by omega⟩
        show pcgStop kappaMax tol (pcgBody n A M sqrt s) = some out
        rw [hS]
        exact congrArg some h
      · rintro ⟨m, h1, _, hm, hbefore⟩
        by_cases hm1 : m = 1
        · subst hm1
          have : pcgStop kappaMax tol (pcgBody n A M sqrt s) = some out := hm
          rw [hS] at this
          exact Option.some.inj this
        · have := hbefore 1 (le_refl 1) (by omega)
          have h' : pcgStop kappaMax tol (pcgBody n A M sqrt s) = none := this
          rw [hS] at h'
          exact absurd h' (by simp)
    | none =>
      show pcgLoop n A M sqrt kappaMax tol fuel (pcgBody n A M sqrt s) = out ↔ _
      rw [ih (pcgBody n A M sqrt s)]
      constructor
      · rintro ⟨m, h1, h2, hm, hbefore⟩
        refine ⟨m + 1, by omega, by omega, ?_, ?_⟩
        · rw [pcgAfter_succ]
          exact hm
        · intro i hi1 hi2
          by_cases hi : i = 1
          · subst hi
            exact hS
          · obtain ⟨i', rfl⟩ : ∃ i', i = i' + 1 := ⟨i - 1, by omega⟩
            rw [pcgAfter_succ]
            exact hbefore i' (by omega) (by omega)
      · rintro ⟨m, h1, h2, hm, hbefore⟩
        by_cases hm1 : m = 1
        · subst hm1
          have : pcgStop kappaMax tol (pcgBody n A M sqrt s) = some out := hm
          rw [hS] at this
          exact absurd this (by simp)
        · obtain ⟨m', rfl⟩ : ∃ m', m = m' + 1 := ⟨m - 1, by omega⟩
          refine ⟨m', by omega, by omega, ?_, ?_⟩
          · rw [← pcgAfter_succ]
            exact hm
          · intro i hi1 hi2
            rw [← pcgAfter_succ]
            exact hbefore (i + 1) (by omega) (by omega)

theorem pcgAfter_kappa (n : Nat) (A M : Nat → Nat → K) (sqrt : K → K) (m : Nat)
    (s : PCGState K) :
    (pcgAfter n A M sqrt m s).kappa = (s.kappa + m) % 2 ^ 32 ∨ m = 0 := by
  induction m with
  | zero => exact Or.inr rfl
  | succ m ih =>
    left
    rw [pcgAfter_succ_out, pcgBody_kappa]
    unfold u32
    rcases ih with h | h
    · rw [h]
      omega
    · subst h
      rfl

end LoopExit

theorem pcgStop_finished_iff {K : Type} [BEq K] [LT K] [∀ a b : K, Decidable (a < b)]
    (kappaMax : Nat) (tol : K) (s t : PCGState K) :
    pcgStop kappaMax tol s = some (PCGOutcome.finished t) ↔
      FATAL_ITERATION s.kappa s.err = none ∧ ¬ (s.kappa < kappaMax ∧ s.err > tol) ∧ t = s := by
  unfold pcgStop
  cases FATAL_ITERATION s.kappa s.err with
  | some k => simp
  | none =>
    by_cases hc : s.kappa < kappaMax ∧ s.err > tol
    · simp [hc]
    · simp only [hc, if_false, not_false_eq_true, true_and, Option.some.injEq,
        PCGOutcome.finished.injEq]
      exact eq_comm

theorem pcgStop_none_iff {K : Type} [BEq K] [LT K] [∀ a b : K, Decidable (a < b)]
    (kappaMax : Nat) (tol : K) (s : PCGState K) :
    pcgStop kappaMax tol s = none ↔
      FATAL_ITERATION s.kappa s.err = none ∧ (s.kappa < kappaMax ∧ s.err > tol) := by
  unfold pcgStop
  cases FATAL_ITERATION s.kappa s.err with
  | some k => simp
  | none =>
    by_cases hc : s.kappa < kappaMax ∧ s.err > tol
    · simp [hc]
    · simp [hc]

theorem pcgStop_fatal_iff {K : Type} [BEq K] [LT K] [∀ a b : K, Decidable (a < b)]
    (kappaMax : Nat) (tol : K) (s : PCGState K) (k : Nat) :
    pcgStop kappaMax tol s = some (PCGOutcome.fatalIteration k) ↔
      FATAL_ITERATION s.kappa s.err = some k := by
  unfold pcgStop
  cases FATAL_ITERATION s.kappa s.err with
  | some k' => simp
  | none =>
    by_cases hc : s.kappa < kappaMax ∧ s.err > tol
    · simp [hc]
    · simp [hc]

/-- C11. Let `tol` compare with every non-NaN value as a number does: `e ≤ tol` exactly
when not `e > tol` (in IEEE-754 arithmetic this says that `tol` is not NaN). Then, for
every scalar type, the loop exits normally with final state `s` exactly when `s` is the
state after some pass `m ≥ 1` at which `err` is not NaN and `kappa ≥ kappaMax` or
`err ≤ tol` holds, while after every earlier pass `err` was not NaN and both
`kappa < kappaMax` and `err > tol` held: the loop stops at the first pass that meets the
terminal condition. -/
theorem pcg_exit_condition {K : Type} [Zero K] [One K] [Add K] [Sub K] [Mul K] [Div K]
    [NatCast K] [BEq K] [LT K] [LE K] [∀ a b : K, Decidable (a < b)]
    (n : Nat) (A M : Nat → Nat → K) (sqrt : K → K) (kappaMax : Nat) (tol : K)
    (htol : ∀ e : K, (e == e) = true → (e ≤ tol ↔ ¬ e > tol))
    (fuel : Nat) (s₀ s : PCGState K) :
    pcgLoop n A M sqrt kappaMax tol fuel s₀ = PCGOutcome.finished s ↔
      ∃ m, 1 ≤ m ∧ m ≤ fuel ∧ s = pcgAfter n A M sqrt m s₀ ∧
        (s.err == s.err) = true ∧ (kappaMax ≤ s.kappa ∨ s.err ≤ tol) ∧
        ∀ i, 1 ≤ i → i < m →
          ((pcgAfter n A M sqrt i s₀).err == (pcgAfter n A M sqrt i s₀).err) = true ∧
          (pcgAfter n A M sqrt i s₀).kappa < kappaMax ∧
          (pcgAfter n A M sqrt i s₀).err > tol := by
  have hF : ∀ (kappa : Nat) (e : K), FATAL_ITERATION kappa e = none ↔ (e == e) = true := by
    intro kappa e
    unfold FATAL_ITERATION
    by_cases h : (e == e) = true
    · simp [h]
    · simp [h]
  rw [pcgLoop_eq_iff n A M sqrt kappaMax tol fuel s₀ _ (by simp)]
  constructor
  · rintro ⟨m, h1, h2, hm, hbefore⟩
    rw [pcgStop_finished_iff] at hm
    obtain ⟨hnn, hstop, hs⟩ := hm
    rw [hF] at hnn
    refine ⟨m, h1, h2, hs, by rw [hs]; exact hnn, ?_, fun i hi1 hi2 => ?_⟩
    · rw [hs]
      by_cases hk : (pcgAfter n A M sqrt m s₀).kappa < kappaMax
      · right
        exact (htol _ hnn).mpr (fun hgt => hstop ⟨hk, hgt⟩)
      · left
        exact not_lt.mp hk
    · have := (pcgStop_none_iff kappaMax tol _).mp (hbefore i hi1 hi2)
      exact ⟨(hF _ _).mp this.1, this.2⟩
  · rintro ⟨m, h1, h2, hs, hnn, hterm, hbefore⟩
    refine ⟨m, h1, h2, ?_, fun i hi1 hi2 => ?_⟩
    · rw [pcgStop_finished_iff]
      rw [hs] at hnn hterm
      refine ⟨(hF _ _).mpr hnn, ?_, hs⟩
      rintro ⟨hk, hgt⟩
      rcases hterm with h | h
      · exact absurd hk (not_lt.mpr h)
      · exact (htol _ hnn).mp h hgt
    · rw [pcgStop_none_iff]
      exact ⟨(hF _ _).mpr (hbefore i hi1 hi2).1, (hbefore i hi1 hi2).2⟩

theorem dot_four {K : Type} [Zero K] [Add K] [Mul K] (a b : Nat → K) :
    dot 4 a b = 0 + a 0 * b 0 + a 1 * b 1 + a 2 * b 2 + a 3 * b 3 := rfl

/-- The first pass on `twoPassA`: `alphak = 1`, the iterate moves to `(1, 0, 0, 0)`, the
residual to `(0, 2, 0, 0)`, and `err = sqrt (4/4) = 1`. -/
theorem twoPass_after_one :
    (pcgAfter 4 twoPassA (Mm1 twoPassA) (fun e => e) 1
        (pcgInit 4 twoPassA twoPassB (fun _ => F64.finite 0) zeroStateF)).kappa = 1 ∧
    (pcgAfter 4 twoPassA (Mm1 twoPassA) (fun e => e) 1
        (pcgInit 4 twoPassA twoPassB (fun _ => F64.finite 0) zeroStateF)).err = F64.finite 1 := by
  have h1 : u32 (0 + 1) = 1 := by simp [u32]
  constructor
  · simp [pcgAfter, pcgBody, pcgInit, u32]
  · simp only [pcgAfter, Function.iterate_succ, Function.iterate_zero, Function.comp, id,
      pcgBody, pcgInit, h1, matVec, dot_four, Mm1, twoPassA, twoPassB, if_true, F64_sub_eq,
      F64_mul_eq, F64_div_eq, F64_add_eq, F64_one_eq, F64_zero_eq, F64_natCast_eq]
    norm_num [F64.add, F64.mul, F64.div, F64.neg, F64.signedInf, F64.round, F64.overflowAt]

set_option maxHeartbeats 1600000 in
/-- The second pass on `twoPassA`: `betak = 1/2`, `alphak = 2`, the iterate reaches the
solution `(2, 2, 0, 0)`, the residual is zero and `err = sqrt 0 = 0`. -/
theorem twoPass_after_two :
    (pcgAfter 4 twoPassA (Mm1 twoPassA) (fun e => e) 2
        (pcgInit 4 twoPassA twoPassB (fun _ => F64.finite 0) zeroStateF)).kappa = 2 ∧
    (pcgAfter 4 twoPassA (Mm1 twoPassA) (fun e => e) 2
        (pcgInit 4 twoPassA twoPassB (fun _ => F64.finite 0) zeroStateF)).err = F64.finite 0 ∧
    (pcgAfter 4 twoPassA (Mm1 twoPassA) (fun e => e) 2
        (pcgInit 4 twoPassA twoPassB (fun _ => F64.finite 0) zeroStateF)).u 0 = F64.finite 2 ∧
    (pcgAfter 4 twoPassA (Mm1 twoPassA) (fun e => e) 2
        (pcgInit 4 twoPassA twoPassB (fun _ => F64.finite 0) zeroStateF)).u 1 = F64.finite 2 := by
  have h1 : u32 (0 + 1) = 1 := by simp [u32]
  have h2 : u32 (1 + 1) = 2 := by simp [u32]
  refine ⟨by simp [pcgAfter, pcgBody, pcgInit, u32], ?_, ?_, ?_⟩
  · simp only [pcgAfter, Function.iterate_succ, Function.iterate_zero, Function.comp, id,
      pcgBody, pcgInit, h1, h2, matVec, dot_four, Mm1, twoPassA, twoPassB, if_true, F64_sub_eq,
      F64_mul_eq, F64_div_eq, F64_add_eq, F64_one_eq, F64_zero_eq, F64_natCast_eq]
    norm_num [F64.add, F64.mul, F64.div, F64.neg, F64.signedInf, F64.round, F64.overflowAt]
  · simp only [pcgAfter, Function.iterate_succ, Function.iterate_zero, Function.comp, id,
      pcgBody, pcgInit, h1, h2, matVec, dot_four, Mm1, twoPassA, twoPassB, if_true, F64_sub_eq,
      F64_mul_eq, F64_div_eq, F64_add_eq, F64_one_eq, F64_zero_eq, F64_natCast_eq]
    norm_num [F64.add, F64.mul, F64.div, F64.neg, F64.signedInf, F64.round, F64.overflowAt]
  · simp only [pcgAfter, Function.iterate_succ, Function.iterate_zero, Function.comp, id,
      pcgBody, pcgInit, h1, h2, matVec, dot_four, Mm1, twoPassA, twoPassB, if_true, F64_sub_eq,
      F64_mul_eq, F64_div_eq, F64_add_eq, F64_one_eq, F64_zero_eq, F64_natCast_eq]
    norm_num [F64.add, F64.mul, F64.div, F64.neg, F64.signedInf, F64.round, F64.overflowAt]

/-- On `F64`, with the constants of the source (`kappaMax = 5000`, `tol = 1e-15`), the
solve of `twoPassA` goes round once (`err = 1 > tol`) and exits normally after its second
pass (`err = 0 ≤ tol`). -/
theorem twoPass_run :
    pcgLoop 4 twoPassA (Mm1 twoPassA) (fun e => e) 5000 (F64.finite (1 / 10 ^ 15)) 5000
        (pcgInit 4 twoPassA twoPassB (fun _ => F64.finite 0) zeroStateF) =
      PCGOutcome.finished (pcgAfter 4 twoPassA (Mm1 twoPassA) (fun e => e) 2
        (pcgInit 4 twoPassA twoPassB (fun _ => F64.finite 0) zeroStateF)) := by
  rw [pcgLoop_eq_iff _ _ _ _ _ _ _ _ _ (by simp)]
  refine ⟨2, by decide, by decide, ?_, ?_⟩
  · rw [pcgStop_finished_iff, twoPass_after_two.2.1]
    refine ⟨by simp [FATAL_ITERATION, BEq.beq, F64.eqb], ?_, rfl⟩
    rintro ⟨_, h⟩
    have h' : F64.blt (F64.finite (1 / 10 ^ 15)) (F64.finite 0) = true := h
    norm_num [F64.blt] at h'
  · intro i hi1 hi2
    have hi : i = 1 := by omega
    subst hi
    rw [pcgStop_none_iff, twoPass_after_one.1, twoPass_after_one.2]
    refine ⟨by simp [FATAL_ITERATION, BEq.beq, F64.eqb], by decide, ?_⟩
    show F64.blt (F64.finite (1 / 10 ^ 15)) (F64.finite 1) = true
    norm_num [F64.blt]

/-- Witness for C11: the scalar type `F64` with the constants of the source
(`kappaMax = 5000`, `tol = 1e-15`) on the system `twoPassA`, which exits normally after its
second pass with `kappa = 2`, `err = 0` and `u = (2, 2, 0, 0)`, the first pass having left
`err = 1`. `std::sqrt` is applied to `1` and to `0` only, which it fixes, and is passed as
the identity. -/
theorem pcg_exit_condition_witness :
    (∀ e : F64, (e == e) = true →
      (e ≤ F64.finite (1 / 10 ^ 15) ↔ ¬ e > F64.finite (1 / 10 ^ 15))) ∧
    (pcgLoop 4 twoPassA (Mm1 twoPassA) (fun e => e) 5000 (F64.finite (1 / 10 ^ 15)) 5000
        (pcgInit 4 twoPassA twoPassB (fun _ => F64.finite 0) zeroStateF) =
        PCGOutcome.finished (pcgAfter 4 twoPassA (Mm1 twoPassA) (fun e => e) 2
          (pcgInit 4 twoPassA twoPassB (fun _ => F64.finite 0) zeroStateF)) ↔
      ∃ m, 1 ≤ m ∧ m ≤ 5000 ∧
        (pcgAfter 4 twoPassA (Mm1 twoPassA) (fun e => e) 2
          (pcgInit 4 twoPassA twoPassB (fun _ => F64.finite 0) zeroStateF)) =
          (pcgAfter 4 twoPassA (Mm1 twoPassA) (fun e => e) m
            (pcgInit 4 twoPassA twoPassB (fun _ => F64.finite 0) zeroStateF)) ∧
        ((pcgAfter 4 twoPassA (Mm1 twoPassA) (fun e => e) 2
          (pcgInit 4 twoPassA twoPassB (fun _ => F64.finite 0) zeroStateF)).err ==
          (pcgAfter 4 twoPassA (Mm1 twoPassA) (fun e => e) 2
          (pcgInit 4 twoPassA twoPassB (fun _ => F64.finite 0) zeroStateF)).err) = true ∧
        (5000 ≤ (pcgAfter 4 twoPassA (Mm1 twoPassA) (fun e => e) 2
          (pcgInit 4 twoPassA twoPassB (fun _ => F64.finite 0) zeroStateF)).kappa ∨
          (pcgAfter 4 twoPassA (Mm1 twoPassA) (fun e => e) 2
          (pcgInit 4 twoPassA twoPassB (fun _ => F64.finite 0) zeroStateF)).err ≤ F64.finite (1 / 10 ^ 15)) ∧
        ∀ i, 1 ≤ i → i < m →
          ((pcgAfter 4 twoPassA (Mm1 twoPassA) (fun e => e) i
            (pcgInit 4 twoPassA twoPassB (fun _ => F64.finite 0) zeroStateF)).err ==
            (pcgAfter 4 twoPassA (Mm1 twoPassA) (fun e => e) i
            (pcgInit 4 twoPassA twoPassB (fun _ => F64.finite 0) zeroStateF)).err) = true ∧
          (pcgAfter 4 twoPassA (Mm1 twoPassA) (fun e => e) i
            (pcgInit 4 twoPassA twoPassB (fun _ => F64.finite 0) zeroStateF)).kappa < 5000 ∧
          (pcgAfter 4 twoPassA (Mm1 twoPassA) (fun e => e) i
            (pcgInit 4 twoPassA twoPassB (fun _ => F64.finite 0) zeroStateF)).err > F64.finite (1 / 10 ^ 15)) ∧
    pcgLoop 4 twoPassA (Mm1 twoPassA) (fun e => e) 5000 (F64.finite (1 / 10 ^ 15)) 5000
        (pcgInit 4 twoPassA twoPassB (fun _ => F64.finite 0) zeroStateF) =
      PCGOutcome.finished (pcgAfter 4 twoPassA (Mm1 twoPassA) (fun e => e) 2
        (pcgInit 4 twoPassA twoPassB (fun _ => F64.finite 0) zeroStateF)) ∧
    (pcgAfter 4 twoPassA (Mm1 twoPassA) (fun e => e) 1
        (pcgInit 4 twoPassA twoPassB (fun _ => F64.finite 0) zeroStateF)).err = F64.finite 1 ∧
    (pcgAfter 4 twoPassA (Mm1 twoPassA) (fun e => e) 2
        (pcgInit 4 twoPassA twoPassB (fun _ => F64.finite 0) zeroStateF)).kappa = 2 ∧
    (pcgAfter 4 twoPassA (Mm1 twoPassA) (fun e => e) 2
        (pcgInit 4 twoPassA twoPassB (fun _ => F64.finite 0) zeroStateF)).err = F64.finite 0 ∧
    (pcgAfter 4 twoPassA (Mm1 twoPassA) (fun e => e) 2
        (pcgInit 4 twoPassA twoPassB (fun _ => F64.finite 0) zeroStateF)).u 0 = F64.finite 2 ∧
    (pcgAfter 4 twoPassA (Mm1 twoPassA) (fun e => e) 2
        (pcgInit 4 twoPassA twoPassB (fun _ => F64.finite 0) zeroStateF)).u 1 = F64.finite 2 :=
  ⟨F64_le_iff_not_gt (1 / 10 ^ 15),
    pcg_exit_condition 4 twoPassA (Mm1 twoPassA) (fun e => e) 5000 (F64.finite (1 / 10 ^ 15))
      (F64_le_iff_not_gt (1 / 10 ^ 15)) 5000
      (pcgInit 4 twoPassA twoPassB (fun _ => F64.finite 0) zeroStateF) _,
    twoPass_run, twoPass_after_one.2, twoPass_after_two⟩

/-! ## The abort on a NaN residual error -/

theorem FATAL_ITERATION_iff {K : Type} [BEq K] (kappa : Nat) (e : K) :
    (FATAL_ITERATION kappa e = some kappa ↔ (e == e) = false) ∧
    (FATAL_ITERATION kappa e = none ↔ ¬ (e == e) = false) := by
  unfold FATAL_ITERATION
  by_cases h : (e == e) = true
  · simp [h]
  · have h' : (e == e) = false := by simpa using h
    simp [h']

/-- C12. Let `isNaN` be the NaN test of the scalar type, characterised as IEEE-754 does:
NaN is the value that `==` does not find equal to itself. Then `FATAL_ITERATION` aborts
exactly on a NaN error, and the solve ends in the abort reporting `k` exactly when some
pass `m` is the first whose `err` is NaN (every earlier pass had a non-NaN `err` and let
the loop go on), `k` being the counter `kappa` of that pass, the pass number `m`. -/
theorem fatal_iteration_on_first_nan {K : Type} [Zero K] [One K] [Add K] [Sub K] [Mul K]
    [Div K] [NatCast K] [BEq K] [LT K] [∀ a b : K, Decidable (a < b)]
    (isNaN : K → Prop) (hnan : ∀ e : K, isNaN e ↔ (e == e) = false)
    (n : Nat) (A M : Nat → Nat → K) (sqrt : K → K) (kappaMax : Nat) (tol : K)
    (b u : Nat → K) (junk : PCGState K) (fuel : Nat) :
    (∀ (kappa : Nat) (e : K), (FATAL_ITERATION kappa e = some kappa ↔ isNaN e) ∧
      (FATAL_ITERATION kappa e = none ↔ ¬ isNaN e)) ∧
    ∀ k, pcgLoop n A M sqrt kappaMax tol fuel (pcgInit n A b u junk) =
        PCGOutcome.fatalIteration k ↔
      ∃ m, 1 ≤ m ∧ m ≤ fuel ∧
        isNaN (pcgAfter n A M sqrt m (pcgInit n A b u junk)).err ∧
        k = (pcgAfter n A M sqrt m (pcgInit n A b u junk)).kappa ∧ k = m % 2 ^ 32 ∧
        ∀ i, 1 ≤ i → i < m →
          ¬ isNaN (pcgAfter n A M sqrt i (pcgInit n A b u junk)).err ∧
          (pcgAfter n A M sqrt i (pcgInit n A b u junk)).kappa < kappaMax ∧
          (pcgAfter n A M sqrt i (pcgInit n A b u junk)).err > tol := by
  have hF : ∀ (kappa : Nat) (e : K), (FATAL_ITERATION kappa e = some kappa ↔ isNaN e) ∧
      (FATAL_ITERATION kappa e = none ↔ ¬ isNaN e) := by
    intro kappa e
    rw [hnan e]
    exact FATAL_ITERATION_iff kappa e
  refine ⟨hF, fun k => ?_⟩
  rw [pcgLoop_eq_iff n A M sqrt kappaMax tol fuel _ _ (by simp)]
  have hkap : ∀ m, 1 ≤ m →
      (pcgAfter n A M sqrt m (pcgInit n A b u junk)).kappa = m % 2 ^ 32 := by
    intro m hm
    rcases pcgAfter_kappa n A M sqrt m (pcgInit n A b u junk) with h | h
    · rw [h]
      show (0 + m) % 2 ^ 32 = _
      rw [Nat.zero_add]
    · omega
  constructor
  · rintro ⟨m, h1, h2, hm, hbefore⟩
    rw [pcgStop_fatal_iff] at hm
    have hk := FATAL_ITERATION_some hm
    rw [hk] at hm
    refine ⟨m, h1, h2, (hF _ _).1.mp hm, hk, by rw [hk, hkap m h1], fun i hi1 hi2 => ?_⟩
    have := (pcgStop_none_iff kappaMax tol _).mp (hbefore i hi1 hi2)
    exact ⟨(hF _ _).2.mp this.1, this.2⟩
  · rintro ⟨m, h1, h2, hm, hk, _, hbefore⟩
    refine ⟨m, h1, h2, ?_, fun i hi1 hi2 => ?_⟩
    · rw [pcgStop_fatal_iff, hk]
      exact (hF _ _).1.mpr hm
    · rw [pcgStop_none_iff]
      exact ⟨(hF _ _).2.mpr (hbefore i hi1 hi2).1, (hbefore i hi1 hi2).2⟩

theorem F64_nan_iff (e : F64) : e = F64.nan ↔ (e == e) = false := by
  cases e with
  | finite q => simp [BEq.beq, F64.eqb]
  | posInf => simp [BEq.beq, F64.eqb]
  | negInf => simp [BEq.beq, F64.eqb]
  | nan => simp [BEq.beq, F64.eqb]

theorem dot_one_F64 (a b : Nat → F64) : dot 1 a b = F64.add (F64.finite 0) (F64.mul (a 0) (b 0)) := by
  simp [dot, List.range, List.range.loop]
  rfl

/-- On `F64` the solve of `1 * u = 0` started at the solution `u = 0` aborts in its first
pass: the residual is zero, so `alphak = 0/0` is NaN and so is `err`. -/
theorem zero_residual_aborts :
    pcgLoop 1 oneByOneF (Mm1 oneByOneF) (fun e => e) 5000 (F64.finite 0) 5000
      (pcgInit 1 oneByOneF (fun _ => F64.finite 0) (fun _ => F64.finite 0) zeroStateF) =
      PCGOutcome.fatalIteration 1 := by
  rw [show (5000 : Nat) = 4999 + 1 from rfl, pcgLoop_succ]
  have hk : (pcgBody 1 oneByOneF (Mm1 oneByOneF) (fun e => e)
      (pcgInit 1 oneByOneF (fun _ => F64.finite 0) (fun _ => F64.finite 0) zeroStateF)).kappa
      = 1 := by
    simp [pcgBody, pcgInit, u32]
  have he : (pcgBody 1 oneByOneF (Mm1 oneByOneF) (fun e => e)
      (pcgInit 1 oneByOneF (fun _ => F64.finite 0) (fun _ => F64.finite 0) zeroStateF)).err
      = F64.nan := by
    have h1 : u32 (0 + 1) = 1 := by simp [u32]
    simp only [pcgBody, pcgInit, h1, matVec, dot_one_F64, Mm1, oneByOneF, if_true, F64_sub_eq,
      F64_mul_eq, F64_div_eq, F64_add_eq, F64_one_eq, F64_zero_eq, F64_natCast_eq]
    norm_num [F64.add, F64.mul, F64.div, F64.neg, F64.signedInf, F64.round, F64.overflowAt]
  rw [hk, he]
  rfl

/-- Witness for C12: the scalar type `F64`, whose NaN test is `e = F64.nan`, on the solve
of `1 * u = 0` started at `u = 0`, which aborts in its first pass. -/
theorem fatal_iteration_on_first_nan_witness :
    (∀ e : F64, e = F64.nan ↔ (e == e) = false) ∧
    ((∀ (kappa : Nat) (e : F64), (FATAL_ITERATION kappa e = some kappa ↔ e = F64.nan) ∧
      (FATAL_ITERATION kappa e = none ↔ ¬ e = F64.nan)) ∧
    ∀ k, pcgLoop 1 oneByOneF (Mm1 oneByOneF) (fun e => e) 5000 (F64.finite 0) 5000
        
          (pcgInit 1 oneByOneF (fun _ => F64.finite 0) (fun _ => F64.finite 0) zeroStateF) = PCGOutcome.fatalIteration k ↔
      ∃ m, 1 ≤ m ∧ m ≤ 5000 ∧
        (pcgAfter 1 oneByOneF (Mm1 oneByOneF) (fun e => e) m 
          (pcgInit 1 oneByOneF (fun _ => F64.finite 0) (fun _ => F64.finite 0) zeroStateF)).err = F64.nan ∧
        k = (pcgAfter 1 oneByOneF (Mm1 oneByOneF) (fun e => e) m 
          (pcgInit 1 oneByOneF (fun _ => F64.finite 0) (fun _ => F64.finite 0) zeroStateF)).kappa ∧
        k = m % 2 ^ 32 ∧
        ∀ i, 1 ≤ i → i < m →
          ¬ (pcgAfter 1 oneByOneF (Mm1 oneByOneF) (fun e => e) i 
          (pcgInit 1 oneByOneF (fun _ => F64.finite 0) (fun _ => F64.finite 0) zeroStateF)).err = F64.nan ∧
          (pcgAfter 1 oneByOneF (Mm1 oneByOneF) (fun e => e) i 
          (pcgInit 1 oneByOneF (fun _ => F64.finite 0) (fun _ => F64.finite 0) zeroStateF)).kappa < 5000 ∧
          (pcgAfter 1 oneByOneF (Mm1 oneByOneF) (fun e => e) i 
          (pcgInit 1 oneByOneF (fun _ => F64.finite 0) (fun _ => F64.finite 0) zeroStateF)).err > F64.finite 0) ∧
    pcgLoop 1 oneByOneF (Mm1 oneByOneF) (fun e => e) 5000 (F64.finite 0) 5000 
          (pcgInit 1 oneByOneF (fun _ => F64.finite 0) (fun _ => F64.finite 0) zeroStateF) =
      PCGOutcome.fatalIteration 1 :=
  ⟨F64_nan_iff,
    fatal_iteration_on_first_nan (fun e => e = F64.nan) F64_nan_iff 1 oneByOneF
      (Mm1 oneByOneF) (fun e => e) 5000 (F64.finite 0) (fun _ => F64.finite 0)
      (fun _ => F64.finite 0) zeroStateF 5000,
    zero_residual_aborts⟩

/-! ## The initial iterate -/

/-- At an interior point assembly leaves `u` as it found it. -/
theorem assemble_u_interior {imax jmax : Nat} (h3i : 3 ≤ imax) (h3j : 3 ≤ jmax)
    (hn : imax * jmax < 2 ^ 32) (grid : gridStruct) (boundaries : boundaryStruct)
    (valueSource : ℚ → ℚ → ℚ) (u0 : Nat → ℚ) {i j : Nat}
    (hi : 1 ≤ i ∧ i + 1 < imax) (hj : 1 ≤ j ∧ j + 1 < jmax) :
    (assemble imax jmax grid boundaries valueSource u0).u (j * imax + i) =
      u0 (j * imax + i) := by
  have hB : (i, j) ∉ boundaryPts imax jmax := by
    rw [mem_boundaryPts h3i h3j]
    simp only [not_and, not_or]
    intro _ _
    omega
  have e : j * imax + i = pidx imax (i, j) := rfl
  rw [assemble_u h3i h3j hn, e]
  exact writes_map_of_not_mem (boundaryPts imax jmax) _
    (fun p hp => ((mem_boundaryPts h3i h3j).mp hp).1) _ (show (i, j).1 < imax by simp; omega) hB

/-- C13 (the code at a failing input). On the 3 x 3 grid, with the storage of `u` holding
`7` when it is allocated, the iterate handed to `rk = b - A*u` still holds `7` at the
interior index `4`, not `0`: no statement between the declaration of `u` (line 49) and
line 138 writes an interior entry of `u`; only `b` is zeroed (line 51). -/
theorem initial_u_interior_not_zeroed :
    (assemble 3 3 unitGrid westBoundaries unitSource (fun _ => 7)).u (1 * 3 + 1) = 7 ∧
    (assemble 3 3 unitGrid westBoundaries unitSource (fun _ => 7)).u (1 * 3 + 1) ≠ 0 ∧
    (pcgInit (3 * 3) (assembledA 3 3 unitGrid westBoundaries unitSource (fun _ => 7))
      (assemble 3 3 unitGrid westBoundaries unitSource (fun _ => 7)).b
      (assemble 3 3 unitGrid westBoundaries unitSource (fun _ => 7)).u zeroState).u
        (1 * 3 + 1) = 7 := by
  have h := @assemble_u_interior 3 3 (by decide) (by decide) (by norm_num) unitGrid
    westBoundaries unitSource (fun _ => 7) 1 1 (by decide) (by decide)
  refine ⟨h, ?_, h⟩
  rw [h]
  norm_num

/-! ## The residual update reads `rkm1` -/

/-- C14 (as stated) fails: no input separates the two loops. For every system, start state
and pass count the states reached with the body that reads `rk` and with the body of the
source agree in `u`, `rk` and `err`. -/
theorem no_input_separates_rk_from_rkm1 :
    ¬ ∃ (n : Nat) (A M : Nat → Nat → ℚ) (sqrt : ℚ → ℚ) (b u : Nat → ℚ) (junk : PCGState ℚ)
        (m : Nat),
      ((pcgBodyFromRk n A M sqrt)^[m] (pcgInit n A b u junk)).u ≠
          ((pcgBody n A M sqrt)^[m] (pcgInit n A b u junk)).u ∨
      ((pcgBodyFromRk n A M sqrt)^[m] (pcgInit n A b u junk)).rk ≠
          ((pcgBody n A M sqrt)^[m] (pcgInit n A b u junk)).rk ∨
      ((pcgBodyFromRk n A M sqrt)^[m] (pcgInit n A b u junk)).err ≠
          ((pcgBody n A M sqrt)^[m] (pcgInit n A b u junk)).err := by
  rintro ⟨n, A, M, sqrt, b, u, junk, m, h⟩
  have e : pcgBodyFromRk n A M sqrt = pcgBody n A M sqrt := rfl
  rw [e] at h
  rcases h with h | h | h <;> exact h rfl

/-- C14 (amended). Line 163 reads `rkm1`, which line 147 has just set to `rk`, and `rk` is
not written in between: the body that reads `rk` instead is the same function of the
state, and the two loops give the same outcome on every input, for every scalar type. -/
theorem residual_update_from_rk_is_same {K : Type} [Zero K] [One K] [Add K] [Sub K] [Mul K]
    [Div K] [NatCast K] [BEq K] [LT K] [∀ a b : K, Decidable (a < b)]
    (n : Nat) (A M : Nat → Nat → K) (sqrt : K → K) (kappaMax : Nat) (tol : K) :
    (∀ s : PCGState K, (pcgBody n A M sqrt s).rkm1 = s.rk) ∧
    (∀ s : PCGState K, pcgBodyFromRk n A M sqrt s = pcgBody n A M sqrt s) ∧
    ∀ (fuel : Nat) (s : PCGState K),
      pcgLoopFromRk n A M sqrt kappaMax tol fuel s = pcgLoop n A M sqrt kappaMax tol fuel s := by
  refine ⟨fun _ => rfl, fun _ => rfl, fun fuel => ?_⟩
  induction fuel with
  | zero => intro s; rfl
  | succ fuel ih =>
    intro s
    rw [pcgLoop_succ]
    show (match FATAL_ITERATION (pcgBody n A M sqrt s).kappa (pcgBody n A M sqrt s).err with
      | some kappa => PCGOutcome.fatalIteration kappa
      | none =>
        if (pcgBody n A M sqrt s).kappa < kappaMax ∧ (pcgBody n A M sqrt s).err > tol then
          pcgLoopFromRk n A M sqrt kappaMax tol fuel (pcgBody n A M sqrt s)
        else PCGOutcome.finished (pcgBody n A M sqrt s)) = _
    rw [ih]

/-! ## Order of the exported records -/

theorem forRange_zero (n : Nat) : forRange 0 n = List.range n := by
  unfold forRange
  rw [Nat.sub_zero, List.range_eq_range']

theorem exportRow {F : Type} (toF32 : ℚ → F) (grid : gridStruct) (u : Nat → ℚ) (j n : Nat)
    (s : ExportState F) (hs : s.idx + n < 2 ^ 32) :
    (List.range n).foldl (exportBody toF32 grid u j) s =
      { records := s.records ++ (List.range n).map (fun i =>
          { idx := s.idx + i, xPoint := toF32 (grid.x i), yPoint := toF32 (grid.y j),
            uPoint := toF32 (u (s.idx + i)) })
        idx := s.idx + n } := by
  induction n with
  | zero => simp
  | succ n ih =>
    rw [List.range_succ, List.foldl_append, ih (by omega)]
    simp only [List.foldl_cons, List.foldl_nil, exportBody, List.map_append, List.map_cons,
      List.map_nil, List.append_assoc]
    rw [u32_of_lt (by omega)]
    rfl

theorem exportRows {F : Type} (toF32 : ℚ → F) (grid : gridStruct) (u : Nat → ℚ)
    (imax m : Nat) (hm : m * imax < 2 ^ 32) :
    (List.range m).foldl
        (fun s j => (List.range imax).foldl (exportBody toF32 grid u j) s)
        { records := [], idx := 0 } =
      { records := (List.range m).flatMap (fun j => (List.range imax).map (fun i =>
          { idx := j * imax + i, xPoint := toF32 (grid.x i), yPoint := toF32 (grid.y j),
            uPoint := toF32 (u (j * imax + i)) }))
        idx := m * imax } := by
  induction m with
  | zero => simp
  | succ m ih =>
    have h1 : m * imax + imax = (m + 1) * imax := by ring
    rw [List.range_succ, List.foldl_append, ih (by omega)]
    simp only [List.foldl_cons, List.foldl_nil]
    rw [exportRow toF32 grid u m imax _ (by simp only; omega)]
    simp only [List.flatMap_append, List.flatMap_cons, List.flatMap_nil, List.append_nil, h1]

theorem flatMap_rows_eq_map {β : Type} (g : Nat → β) (imax m : Nat) :
    (List.range m).flatMap (fun j => (List.range imax).map (fun i => g (j * imax + i))) =
      (List.range (m * imax)).map g := by
  induction m with
  | zero => simp
  | succ m ih =>
    rw [List.range_succ, List.flatMap_append, ih, Nat.succ_mul, List.range_add,
      List.map_append, List.map_map]
    simp only [List.flatMap_cons, List.flatMap_nil, List.append_nil]
    rfl

/-- C15. With `imax*jmax` a `u32`, the export loop writes `imax*jmax` records in row-major
order (`j` outer, `i` inner); at the record of `(i, j)` the counter `idx` is `j*imax + i`,
and the `k`-th record holds `(x[k mod imax], y[k div imax], u[k])`, cast to `f32`. -/
theorem export_records_row_major {F : Type} (imax jmax : Nat) (toF32 : ℚ → F)
    (grid : gridStruct) (u : Nat → ℚ) (hn : imax * jmax < 2 ^ 32) :
    (exportLoop imax jmax toF32 grid u).records =
      (forRange 0 jmax).flatMap (fun j => (forRange 0 imax).map (fun i =>
        { idx := j * imax + i, xPoint := toF32 (grid.x i), yPoint := toF32 (grid.y j),
          uPoint := toF32 (u (j * imax + i)) })) ∧
    (exportLoop imax jmax toF32 grid u).records =
      (List.range (imax * jmax)).map (fun k =>
        { idx := k, xPoint := toF32 (grid.x (k % imax)), yPoint := toF32 (grid.y (k / imax)),
          uPoint := toF32 (u k) }) ∧
    (exportLoop imax jmax toF32 grid u).records.length = imax * jmax ∧
    (exportLoop imax jmax toF32 grid u).idx = imax * jmax := by
  have hn' : jmax * imax < 2 ^ 32 := by rw [Nat.mul_comm]; exact hn
  have h := exportRows toF32 grid u imax jmax hn'
  have hloop : exportLoop imax jmax toF32 grid u =
      { records := (List.range jmax).flatMap (fun j => (List.range imax).map (fun i =>
          { idx := j * imax + i, xPoint := toF32 (grid.x i), yPoint := toF32 (grid.y j),
            uPoint := toF32 (u (j * imax + i)) }))
        idx := jmax * imax } := by
    unfold exportLoop
    rw [forRange_zero, forRange_zero]
    exact h
  have hmap : (List.range jmax).flatMap (fun j => (List.range imax).map (fun i =>
        ({ idx := j * imax + i, xPoint := toF32 (grid.x i), yPoint := toF32 (grid.y j),
           uPoint := toF32 (u (j * imax + i)) } : ExportRecord F))) =
      (List.range (imax * jmax)).map (fun k =>
        { idx := k, xPoint := toF32 (grid.x (k % imax)), yPoint := toF32 (grid.y (k / imax)),
          uPoint := toF32 (u k) }) := by
    rw [Nat.mul_comm imax jmax,
      ← flatMap_rows_eq_map (fun k => (⟨k, toF32 (grid.x (k % imax)),
        toF32 (grid.y (k / imax)), toF32 (u k)⟩ : ExportRecord F))]
    apply List.flatMap_congr
    intro j _
    apply List.map_congr_left
    intro i hi
    rw [List.mem_range] at hi
    rw [(index_decode hi).1, (index_decode hi).2]
  rw [hloop]
  refine ⟨?_, hmap, ?_, Nat.mul_comm _ _⟩
  · rw [forRange_zero, forRange_zero]
  · show ((List.range jmax).flatMap _).length = _
    rw [hmap, List.length_map, List.length_range]

/-- Witness for C15: the 3 x 3 unit grid, the cast taken as the identity. -/
theorem export_records_row_major_witness :
    3 * 3 < 2 ^ 32 ∧
    ((exportLoop 3 3 (fun q => q) unitGrid (fun k => (k : ℚ))).records =
      (forRange 0 3).flatMap (fun j => (forRange 0 3).map (fun i =>
        { idx := j * 3 + i, xPoint := unitGrid.x i, yPoint := unitGrid.y j,
          uPoint := ((j * 3 + i : Nat) : ℚ) })) ∧
    (exportLoop 3 3 (fun q => q) unitGrid (fun k => (k : ℚ))).records =
      (List.range (3 * 3)).map (fun k =>
        { idx := k, xPoint := unitGrid.x (k % 3), yPoint := unitGrid.y (k / 3),
          uPoint := (k : ℚ) }) ∧
    (exportLoop 3 3 (fun q => q) unitGrid (fun k => (k : ℚ))).records.length = 3 * 3 ∧
    (exportLoop 3 3 (fun q => q) unitGrid (fun k => (k : ℚ))).idx = 3 * 3) :=
  ⟨by norm_num,
    export_records_row_major 3 3 (fun q => q) unitGrid (fun k => (k : ℚ)) (by norm_num)⟩

/-! ## The residual invariant `rk = b - A*u` -/

theorem matVec_add_smul (n : Nat) (A : Nat → Nat → ℚ) (u p : Nat → ℚ) (α : ℚ) (k : Nat) :
    matVec n A (fun i => u i + α * p i) k = matVec n A u k + α * matVec n A p k := by
  rw [matVec_eq_sum, matVec_eq_sum, matVec_eq_sum, Finset.mul_sum, ← Finset.sum_add_distrib]
  apply Finset.sum_congr rfl
  intro q _
  ring

theorem pcgBody_residual (n : Nat) (A M : Nat → Nat → ℚ) (sqrt : ℚ → ℚ) (b : Nat → ℚ)
    (s : PCGState ℚ) (h : ∀ k, s.rk k = b k - matVec n A s.u k) (k : Nat) :
    (pcgBody n A M sqrt s).rk k = b k - matVec n A (pcgBody n A M sqrt s).u k := by
  have hr : (pcgBody n A M sqrt s).rk k =
      s.rk k - (pcgBody n A M sqrt s).alphak * matVec n A (pcgBody n A M sqrt s).pk k := rfl
  have hu : (pcgBody n A M sqrt s).u =
      fun i => s.u i + (pcgBody n A M sqrt s).alphak * (pcgBody n A M sqrt s).pk i := rfl
  rw [hr, hu, matVec_add_smul, h k]
  ring

theorem pcgAfter_residual (n : Nat) (A M : Nat → Nat → ℚ) (sqrt : ℚ → ℚ) (b : Nat → ℚ)
    (s : PCGState ℚ) (h : ∀ k, s.rk k = b k - matVec n A s.u k) (m : Nat) (k : Nat) :
    (pcgAfter n A M sqrt m s).rk k = b k - matVec n A (pcgAfter n A M sqrt m s).u k := by
  induction m generalizing k with
  | zero => exact h k
  | succ m ih =>
    rw [pcgAfter_succ_out]
    exact pcgBody_residual n A M sqrt b _ ih k

/-- C16. In exact arithmetic, for every `A`, `b`, initial `u` and preconditioner `M`, the
residual kept by the loop is the true residual: `rk = b - A*u` holds at loop entry, after
every pass through the body, and in the state the loop finishes with. -/
theorem residual_is_true_residual (n : Nat) (A M : Nat → Nat → ℚ) (sqrt : ℚ → ℚ)
    (b u : Nat → ℚ) (junk : PCGState ℚ) :
    (∀ k, (pcgInit n A b u junk).rk k = b k - matVec n A (pcgInit n A b u junk).u k) ∧
    (∀ m k, (pcgAfter n A M sqrt m (pcgInit n A b u junk)).rk k =
      b k - matVec n A (pcgAfter n A M sqrt m (pcgInit n A b u junk)).u k) ∧
    (∀ (kappaMax : Nat) (tol : ℚ) (fuel : Nat) (s : PCGState ℚ),
      pcgLoop n A M sqrt kappaMax tol fuel (pcgInit n A b u junk) = PCGOutcome.finished s →
      ∀ k, s.rk k = b k - matVec n A s.u k) := by
  have h0 : ∀ k, (pcgInit n A b u junk).rk k = b k - matVec n A (pcgInit n A b u junk).u k :=
    fun _ => rfl
  refine ⟨h0, fun m k => pcgAfter_residual n A M sqrt b _ h0 m k, ?_⟩
  intro kappaMax tol fuel s hs k
  obtain ⟨m, _, _, hm, _⟩ :=
    (pcgLoop_eq_iff n A M sqrt kappaMax tol fuel _ (PCGOutcome.finished s) (by simp)).mp hs
  rw [pcgStop_finished_iff] at hm
  rw [hm.2.2]
  exact pcgAfter_residual n A M sqrt b _ h0 m k

/-! ## Dirichlet values are kept by the iteration -/

theorem matVec_identity_row (n : Nat) (A : Nat → Nat → ℚ) (v : Nat → ℚ) (k : Nat)
    (hk : k < n) (hA : ∀ q, A k q = if q = k then 1 else 0) : matVec n A v k = v k := by
  rw [matVec_eq_sum]
  have : ∀ q ∈ Finset.range n, A k q * v q = if k = q then v q else 0 := by
    intro q _
    rw [hA q]
    by_cases h : q = k
    · simp [h]
    · simp [h, Ne.symm h]
  rw [Finset.sum_congr rfl this, Finset.sum_ite_eq, if_pos (Finset.mem_range.mpr hk)]

theorem matVec_Mm1 (n : Nat) (A : Nat → Nat → ℚ) (v : Nat → ℚ) (k : Nat) (hk : k < n) :
    matVec n (Mm1 A) v k = 1 / A k k * v k := by
  rw [matVec_eq_sum]
  have : ∀ q ∈ Finset.range n, Mm1 A k q * v q = if k = q then 1 / A k k * v q else 0 := by
    intro q _
    by_cases h : k = q
    · simp [Mm1, h]
    · simp [Mm1, h]
  rw [Finset.sum_congr rfl this, Finset.sum_ite_eq, if_pos (Finset.mem_range.mpr hk)]

theorem pcgBody_boundary (n : Nat) (A : Nat → Nat → ℚ) (sqrt : ℚ → ℚ) (s : PCGState ℚ)
    (k : Nat) (hk : k < n) (hA : ∀ q, A k q = if q = k then 1 else 0) (hr : s.rk k = 0)
    (hp : s.kappa = 0 ∨ s.pk k = 0) :
    (pcgBody n A (Mm1 A) sqrt s).rk k = 0 ∧ (pcgBody n A (Mm1 A) sqrt s).zk k = 0 ∧
    (pcgBody n A (Mm1 A) sqrt s).pk k = 0 ∧ (pcgBody n A (Mm1 A) sqrt s).Apk k = 0 ∧
    (pcgBody n A (Mm1 A) sqrt s).u k = s.u k := by
  have hz : (pcgBody n A (Mm1 A) sqrt s).zk k = 0 := by
    show matVec n (Mm1 A) s.rk k = 0
    rw [matVec_Mm1 n A _ k hk, hr, mul_zero]
  have hpk : (pcgBody n A (Mm1 A) sqrt s).pk k = 0 := by
    have e : (pcgBody n A (Mm1 A) sqrt s).pk =
        if u32 (s.kappa + 1) = 1 then (pcgBody n A (Mm1 A) sqrt s).zk
        else fun i => (pcgBody n A (Mm1 A) sqrt s).zk i +
          (pcgBody n A (Mm1 A) sqrt s).betak * s.pk i := rfl
    rw [e]
    by_cases h1 : u32 (s.kappa + 1) = 1
    · rw [if_pos h1]
      exact hz
    · rw [if_neg h1]
      rcases hp with h0 | h0
      · exfalso
        apply h1
        rw [h0]
        exact u32_of_lt (by norm_num)
      · show (pcgBody n A (Mm1 A) sqrt s).zk k + _ * s.pk k = 0
        rw [hz, h0, mul_zero, add_zero]
  have hApk : (pcgBody n A (Mm1 A) sqrt s).Apk k = 0 := by
    show matVec n A (pcgBody n A (Mm1 A) sqrt s).pk k = 0
    rw [matVec_identity_row n A _ k hk hA, hpk]
  refine ⟨?_, hz, hpk, hApk, ?_⟩
  · show s.rk k - (pcgBody n A (Mm1 A) sqrt s).alphak * (pcgBody n A (Mm1 A) sqrt s).Apk k = 0
    rw [hApk, hr, mul_zero, sub_zero]
  · show s.u k + (pcgBody n A (Mm1 A) sqrt s).alphak * (pcgBody n A (Mm1 A) sqrt s).pk k = _
    rw [hpk, mul_zero, add_zero]

/-- C17. In exact arithmetic, with the Jacobi preconditioner of the source: if every row of
`A` at an index of `bd` is the identity row and `b` equals the initial `u` there, then the
residual is zero there at loop entry, and after every pass `m ≥ 1` the components of `rk`,
`zk`, `pk` and `Apk` at those indices are zero and `u` still holds its initial value. -/
theorem dirichlet_values_preserved (n : Nat) (A : Nat → Nat → ℚ) (sqrt : ℚ → ℚ)
    (b u : Nat → ℚ) (junk : PCGState ℚ) (bd : Nat → Prop)
    (hA : ∀ k, bd k → k < n ∧ ∀ q, A k q = if q = k then 1 else 0)
    (hb : ∀ k, bd k → b k = u k) :
    (∀ k, bd k → (pcgInit n A b u junk).rk k = 0) ∧
    ∀ m, 1 ≤ m → ∀ k, bd k →
      (pcgAfter n A (Mm1 A) sqrt m (pcgInit n A b u junk)).rk k = 0 ∧
      (pcgAfter n A (Mm1 A) sqrt m (pcgInit n A b u junk)).zk k = 0 ∧
      (pcgAfter n A (Mm1 A) sqrt m (pcgInit n A b u junk)).pk k = 0 ∧
      (pcgAfter n A (Mm1 A) sqrt m (pcgInit n A b u junk)).Apk k = 0 ∧
      (pcgAfter n A (Mm1 A) sqrt m (pcgInit n A b u junk)).u k = u k := by
  have h0 : ∀ k, bd k → (pcgInit n A b u junk).rk k = 0 := by
    intro k hk
    show b k - matVec n A u k = 0
    rw [matVec_identity_row n A u k (hA k hk).1 (hA k hk).2, hb k hk, sub_self]
  refine ⟨h0, ?_⟩
  intro m hm k hk
  induction m with
  | zero => omega
  | succ m ih =>
    rw [pcgAfter_succ_out]
    by_cases hm0 : m = 0
    · subst hm0
      have := pcgBody_boundary n A sqrt (pcgInit n A b u junk) k (hA k hk).1 (hA k hk).2
        (h0 k hk) (Or.inl rfl)
      exact this
    · obtain ⟨h1, _, h3, _, h5⟩ := ih (by omega)
      have := pcgBody_boundary n A sqrt (pcgAfter n A (Mm1 A) sqrt m (pcgInit n A b u junk)) k
        (hA k hk).1 (hA k hk).2 h1 (Or.inr h3)
      rw [h5] at this
      exact this

/-- The system built by assembly has identity rows and `b = u` at the boundary indices of
the grid. -/
theorem assembled_system_boundary {imax jmax : Nat} (h3i : 3 ≤ imax) (h3j : 3 ≤ jmax)
    (hn : imax * jmax < 2 ^ 32) (grid : gridStruct) (boundaries : boundaryStruct)
    (valueSource : ℚ → ℚ → ℚ) (u0 : Nat → ℚ) :
    (∀ k, isBoundaryIndex imax jmax k → k < imax * jmax ∧
      ∀ q, assembledA imax jmax grid boundaries valueSource u0 k q = if q = k then 1 else 0) ∧
    (∀ k, isBoundaryIndex imax jmax k →
      (assemble imax jmax grid boundaries valueSource u0).b k =
        (assemble imax jmax grid boundaries valueSource u0).u k) := by
  constructor
  · rintro k ⟨i, j, hi, hj, hbd, rfl⟩
    exact ⟨idx_lt hi hj,
      assembledA_boundary_row h3i h3j hn grid boundaries valueSource u0 hi hj hbd⟩
  · rintro k ⟨i, j, hi, hj, hbd, rfl⟩
    have := assemble_boundary_value h3i h3j hn grid boundaries valueSource u0 hi hj hbd
    rw [this.1, this.2]

/-- Witness for C17: the system assembled on the 3 x 3 unit grid, `bd` its boundary
indices. -/
theorem dirichlet_values_preserved_witness :
    ((∀ k, isBoundaryIndex 3 3 k → k < 3 * 3 ∧
      ∀ q, assembledA 3 3 unitGrid westBoundaries unitSource (fun _ => 7) k q =
        if q = k then 1 else 0) ∧
    (∀ k, isBoundaryIndex 3 3 k →
      (assemble 3 3 unitGrid westBoundaries unitSource (fun _ => 7)).b k =
        (assemble 3 3 unitGrid westBoundaries unitSource (fun _ => 7)).u k)) ∧
    ((∀ k, isBoundaryIndex 3 3 k →
      (pcgInit (3 * 3) (assembledA 3 3 unitGrid westBoundaries unitSource (fun _ => 7))
        (assemble 3 3 unitGrid westBoundaries unitSource (fun _ => 7)).b
        (assemble 3 3 unitGrid westBoundaries unitSource (fun _ => 7)).u zeroState).rk k = 0) ∧
    ∀ m, 1 ≤ m → ∀ k, isBoundaryIndex 3 3 k →
      (pcgAfter (3 * 3) (assembledA 3 3 unitGrid westBoundaries unitSource (fun _ => 7))
        (Mm1 (assembledA 3 3 unitGrid westBoundaries unitSource (fun _ => 7))) (fun q => q) m
        (pcgInit (3 * 3) (assembledA 3 3 unitGrid westBoundaries unitSource (fun _ => 7))
          (assemble 3 3 unitGrid westBoundaries unitSource (fun _ => 7)).b
          (assemble 3 3 unitGrid westBoundaries unitSource (fun _ => 7)).u zeroState)).rk k
        = 0 ∧
      (pcgAfter (3 * 3) (assembledA 3 3 unitGrid westBoundaries unitSource (fun _ => 7))
        (Mm1 (assembledA 3 3 unitGrid westBoundaries unitSource (fun _ => 7))) (fun q => q) m
        (pcgInit (3 * 3) (assembledA 3 3 unitGrid westBoundaries unitSource (fun _ => 7))
          (assemble 3 3 unitGrid westBoundaries unitSource (fun _ => 7)).b
          (assemble 3 3 unitGrid westBoundaries unitSource (fun _ => 7)).u zeroState)).zk k
        = 0 ∧
      (pcgAfter (3 * 3) (assembledA 3 3 unitGrid westBoundaries unitSource (fun _ => 7))
        (Mm1 (assembledA 3 3 unitGrid westBoundaries unitSource (fun _ => 7))) (fun q => q) m
        (pcgInit (3 * 3) (assembledA 3 3 unitGrid westBoundaries unitSource (fun _ => 7))
          (assemble 3 3 unitGrid westBoundaries unitSource (fun _ => 7)).b
          (assemble 3 3 unitGrid westBoundaries unitSource (fun _ => 7)).u zeroState)).pk k
        = 0 ∧
      (pcgAfter (3 * 3) (assembledA 3 3 unitGrid westBoundaries unitSource (fun _ => 7))
        (Mm1 (assembledA 3 3 unitGrid westBoundaries unitSource (fun _ => 7))) (fun q => q) m
        (pcgInit (3 * 3) (assembledA 3 3 unitGrid westBoundaries unitSource (fun _ => 7))
          (assemble 3 3 unitGrid westBoundaries unitSource (fun _ => 7)).b
          (assemble 3 3 unitGrid westBoundaries unitSource (fun _ => 7)).u zeroState)).Apk k
        = 0 ∧
      (pcgAfter (3 * 3) (assembledA 3 3 unitGrid westBoundaries unitSource (fun _ => 7))
        (Mm1 (assembledA 3 3 unitGrid westBoundaries unitSource (fun _ => 7))) (fun q => q) m
        (pcgInit (3 * 3) (assembledA 3 3 unitGrid westBoundaries unitSource (fun _ => 7))
          (assemble 3 3 unitGrid westBoundaries unitSource (fun _ => 7)).b
          (assemble 3 3 unitGrid westBoundaries unitSource (fun _ => 7)).u zeroState)).u k
        = (assemble 3 3 unitGrid westBoundaries unitSource (fun _ => 7)).u k) :=
  ⟨assembled_system_boundary (by decide) (by decide) (by norm_num) unitGrid westBoundaries
      unitSource (fun _ => 7),
    dirichlet_values_preserved (3 * 3)
      (assembledA 3 3 unitGrid westBoundaries unitSource (fun _ => 7)) (fun q => q)
      (assemble 3 3 unitGrid westBoundaries unitSource (fun _ => 7)).b
      (assemble 3 3 unitGrid westBoundaries unitSource (fun _ => 7)).u zeroState
      (isBoundaryIndex 3 3)
      (assembled_system_boundary (by decide) (by decide) (by norm_num) unitGrid westBoundaries
        unitSource (fun _ => 7)).1
      (assembled_system_boundary (by decide) (by decide) (by norm_num) unitGrid westBoundaries
        unitSource (fun _ => 7)).2⟩

/-! ## The loop computes the textbook recurrence -/

section Textbook

set_option linter.unusedSectionVars false

variable {K : Type} [Zero K] [One K] [Add K] [Sub K] [Mul K] [Div K] [NatCast K] [BEq K]
  [LT K] [∀ a b : K, Decidable (a < b)]

theorem textbookPCG_succ (n : Nat) (A M : Nat → Nat → K) (b u₀ : Nat → K) (k : Nat) :
    textbookPCG n A M b u₀ (k + 1) =
      { u := fun i => (textbookPCG n A M b u₀ k).u i +
          dot n (textbookPCG n A M b u₀ k).r (matVec n M (textbookPCG n A M b u₀ k).r) /
            dot n (textbookPCG n A M b u₀ (k + 1)).p
              (matVec n A (textbookPCG n A M b u₀ (k + 1)).p) *
          (textbookPCG n A M b u₀ (k + 1)).p i
        r := fun i => (textbookPCG n A M b u₀ k).r i -
          dot n (textbookPCG n A M b u₀ k).r (matVec n M (textbookPCG n A M b u₀ k).r) /
            dot n (textbookPCG n A M b u₀ (k + 1)).p
              (matVec n A (textbookPCG n A M b u₀ (k + 1)).p) *
          matVec n A (textbookPCG n A M b u₀ (k + 1)).p i
        p := if k = 0 then matVec n M (textbookPCG n A M b u₀ k).r
          else fun i => matVec n M (textbookPCG n A M b u₀ k).r i +
            dot n (textbookPCG n A M b u₀ k).r (matVec n M (textbookPCG n A M b u₀ k).r) /
              dot n (textbookPCG n A M b u₀ k).rPrev
                (matVec n M (textbookPCG n A M b u₀ k).rPrev) *
            (textbookPCG n A M b u₀ k).p i
        rPrev := (textbookPCG n A M b u₀ k).r } := rfl

theorem pcgBody_matches (n : Nat) (A M : Nat → Nat → K) (sqrt : K → K) (b u₀ : Nat → K)
    (m : Nat) (hm : m + 1 < 2 ^ 32) (s : PCGState K)
    (h : MatchesTextbook n M m s (textbookPCG n A M b u₀ m)) :
    MatchesTextbook n M (m + 1) (pcgBody n A M sqrt s) (textbookPCG n A M b u₀ (m + 1)) := by
  obtain ⟨hk, hu, hr, hrest⟩ := h
  have hk' : u32 (s.kappa + 1) = m + 1 := by rw [hk]; exact u32_of_lt hm
  have hzk : (pcgBody n A M sqrt s).zkm1 = matVec n M (textbookPCG n A M b u₀ m).r := by
    show matVec n M s.rk = _
    rw [hr]
  have hrk1 : (pcgBody n A M sqrt s).rkm1 = (textbookPCG n A M b u₀ m).r := hr
  have hpk : (pcgBody n A M sqrt s).pk = (textbookPCG n A M b u₀ (m + 1)).p := by
    have e : (pcgBody n A M sqrt s).pk =
        if u32 (s.kappa + 1) = 1 then matVec n M s.rk
        else fun i => matVec n M s.rk i +
          dot n s.rk (matVec n M s.rk) / dot n s.rkm1 s.zkm1 * s.pk i := by
      show (if u32 (s.kappa + 1) = 1 then matVec n M s.rk
        else fun i => matVec n M s.rk i +
          (if u32 (s.kappa + 1) = 1 then s.betak
            else dot n s.rk (matVec n M s.rk) / dot n s.rkm1 s.zkm1) * s.pk i) = _
      by_cases h1 : u32 (s.kappa + 1) = 1
      · rw [if_pos h1, if_pos h1]
      · rw [if_neg h1, if_neg h1, if_neg h1]
    rw [e, hk', textbookPCG_succ]
    by_cases h0 : m = 0
    · rw [if_pos (by omega), if_pos h0, hr]
    · obtain ⟨h1, h2, h3⟩ := hrest (by omega)
      rw [if_neg (by omega), if_neg h0, hr, h1, h2, h3]
  refine ⟨hk', ?_, ?_, fun _ => ⟨hpk, ?_, ?_⟩⟩
  · show (fun i => s.u i + dot n s.rk (matVec n M s.rk) /
        dot n (pcgBody n A M sqrt s).pk (matVec n A (pcgBody n A M sqrt s).pk) *
        (pcgBody n A M sqrt s).pk i) = _
    rw [hpk, hu, hr]
    rfl
  · show (fun i => s.rk i - dot n s.rk (matVec n M s.rk) /
        dot n (pcgBody n A M sqrt s).pk (matVec n A (pcgBody n A M sqrt s).pk) *
        matVec n A (pcgBody n A M sqrt s).pk i) = _
    rw [hpk, hr]
    rfl
  · rw [hrk1]
    rfl
  · rw [hzk]
    rfl

theorem pcgAfter_matches (n : Nat) (A M : Nat → Nat → K) (sqrt : K → K) (b u₀ : Nat → K)
    (junk : PCGState K) (m : Nat) (hm : m < 2 ^ 32) :
    MatchesTextbook n M m (pcgAfter n A M sqrt m (pcgInit n A b u₀ junk))
      (textbookPCG n A M b u₀ m) := by
  induction m with
  | zero => exact ⟨rfl, rfl, rfl, fun h => absurd h (by omega)⟩
  | succ m ih =>
    rw [pcgAfter_succ_out]
    exact pcgBody_matches n A M sqrt b u₀ m hm _ (ih (by omega))

end Textbook

/-- C18. For every pass count `1 ≤ m < 2^32` (`kappa` is a `u32`) the loop state after `m`
passes agrees with the textbook two-term recurrence in `u`, `rk` and `pk`, whatever the
uninitialised variables (`rkm1 rkm2 zk zkm1 zkm2 pk Apk alphak betak`) held at loop entry;
so two runs that differ only in that content reach the same iterates. -/
theorem loop_computes_textbook_pcg {K : Type} [Zero K] [One K] [Add K] [Sub K] [Mul K]
    [Div K] [NatCast K] [BEq K] [LT K] [∀ a b : K, Decidable (a < b)]
    (n : Nat) (A M : Nat → Nat → K) (sqrt : K → K) (b u₀ : Nat → K) (m : Nat)
    (h1 : 1 ≤ m) (hm : m < 2 ^ 32) :
    (∀ junk : PCGState K,
      (pcgAfter n A M sqrt m (pcgInit n A b u₀ junk)).u = (textbookPCG n A M b u₀ m).u ∧
      (pcgAfter n A M sqrt m (pcgInit n A b u₀ junk)).rk = (textbookPCG n A M b u₀ m).r ∧
      (pcgAfter n A M sqrt m (pcgInit n A b u₀ junk)).pk = (textbookPCG n A M b u₀ m).p) ∧
    (∀ junk junk' : PCGState K,
      (pcgAfter n A M sqrt m (pcgInit n A b u₀ junk)).u =
        (pcgAfter n A M sqrt m (pcgInit n A b u₀ junk')).u ∧
      (pcgAfter n A M sqrt m (pcgInit n A b u₀ junk)).rk =
        (pcgAfter n A M sqrt m (pcgInit n A b u₀ junk')).rk ∧
      (pcgAfter n A M sqrt m (pcgInit n A b u₀ junk)).pk =
        (pcgAfter n A M sqrt m (pcgInit n A b u₀ junk')).pk) := by
  have key : ∀ junk : PCGState K,
      (pcgAfter n A M sqrt m (pcgInit n A b u₀ junk)).u = (textbookPCG n A M b u₀ m).u ∧
      (pcgAfter n A M sqrt m (pcgInit n A b u₀ junk)).rk = (textbookPCG n A M b u₀ m).r ∧
      (pcgAfter n A M sqrt m (pcgInit n A b u₀ junk)).pk = (textbookPCG n A M b u₀ m).p := by
    intro junk
    obtain ⟨_, hu, hr, hrest⟩ := pcgAfter_matches n A M sqrt b u₀ junk m hm
    exact ⟨hu, hr, (hrest h1).1⟩
  refine ⟨key, fun junk junk' => ?_⟩
  obtain ⟨a1, a2, a3⟩ := key junk
  obtain ⟨b1, b2, b3⟩ := key junk'
  exact ⟨a1.trans b1.symm, a2.trans b2.symm, a3.trans b3.symm⟩

/-- Witness for C18: two passes on the system `1 * u = 1` in exact arithmetic. -/
theorem loop_computes_textbook_pcg_witness :
    (1 ≤ 2 ∧ 2 < 2 ^ 32) ∧
    ((∀ junk : PCGState ℚ,
      (pcgAfter 1 oneByOne (Mm1 oneByOne) (fun q => q) 2
          (pcgInit 1 oneByOne (fun _ => 1) (fun _ => 0) junk)).u =
        (textbookPCG 1 oneByOne (Mm1 oneByOne) (fun _ => 1) (fun _ => 0) 2).u ∧
      (pcgAfter 1 oneByOne (Mm1 oneByOne) (fun q => q) 2
          (pcgInit 1 oneByOne (fun _ => 1) (fun _ => 0) junk)).rk =
        (textbookPCG 1 oneByOne (Mm1 oneByOne) (fun _ => 1) (fun _ => 0) 2).r ∧
      (pcgAfter 1 oneByOne (Mm1 oneByOne) (fun q => q) 2
          (pcgInit 1 oneByOne (fun _ => 1) (fun _ => 0) junk)).pk =
        (textbookPCG 1 oneByOne (Mm1 oneByOne) (fun _ => 1) (fun _ => 0) 2).p) ∧
    (∀ junk junk' : PCGState ℚ,
      (pcgAfter 1 oneByOne (Mm1 oneByOne) (fun q => q) 2
          (pcgInit 1 oneByOne (fun _ => 1) (fun _ => 0) junk)).u =
        (pcgAfter 1 oneByOne (Mm1 oneByOne) (fun q => q) 2
          (pcgInit 1 oneByOne (fun _ => 1) (fun _ => 0) junk')).u ∧
      (pcgAfter 1 oneByOne (Mm1 oneByOne) (fun q => q) 2
          (pcgInit 1 oneByOne (fun _ => 1) (fun _ => 0) junk)).rk =
        (pcgAfter 1 oneByOne (Mm1 oneByOne) (fun q => q) 2
          (pcgInit 1 oneByOne (fun _ => 1) (fun _ => 0) junk')).rk ∧
      (pcgAfter 1 oneByOne (Mm1 oneByOne) (fun q => q) 2
          (pcgInit 1 oneByOne (fun _ => 1) (fun _ => 0) junk)).pk =
        (pcgAfter 1 oneByOne (Mm1 oneByOne) (fun q => q) 2
          (pcgInit 1 oneByOne (fun _ => 1) (fun _ => 0) junk')).pk)) :=
  ⟨⟨by decide, by norm_num⟩,
    loop_computes_textbook_pcg 1 oneByOne (Mm1 oneByOne) (fun q => q) (fun _ => 1)
      (fun _ => 0) 2 (by decide) (by norm_num)⟩

/-! ## No duplicate triplets -/

theorem length_le_one_of_nodup_const {α : Type} (l : List α) (a : α) (hl : l.Nodup)
    (h : ∀ x ∈ l, x = a) : l.length ≤ 1 := by
  match l, hl, h with
  | [], _, _ => simp
  | [_], _, _ => simp
  | x :: y :: l, hl, h =>
    exfalso
    have hx := h x (List.mem_cons_self _ _)
    have hy := h y (List.mem_cons_of_mem _ (List.mem_cons_self _ _))
    rw [List.nodup_cons] at hl
    exact hl.1 (by rw [hx, ← hy]; exact List.mem_cons_self _ _)

/-- Where no two triplets share `(row, col)`, summing and overwriting build the same
matrix. -/
theorem setFromTriplets_eq_overwrite (c : List Triplet)
    (hc : (c.map (fun t => (t.row, t.col))).Nodup) (p q : Nat) :
    setFromTriplets c p q = setFromTripletsOverwrite c p q := by
  unfold setFromTriplets setFromTripletsOverwrite
  have hsub : ((c.filter (fun t => decide (t.row = p ∧ t.col = q))).map
      (fun t => (t.row, t.col))).Nodup :=
    hc.sublist ((List.filter_sublist c).map _)
  have hconst : ∀ x ∈ (c.filter (fun t => decide (t.row = p ∧ t.col = q))).map
      (fun t => (t.row, t.col)), x = (p, q) := by
    intro x hx
    rw [List.mem_map] at hx
    obtain ⟨t, ht, rfl⟩ := hx
    rw [List.mem_filter] at ht
    have := of_decide_eq_true ht.2
    rw [this.1, this.2]
  have hlen := length_le_one_of_nodup_const _ _ hsub hconst
  rw [List.length_map] at hlen
  generalize c.filter (fun t => decide (t.row = p ∧ t.col = q)) = F at hlen
  match F, hlen with
  | [], _ => simp
  | [t], _ => simp
  | _ :: _ :: _, h => simp at h

theorem stencil_keys_nodup {imax jmax : Nat} (hn : imax * jmax < 2 ^ 32) (grid : gridStruct)
    (p : Nat × Nat) (hp : p ∈ interiorPts imax jmax) :
    ((stencil imax grid p.2 p.1).map (fun t => (t.row, t.col))).Nodup := by
  rw [mem_interiorPts] at hp
  obtain ⟨i, j⟩ := p
  simp only at hp
  rw [stencil_interior hn (show 1 ≤ i ∧ i + 1 < imax by omega)
    (show 1 ≤ j ∧ j + 1 < jmax by omega)]
  have e1 : (j - 1) * imax + i + imax = j * imax + i := by
    have : j = (j - 1) + 1 := by omega
    conv_rhs => rw [this, Nat.add_mul]
    omega
  have e2 : (j + 1) * imax + i = j * imax + i + imax := by rw [Nat.add_mul]; omega
  simp only [List.map_cons, List.map_nil, List.nodup_cons, List.mem_cons, List.mem_singleton,
    Prod.mk.injEq, List.not_mem_nil, true_and, not_or, or_false, not_false_eq_true,
    List.nodup_nil, and_true]
  refine ⟨⟨?_, ?_, ?_, ?_⟩, ⟨?_, ?_, ?_⟩, ⟨?_, ?_⟩, ?_⟩ <;> omega

/-- C19. No two triplets of the list handed to `setFromTriplets` share `(row, col)`, so
summing duplicates and overwriting them build the same matrix `A`; and every row index
`k < imax*jmax` is the row of some triplet. -/
theorem triplets_have_distinct_positions {imax jmax : Nat} (h3i : 3 ≤ imax) (h3j : 3 ≤ jmax)
    (hn : imax * jmax < 2 ^ 32) (grid : gridStruct) (boundaries : boundaryStruct)
    (valueSource : ℚ → ℚ → ℚ) (u0 : Nat → ℚ) :
    ((assemble imax jmax grid boundaries valueSource u0).coefficients.map
      (fun t => (t.row, t.col))).Nodup ∧
    (∀ p q, setFromTriplets (assemble imax jmax grid boundaries valueSource u0).coefficients
        p q =
      setFromTripletsOverwrite (assemble imax jmax grid boundaries valueSource u0).coefficients
        p q) ∧
    ∀ k, k < imax * jmax →
      ∃ t ∈ (assemble imax jmax grid boundaries valueSource u0).coefficients, t.row = k := by
  have hnodup : ((assemble imax jmax grid boundaries valueSource u0).coefficients.map
      (fun t => (t.row, t.col))).Nodup := by
    rw [assemble_coefficients h3i h3j hn, List.map_append, List.map_flatMap, List.map_map]
    refine List.Nodup.append ?_ ?_ ?_
    · rw [List.nodup_flatMap]
      refine ⟨fun p hp => stencil_keys_nodup hn grid p hp, ?_⟩
      refine (nodup_interiorPts imax jmax).pairwise_of_forall_ne ?_
      intro p hp p' hp' hne
      simp only [Function.onFun]
      rw [List.disjoint_left]
      intro key hk hk'
      rw [List.mem_map] at hk hk'
      obtain ⟨t, ht, rfl⟩ := hk
      obtain ⟨t', ht', heq⟩ := hk'
      have h1 := stencil_row hn grid p hp t ht
      have h2 := stencil_row hn grid p' hp' t' ht'
      have : t'.row = t.row := (Prod.mk.inj heq).1
      rw [h1, h2] at this
      exact hne (pidx_inj (by rw [mem_interiorPts] at hp; omega)
        (by rw [mem_interiorPts] at hp'; omega) this.symm)
    · refine List.Nodup.map_on ?_ (nodup_boundaryPts h3i h3j)
      intro p hp p' hp' heq
      exact pidx_inj ((mem_boundaryPts h3i h3j).mp hp).1 ((mem_boundaryPts h3i h3j).mp hp').1
        (Prod.mk.inj heq).1
    · rw [List.disjoint_left]
      intro key hk hk'
      rw [List.mem_flatMap] at hk
      obtain ⟨p, hp, hk⟩ := hk
      rw [List.mem_map] at hk hk'
      obtain ⟨t, ht, rfl⟩ := hk
      obtain ⟨p', hp', heq⟩ := hk'
      have h1 := stencil_row hn grid p hp t ht
      have h2 : pidx imax p' = t.row := (Prod.mk.inj heq).1
      rw [h1] at h2
      have hpp : p' = p := pidx_inj ((mem_boundaryPts h3i h3j).mp hp').1
        (by rw [mem_interiorPts] at hp; omega) h2
      rw [hpp, mem_boundaryPts h3i h3j] at hp'
      rw [mem_interiorPts] at hp
      omega
  refine ⟨hnodup, fun p q => setFromTriplets_eq_overwrite _ hnodup p q, ?_⟩
  intro k hk
  have himax : 0 < imax := by omega
  have hi : k % imax < imax := Nat.mod_lt k himax
  have hj : k / imax < jmax := Nat.div_lt_of_lt_mul hk
  have hkij : k / imax * imax + k % imax = k := Nat.div_add_mod' k imax
  generalize k % imax = i at hi hkij
  generalize k / imax = j at hj hkij
  by_cases hb : i = 0 ∨ i = imax - 1 ∨ j = 0 ∨ j = jmax - 1
  · have h := coefficients_row_boundary h3i h3j hn grid boundaries valueSource u0 hi hj hb
    rw [hkij] at h
    have hmem : (⟨k, k, 1⟩ : Triplet) ∈
        (assemble imax jmax grid boundaries valueSource u0).coefficients.filter (inRow k) := by
      rw [h]
      exact List.mem_singleton.mpr rfl
    exact ⟨_, (List.mem_filter.mp hmem).1, rfl⟩
  · have hi' : 1 ≤ i ∧ i + 1 < imax := by omega
    have hj' : 1 ≤ j ∧ j + 1 < jmax := by omega
    have h := coefficients_row_interior h3i h3j hn grid boundaries valueSource u0 hi' hj'
    rw [stencil_interior hn hi' hj', hkij] at h
    have hmem : (⟨k, (j - 1) * imax + i,
        -2 / ((grid.y j - grid.y (j - 1)) *
          ((grid.y j - grid.y (j - 1)) + (grid.y (j + 1) - grid.y j)))⟩ : Triplet) ∈
        (assemble imax jmax grid boundaries valueSource u0).coefficients.filter (inRow k) := by
      rw [h]
      exact List.mem_cons_self _ _
    exact ⟨_, (List.mem_filter.mp hmem).1, rfl⟩

/-- Witness for C19: the 3 x 3 unit grid. -/
theorem triplets_have_distinct_positions_witness :
    (3 ≤ 3 ∧ 3 * 3 < 2 ^ 32) ∧
    (((assemble 3 3 unitGrid westBoundaries unitSource (fun _ => 7)).coefficients.map
      (fun t => (t.row, t.col))).Nodup ∧
    (∀ p q, setFromTriplets
        (assemble 3 3 unitGrid westBoundaries unitSource (fun _ => 7)).coefficients p q =
      setFromTripletsOverwrite
        (assemble 3 3 unitGrid westBoundaries unitSource (fun _ => 7)).coefficients p q) ∧
    ∀ k, k < 3 * 3 →
      ∃ t ∈ (assemble 3 3 unitGrid westBoundaries unitSource (fun _ => 7)).coefficients,
        t.row = k) :=
  ⟨⟨by decide, by norm_num⟩,
    triplets_have_distinct_positions (by decide) (by decide) (by norm_num) unitGrid
      westBoundaries unitSource (fun _ => 7)⟩

/-! ## Every index of the assembly pass is in bounds -/

theorem interiorAccesses_in_bounds {imax jmax i j : Nat} (hn : imax * jmax < 2 ^ 32)
    (hi : 1 ≤ i ∧ i + 1 < imax) (hj : 1 ≤ j ∧ j + 1 < jmax) :
    ∀ a ∈ interiorAccesses imax j i, a.index < extent imax jmax a.arr := by
  have hi32 : imax < 2 ^ 32 := imax_lt (by omega) hn
  have hj32 : jmax < 2 ^ 32 := jmax_lt (by omega) hn
  have e1 : u32sub i 1 = i - 1 := u32sub_of_le (by omega) (by omega)
  have e2 : u32sub j 1 = j - 1 := u32sub_of_le (by omega) (by omega)
  have e3 : u32 (i + 1) = i + 1 := u32_of_lt (by omega)
  have e4 : u32 (j + 1) = j + 1 := u32_of_lt (by omega)
  have en : u32 (imax * jmax) = imax * jmax := u32_of_lt hn
  have f1 := flatten_grid hn (show i < imax by omega) (show j < jmax by omega)
  have f2 := flatten_grid hn (show i < imax by omega) (show j - 1 < jmax by omega)
  have f3 := flatten_grid hn (show i - 1 < imax by omega) (show j < jmax by omega)
  have f4 := flatten_grid hn (show i + 1 < imax by omega) (show j < jmax by omega)
  have f5 := flatten_grid hn (show i < imax by omega) (show j + 1 < jmax by omega)
  have b1 := idx_lt (show i < imax by omega) (show j < jmax by omega)
  have b2 := idx_lt (show i < imax by omega) (show j - 1 < jmax by omega)
  have b3 := idx_lt (show i - 1 < imax by omega) (show j < jmax by omega)
  have b4 := idx_lt (show i + 1 < imax by omega) (show j < jmax by omega)
  have b5 := idx_lt (show i < imax by omega) (show j + 1 < jmax by omega)
  intro a ha
  unfold interiorAccesses at ha
  rw [e1, e2, e3, e4, f1, f2, f3, f4, f5] at ha
  simp only [List.mem_cons, List.mem_singleton, List.not_mem_nil, or_false] at ha
  rcases ha with h | h | h | h | h | h | h | h | h | h | h | h | h | h | h | h | h | h | h |
    h | h <;> subst h <;> simp only [extent, en] <;> omega

theorem boundaryAccesses_in_bounds {imax jmax : Nat} (edge : ArrayName) (idx k : Nat)
    (hidx : idx < u32 (imax * jmax)) (hk : k < extent imax jmax edge) :
    ∀ a ∈ boundaryAccesses edge idx k, a.index < extent imax jmax a.arr := by
  intro a ha
  unfold boundaryAccesses at ha
  simp only [List.mem_cons, List.mem_singleton, List.not_mem_nil, or_false] at ha
  rcases ha with h | h | h | h | h | h <;> subst h <;> first | exact hidx | exact hk

/-- C20. For `imax, jmax ≥ 3` and `imax*jmax < 2^32`: every subscript evaluated during
assembly is smaller than the size of the object it indexes; every triplet row and column
of the list built is `< n`; `b` and `u` are not written at any index `≥ n`; and none of the
`u32` expressions `imax-1`, `jmax-1`, `i-1`, `j-1`, `i+1`, `j+1`, `j*imax+i`, `n` wraps. -/
theorem assembly_indices_in_bounds {imax jmax : Nat} (h3i : 3 ≤ imax) (h3j : 3 ≤ jmax)
    (hn : imax * jmax < 2 ^ 32) (grid : gridStruct) (boundaries : boundaryStruct)
    (valueSource : ℚ → ℚ → ℚ) (u0 : Nat → ℚ) :
    (∀ a ∈ assemblyAccesses imax jmax, a.index < extent imax jmax a.arr) ∧
    (∀ t ∈ (assemble imax jmax grid boundaries valueSource u0).coefficients,
      t.row < imax * jmax ∧ t.col < imax * jmax) ∧
    (∀ k, imax * jmax ≤ k →
      (assemble imax jmax grid boundaries valueSource u0).b k = 0 ∧
      (assemble imax jmax grid boundaries valueSource u0).u k = u0 k) ∧
    (u32 (imax * jmax) = imax * jmax ∧ u32sub imax 1 = imax - 1 ∧ u32sub jmax 1 = jmax - 1) ∧
    (∀ j ∈ forRange 1 (u32sub jmax 1), ∀ i ∈ forRange 1 (u32sub imax 1),
      (1 ≤ i ∧ u32sub i 1 = i - 1) ∧ (1 ≤ j ∧ u32sub j 1 = j - 1) ∧
      (i + 1 < 2 ^ 32 ∧ u32 (i + 1) = i + 1) ∧ (j + 1 < 2 ^ 32 ∧ u32 (j + 1) = j + 1)) ∧
    (∀ i j, i < imax → j < jmax →
      j * imax + i < 2 ^ 32 ∧ flatten i j imax = j * imax + i ∧
      flattenI64 i j imax = j * imax + i) := by
  have hi32 := imax_lt h3j hn
  have hj32 := jmax_lt h3i hn
  have hsi : u32sub imax 1 = imax - 1 := u32sub_of_le (by omega) hi32
  have hsj : u32sub jmax 1 = jmax - 1 := u32sub_of_le (by omega) hj32
  have en : u32 (imax * jmax) = imax * jmax := u32_of_lt hn
  refine ⟨?_, ?_, ?_, ⟨en, hsi, hsj⟩, ?_, ?_⟩
  · intro a ha
    unfold assemblyAccesses at ha
    rw [hsi, hsj] at ha
    simp only [List.mem_append, List.mem_flatMap, mem_forRange] at ha
    rcases ha with ⟨j, hj, i, hi, h⟩ | ⟨i, hi, h⟩ | ⟨i, hi, h⟩ | ⟨j, hj, h⟩ | ⟨j, hj, h⟩
    · exact interiorAccesses_in_bounds hn (by omega) (by omega) a h
    · refine boundaryAccesses_in_bounds ArrayName.South _ i ?_ (by simp only [extent]; omega) a h
      rw [en, flatten_grid hn (show i < imax by omega) (show 0 < jmax by omega)]
      exact idx_lt (by omega) (by omega)
    · refine boundaryAccesses_in_bounds ArrayName.North _ i ?_ (by simp only [extent]; omega) a h
      rw [en, flatten_grid hn (show i < imax by omega) (show jmax - 1 < jmax by omega)]
      exact idx_lt (by omega) (by omega)
    · refine boundaryAccesses_in_bounds ArrayName.West _ j ?_ (by simp only [extent]; omega) a h
      rw [en, flattenI64_eq_flatten,
        flatten_grid hn (show 0 < imax by omega) (show j < jmax by omega)]
      exact idx_lt (by omega) (by omega)
    · refine boundaryAccesses_in_bounds ArrayName.East _ j ?_ (by simp only [extent]; omega) a h
      rw [en, flattenI64_eq_flatten,
        flatten_grid hn (show imax - 1 < imax by omega) (show j < jmax by omega)]
      exact idx_lt (by omega) (by omega)
  · intro t ht
    rw [assemble_coefficients h3i h3j hn, List.mem_append, List.mem_flatMap, List.mem_map] at ht
    rcases ht with ⟨p, hp, ht⟩ | ⟨p, hp, rfl⟩
    · obtain ⟨i, j⟩ := p
      rw [mem_interiorPts] at hp
      simp only at hp ht
      rw [stencil_interior hn (show 1 ≤ i ∧ i + 1 < imax by omega)
        (show 1 ≤ j ∧ j + 1 < jmax by omega)] at ht
      have b1 := idx_lt (show i < imax by omega) (show j < jmax by omega)
      have b2 := idx_lt (show i < imax by omega) (show j - 1 < jmax by omega)
      have b3 := idx_lt (show i - 1 < imax by omega) (show j < jmax by omega)
      have b4 := idx_lt (show i + 1 < imax by omega) (show j < jmax by omega)
      have b5 := idx_lt (show i < imax by omega) (show j + 1 < jmax by omega)
      simp only [List.mem_cons, List.mem_singleton, List.not_mem_nil, or_false] at ht
      rcases ht with rfl | rfl | rfl | rfl | rfl <;> exact ⟨by assumption, by assumption⟩
    · rw [mem_boundaryPts h3i h3j] at hp
      exact ⟨idx_lt hp.1 hp.2.1, idx_lt hp.1 hp.2.1⟩
  · intro k hk
    have hIw : ∀ w ∈ (interiorPts imax jmax).map
        (fun p => (pidx imax p, valueSource (grid.x p.1) (grid.y p.2))), w.1 ≠ k := by
      intro w hw
      rw [List.mem_map] at hw
      obtain ⟨p, hp, rfl⟩ := hw
      rw [mem_interiorPts] at hp
      have := idx_lt (show p.1 < imax by omega) (show p.2 < jmax by omega)
      simp only [pidx]
      omega
    have hBw : ∀ w ∈ (boundaryPts imax jmax).map
        (fun p => (pidx imax p, boundaryValue imax boundaries p)), w.1 ≠ k := by
      intro w hw
      rw [List.mem_map] at hw
      obtain ⟨p, hp, rfl⟩ := hw
      rw [mem_boundaryPts h3i h3j] at hp
      have := idx_lt hp.1 hp.2.1
      simp only [pidx]
      omega
    rw [assemble_b h3i h3j hn, assemble_u h3i h3j hn, writes_of_not_mem _ _ k hBw,
      writes_of_not_mem _ _ k hIw, writes_of_not_mem _ _ k hBw]
    exact ⟨rfl, rfl⟩
  · intro j hj i hi
    rw [hsj, mem_forRange] at hj
    rw [hsi, mem_forRange] at hi
    exact ⟨⟨hi.1, u32sub_of_le (by omega) (by omega)⟩,
      ⟨hj.1, u32sub_of_le (by omega) (by omega)⟩,
      ⟨by omega, u32_of_lt (by omega)⟩, ⟨by omega, u32_of_lt (by omega)⟩⟩
  · intro i j hi hj
    have := idx_lt hi hj
    exact ⟨by omega, flatten_grid hn hi hj,
      by rw [flattenI64_eq_flatten]; exact flatten_grid hn hi hj⟩

/-- Witness for C20: the 3 x 3 unit grid. -/
theorem assembly_indices_in_bounds_witness :
    (3 ≤ 3 ∧ 3 * 3 < 2 ^ 32) ∧
    ((∀ a ∈ assemblyAccesses 3 3, a.index < extent 3 3 a.arr) ∧
    (∀ t ∈ (assemble 3 3 unitGrid westBoundaries unitSource (fun _ => 7)).coefficients,
      t.row < 3 * 3 ∧ t.col < 3 * 3) ∧
    (∀ k, 3 * 3 ≤ k →
      (assemble 3 3 unitGrid westBoundaries unitSource (fun _ => 7)).b k = 0 ∧
      (assemble 3 3 unitGrid westBoundaries unitSource (fun _ => 7)).u k = (fun _ => 7) k) ∧
    (u32 (3 * 3) = 3 * 3 ∧ u32sub 3 1 = 3 - 1 ∧ u32sub 3 1 = 3 - 1) ∧
    (∀ j ∈ forRange 1 (u32sub 3 1), ∀ i ∈ forRange 1 (u32sub 3 1),
      (1 ≤ i ∧ u32sub i 1 = i - 1) ∧ (1 ≤ j ∧ u32sub j 1 = j - 1) ∧
      (i + 1 < 2 ^ 32 ∧ u32 (i + 1) = i + 1) ∧ (j + 1 < 2 ^ 32 ∧ u32 (j + 1) = j + 1)) ∧
    (∀ i j, i < 3 → j < 3 →
      j * 3 + i < 2 ^ 32 ∧ flatten i j 3 = j * 3 + i ∧ flattenI64 i j 3 = j * 3 + i)) :=
  ⟨⟨by decide, by norm_num⟩,
    assembly_indices_in_bounds (by decide) (by decide) (by norm_num) unitGrid westBoundaries
      unitSource (fun _ => 7)⟩

end Poisson
